import Mathlib

/-!
# reqbin: binding HTTP request parameters into struct fields

A shallow embedding of `request_binding.go` (package `reqbin`) together with the
parts of the Go standard library it calls (`net/url`, `strconv`, `time`,
`reflect`, `net/http`), followed by theorems about `validateAndGetType`,
`getListOfParamNames`, `setFieldValue` and `UnmarshallRequestForm`.

Conventions.
* A Go string is a sequence of bytes.  It is represented by a Lean `String`
  holding one character per byte (character code = byte value).
* The platform `int` is 64 bits wide.
* A call either returns or panics; `Outcome` records which.
* Floating point parsing (`strconv.ParseFloat`), `strconv.Quote` and the
  machine's local time zone are inputs of the model (`Lib`).
-/

namespace Reqbin

/-! ## Errors and outcomes -/

/-- The two sentinel errors carried by a `*strconv.NumError`. -/
inductive NumErrKind where
  | ErrSyntaxKind
  | ErrRange
  deriving DecidableEq, Repr

/-- Go `error` values that the binder can return. -/
inductive GoError where
  /-- A `url.EscapeError`, holding the offending fragment. -/
  | EscapeError (s : String)
  /-- A `*strconv.NumError` with its `Func`, `Num` and `Err` fields. -/
  | NumError (Func : String) (Num : String) (Err : NumErrKind)
  /-- An error made by `errors.New`, or by `fmt.Errorf` without `%w`. -/
  | errorString (s : String)
  /-- An error made by `fmt.Errorf` with `%w`: the formatted message and the wrapped error. -/
  | wrapError (msg : String) (err : GoError)
  deriving DecidableEq, Repr

/-- The result of a Go call: it panics or it returns. -/
inductive Outcome (α : Type) where
  | panic (msg : String)
  | returned (a : α)
  deriving DecidableEq, Repr

/-- Equality of results of fallible calls is decidable. -/
instance instDecidableEqExcept {ε α : Type} [DecidableEq ε] [DecidableEq α] :
    DecidableEq (Except ε α) := fun a b =>
  match a, b with
  | .ok x, .ok y => if h : x = y then isTrue (by rw [h]) else isFalse (fun e => h (by cases e; rfl))
  | .error x, .error y =>
    if h : x = y then isTrue (by rw [h]) else isFalse (fun e => h (by cases e; rfl))
  | .ok _, .error _ => isFalse (fun e => by cases e)
  | .error _, .ok _ => isFalse (fun e => by cases e)

/-- A float64, by its IEEE-754 bit pattern. -/
structure Float64 where
  bits : Nat
  deriving DecidableEq, Repr

/-! ## net/url: QueryUnescape and ParseQuery -/

/-- Go `url.ishex`. -/
def ishex (c : Char) : Bool :=
  ('0' ≤ c && c ≤ '9') || ('a' ≤ c && c ≤ 'f') || ('A' ≤ c && c ≤ 'F')

/-- Go `url.unhex`. -/
def unhex (c : Char) : Nat :=
  if '0' ≤ c && c ≤ '9' then c.toNat - '0'.toNat
  else if 'a' ≤ c && c ≤ 'f' then c.toNat - 'a'.toNat + 10
  else if 'A' ≤ c && c ≤ 'F' then c.toNat - 'A'.toNat + 10
  else 0

/-- First loop of Go `url.unescape` in query-component mode: it counts the
`%` signs, checks that each is followed by two hex digits and notes whether a
`+` occurs.  On a malformed escape it fails with the fragment (at most three
bytes, starting at the `%`). -/
def unescapeScan : List Char → Nat → Bool → Except GoError (Nat × Bool)
  | [], n, hasPlus => .ok (n, hasPlus)
  | c :: rest, n, hasPlus =>
    if c = '%' then
      match rest with
      | a :: b :: rest2 =>
        if ishex a && ishex b then unescapeScan rest2 (n + 1) hasPlus
        else .error (.EscapeError (String.mk ((c :: rest).take 3)))
      | _ => .error (.EscapeError (String.mk ((c :: rest).take 3)))
    else if c = '+' then unescapeScan rest n true
    else unescapeScan rest n hasPlus

/-- Second loop of Go `url.unescape` in query-component mode: it writes the
decoded bytes. -/
def unescapeBuild : List Char → List Char
  | [] => []
  | c :: rest =>
    if c = '%' then
      match rest with
      | a :: b :: rest2 => Char.ofNat (unhex a * 16 + unhex b) :: unescapeBuild rest2
      | _ => []
    else if c = '+' then ' ' :: unescapeBuild rest
    else c :: unescapeBuild rest

/-- Go `url.QueryUnescape`. -/
def QueryUnescape (s : String) : Except GoError String :=
  match unescapeScan s.data 0 false with
  | .error e => .error e
  | .ok (n, hasPlus) =>
    if n = 0 && !hasPlus then .ok s
    else .ok (String.mk (unescapeBuild s.data))

/-- Go `strings.Cut` on byte lists: the text before the first `sep`, the text
after it, and whether `sep` was found. -/
def cut (sep : Char) : List Char → List Char × List Char × Bool
  | [] => ([], [], false)
  | c :: rest =>
    if c = sep then ([], rest, true)
    else
      let r := cut sep rest
      (c :: r.1, r.2.1, r.2.2)

/-- Go `url.Values`: a map from keys to the list of their values. -/
abbrev Values := List (String × List String)

/-- Map lookup `v[key]` (nil when absent). -/
def Values.lookup (v : Values) (key : String) : List String :=
  match v with
  | [] => []
  | (k, vs) :: rest => if k = key then vs else Values.lookup rest key

/-- Map update `v[key] = append(v[key], vs...)`. -/
def Values.append (v : Values) (key : String) (vs : List String) : Values :=
  match v with
  | [] => [(key, vs)]
  | (k, old) :: rest =>
    if k = key then (k, old ++ vs) :: rest else (k, old) :: Values.append rest key vs

/-- Go `http.copyValues`. -/
def copyValues (dst src : Values) : Values :=
  src.foldl (fun d kv => Values.append d kv.1 kv.2) dst

/-- Loop of Go `url.parseQuery`; `fuel` bounds the number of `&`-separated
pieces (the length of the query is always enough). -/
def parseQueryLoop : Nat → List Char → Values → Option GoError → Values × Option GoError
  | 0, _, m, err => (m, err)
  | fuel + 1, query, m, err =>
    if query = [] then (m, err)
    else
      let c := cut '&' query
      let key := c.1
      let query := c.2.1
      if ';' ∈ key then
        parseQueryLoop fuel query m (some (.errorString "invalid semicolon separator in query"))
      else if key = [] then parseQueryLoop fuel query m err
      else
        let kv := cut '=' key
        match QueryUnescape (String.mk kv.1) with
        | .error err1 => parseQueryLoop fuel query m (if err = none then some err1 else err)
        | .ok key =>
          match QueryUnescape (String.mk kv.2.1) with
          | .error err1 => parseQueryLoop fuel query m (if err = none then some err1 else err)
          | .ok value => parseQueryLoop fuel query (Values.append m key [value]) err

/-- Go `url.ParseQuery`. -/
def ParseQuery (query : String) : Values × Option GoError :=
  parseQueryLoop (query.data.length + 1) query.data [] none

/-! ## strconv: Atoi and ParseBool -/

/-- Loop of Go `strconv.ParseUint` for base 10 and 64 bits: the digits are
accumulated in `n`; a byte that is not a digit is a syntax error, an overflow
of uint64 a range error. -/
def parseUintLoop : List Char → Nat → Except NumErrKind Nat
  | [], n => .ok n
  | c :: cs, n =>
    if '0' ≤ c && c ≤ '9' then
      if n ≥ (2 ^ 64 - 1) / 10 + 1 then .error .ErrRange
      else
        let n1 := n * 10 + (c.toNat - '0'.toNat)
        if n1 > 2 ^ 64 - 1 then .error .ErrRange
        else parseUintLoop cs n1
    else .error .ErrSyntaxKind

/-- Go `strconv.ParseUint(s, 10, 64)`, on the bytes of `s`. -/
def ParseUint (s : List Char) : Except NumErrKind Nat :=
  if s = [] then .error .ErrSyntaxKind else parseUintLoop s 0

/-- Go `strconv.ParseInt(s, 10, 0)` with a 64-bit `int`, on the bytes of `s`:
an optional sign, then `ParseUint`, then the range check against 2^63. -/
def ParseInt (s : List Char) : Except NumErrKind Int :=
  match s with
  | [] => .error .ErrSyntaxKind
  | c :: rest =>
    let neg := decide (c = '-')
    let body := if c = '+' ∨ c = '-' then rest else s
    match ParseUint body with
    | .error .ErrSyntaxKind => .error .ErrSyntaxKind
    | .error .ErrRange => .error .ErrRange
    | .ok un =>
      if !neg && un ≥ 2 ^ 63 then .error .ErrRange
      else if neg && un > 2 ^ 63 then .error .ErrRange
      else .ok (if neg then - (un : Int) else (un : Int))

/-- Go `strconv.Atoi` on a 64-bit platform.  (Its fast path for short inputs
computes the same result as `ParseInt(s, 10, 0)`.)  The error is a
`*NumError` with `Func = "Atoi"` and `Num = s`. -/
def Atoi (s : String) : Except GoError Int :=
  match ParseInt s.data with
  | .ok n => .ok n
  | .error k => .error (.NumError "Atoi" s k)

/-- Go `strconv.ParseBool`. -/
def ParseBool (str : String) : Except GoError Bool :=
  if str = "1" ∨ str = "t" ∨ str = "T" ∨ str = "TRUE" ∨ str = "true" ∨ str = "True" then .ok true
  else if str = "0" ∨ str = "f" ∨ str = "F" ∨ str = "FALSE" ∨ str = "false" ∨ str = "False" then
    .ok false
  else .error (.NumError "ParseBool" str .ErrSyntaxKind)

/-- Two's complement wrap of an integer to `bits` bits (a Go conversion such
as `int8(x)`). -/
def wrap (bits : Nat) (n : Int) : Int :=
  (n + 2 ^ (bits - 1)) % 2 ^ bits - 2 ^ (bits - 1)

/-- The library facts the model takes as inputs: floating point parsing
(`strconv.ParseFloat(s, bitSize)`), `strconv.Quote` (used in error messages
only) and the machine's local time zone, by `Local.lookup` (name and offset
in force at an instant) and `Local.lookupName` (offset of an abbreviation). -/
structure Lib where
  ParseFloat : String → Nat → Except GoError Float64
  Quote : String → String
  LocalLookup : Int → String × Int
  LocalLookupName : String → Int → Option Int

/-! ## time: layouts and Parse -/

/-- A `*time.Location` as `time.Parse` can return it: UTC, the local zone, or
a zone fabricated by `FixedZone`. -/
inductive Location where
  | UTC
  | Local
  | Fixed (name : String) (offset : Int)
  deriving DecidableEq, Repr

/-- A `time.Time`: seconds since the Unix epoch, nanoseconds within the
second, and the location. -/
structure Time where
  sec : Int
  nsec : Int
  loc : Location
  deriving DecidableEq, Repr

/-- The zero `time.Time`: January 1, year 1, 00:00:00 UTC. -/
def Time.zero : Time := ⟨-62135596800, 0, .UTC⟩

/-- The layout elements recognised by Go `time.nextStdChunk`. -/
inductive Std where
  | stdLongMonth | stdMonth | stdNumMonth | stdZeroMonth
  | stdLongWeekDay | stdWeekDay
  | stdDay | stdUnderDay | stdZeroDay | stdUnderYearDay | stdZeroYearDay
  | stdHour | stdHour12 | stdZeroHour12
  | stdMinute | stdZeroMinute | stdSecond | stdZeroSecond
  | stdLongYear | stdYear
  | stdPM | stdpm
  | stdTZ
  | stdISO8601TZ | stdISO8601SecondsTZ | stdISO8601ShortTZ | stdISO8601ColonTZ
  | stdISO8601ColonSecondsTZ
  | stdNumTZ | stdNumSecondsTz | stdNumShortTZ | stdNumColonTZ | stdNumColonSecondsTZ
  | stdFracSecond0 (digits : Nat)
  | stdFracSecond9 (digits : Nat)
  deriving DecidableEq, Repr

/-- If `l` starts with the literal `p`, the rest of `l`. -/
def stripLit : List Char → List Char → Option (List Char)
  | [], l => some l
  | _ :: _, [] => none
  | p :: ps, c :: cs => if p = c then stripLit ps cs else none

/-- Go `time.isDigit(s, 0)` on the head of a byte list. -/
def isDigit0 (s : List Char) : Bool :=
  match s with
  | [] => false
  | c :: _ => '0' ≤ c && c ≤ '9'

/-- Go `time.startsWithLowerCase`. -/
def startsWithLowerCase (s : List Char) : Bool :=
  match s with
  | [] => false
  | c :: _ => 'a' ≤ c && c ≤ 'z'

/-- Layout element starting at the head of the layout, if any, as the cases of
the `switch` in Go `time.nextStdChunk` decide it: the literal bytes that still
belong to the text before the element (only `_` before `2006`), the element and
the rest of the layout. -/
def stdAt (l : List Char) : Option (List Char × Std × List Char) :=
  match l with
  | [] => none
  | c :: rest =>
    if c = 'J' then
      match stripLit "Jan".data l with
      | none => none
      | some after3 =>
        match stripLit "January".data l with
        | some after7 => some ([], .stdLongMonth, after7)
        | none => if !startsWithLowerCase after3 then some ([], .stdMonth, after3) else none
    else if c = 'M' then
      match stripLit "Mon".data l with
      | some after3 =>
        match stripLit "Monday".data l with
        | some after6 => some ([], .stdLongWeekDay, after6)
        | none => if !startsWithLowerCase after3 then some ([], .stdWeekDay, after3) else none
      | none =>
        match stripLit "MST".data l with
        | some after3 => some ([], .stdTZ, after3)
        | none => none
    else if c = '0' then
      match rest with
      | d :: rest2 =>
        if d = '1' then some ([], .stdZeroMonth, rest2)
        else if d = '2' then some ([], .stdZeroDay, rest2)
        else if d = '3' then some ([], .stdZeroHour12, rest2)
        else if d = '4' then some ([], .stdZeroMinute, rest2)
        else if d = '5' then some ([], .stdZeroSecond, rest2)
        else if d = '6' then some ([], .stdYear, rest2)
        else
          match stripLit "002".data l with
          | some after3 => some ([], .stdZeroYearDay, after3)
          | none => none
      | [] => none
    else if c = '1' then
      match stripLit "15".data l with
      | some after2 => some ([], .stdHour, after2)
      | none => some ([], .stdNumMonth, rest)
    else if c = '2' then
      match stripLit "2006".data l with
      | some after4 => some ([], .stdLongYear, after4)
      | none => some ([], .stdDay, rest)
    else if c = '_' then
      match stripLit "_2".data l with
      | some after2 =>
        match stripLit "_2006".data l with
        | some after5 => some (['_'], .stdLongYear, after5)
        | none => some ([], .stdUnderDay, after2)
      | none =>
        match stripLit "__2".data l with
        | some after3 => some ([], .stdUnderYearDay, after3)
        | none => none
    else if c = '3' then some ([], .stdHour12, rest)
    else if c = '4' then some ([], .stdMinute, rest)
    else if c = '5' then some ([], .stdSecond, rest)
    else if c = 'P' then
      match stripLit "PM".data l with
      | some after2 => some ([], .stdPM, after2)
      | none => none
    else if c = 'p' then
      match stripLit "pm".data l with
      | some after2 => some ([], .stdpm, after2)
      | none => none
    else if c = '-' then
      match stripLit "-070000".data l with
      | some r => some ([], .stdNumSecondsTz, r)
      | none =>
      match stripLit "-07:00:00".data l with
      | some r => some ([], .stdNumColonSecondsTZ, r)
      | none =>
      match stripLit "-0700".data l with
      | some r => some ([], .stdNumTZ, r)
      | none =>
      match stripLit "-07:00".data l with
      | some r => some ([], .stdNumColonTZ, r)
      | none =>
      match stripLit "-07".data l with
      | some r => some ([], .stdNumShortTZ, r)
      | none => none
    else if c = 'Z' then
      match stripLit "Z070000".data l with
      | some r => some ([], .stdISO8601SecondsTZ, r)
      | none =>
      match stripLit "Z07:00:00".data l with
      | some r => some ([], .stdISO8601ColonSecondsTZ, r)
      | none =>
      match stripLit "Z0700".data l with
      | some r => some ([], .stdISO8601TZ, r)
      | none =>
      match stripLit "Z07:00".data l with
      | some r => some ([], .stdISO8601ColonTZ, r)
      | none =>
      match stripLit "Z07".data l with
      | some r => some ([], .stdISO8601ShortTZ, r)
      | none => none
    else if c = '.' ∨ c = ',' then
      match rest with
      | ch :: _ =>
        if ch = '0' ∨ ch = '9' then
          let run := rest.takeWhile (fun x => x = ch)
          let after := rest.dropWhile (fun x => x = ch)
          if !isDigit0 after then
            some ([], if ch = '9' then .stdFracSecond9 run.length else .stdFracSecond0 run.length,
              after)
          else none
        else none
      | [] => none
    else none

/-- Go `time.nextStdChunk`: the text before the first layout element, the
element (`none` for Go's 0: no element left) and the text after it. -/
def nextStdChunk : List Char → List Char × Option Std × List Char
  | [] => ([], none, [])
  | c :: rest =>
    match stdAt (c :: rest) with
    | some (pre, std, suffix) => (pre, some std, suffix)
    | none =>
      let r := nextStdChunk rest
      (c :: r.1, r.2.1, r.2.2)

/-- Go `time.cutspace`. -/
def cutspace (s : List Char) : List Char :=
  s.dropWhile (fun c => c = ' ')

/-- Loop of Go `time.skip`: the value must start with the literal text `pre`;
a run of spaces in `pre` matches any run of spaces (also none at the end of the
value).  `fuel` bounds the iterations (the length of `pre` is enough). -/
def skipLoop : Nat → List Char → List Char → Option (List Char)
  | 0, _, _ => none
  | fuel + 1, value, pre =>
    match pre with
    | [] => some value
    | p :: ps =>
      if p = ' ' then
        match value with
        | v :: _ => if v ≠ ' ' then none else skipLoop fuel (cutspace value) (cutspace pre)
        | [] => skipLoop fuel (cutspace value) (cutspace pre)
      else
        match value with
        | [] => none
        | v :: vs => if v ≠ p then none else skipLoop fuel vs ps

/-- Go `time.skip`. -/
def skip (value pre : List Char) : Option (List Char) :=
  skipLoop (pre.length + 1) value pre

/-- Loop of Go `time.leadingInt`: the leading digits of `s` as a number, and
the rest; it fails on overflow beyond 2^63. -/
def leadingIntLoop : List Char → Nat → Option (Nat × List Char)
  | [], x => some (x, [])
  | c :: cs, x =>
    if c < '0' || c > '9' then some (x, c :: cs)
    else if x > 2 ^ 63 / 10 then none
    else
      let x1 := x * 10 + (c.toNat - '0'.toNat)
      if x1 > 2 ^ 63 then none else leadingIntLoop cs x1

/-- Go `time.leadingInt`. -/
def leadingInt (s : List Char) : Option (Nat × List Char) :=
  leadingIntLoop s 0

/-- Go `time.atoi`: an optional sign and digits up to the end of `s` (the
empty string gives 0). -/
def atoi (s : List Char) : Option Int :=
  let neg := match s with
    | c :: _ => decide (c = '-')
    | [] => false
  let body := match s with
    | c :: rest => if c = '-' ∨ c = '+' then rest else s
    | [] => s
  match leadingInt body with
  | none => none
  | some (q, rem) =>
    if rem ≠ [] then none
    else
      let x := wrap 64 (q : Int)
      some (if neg then wrap 64 (-x) else x)

/-- Value of a decimal digit byte. -/
def digitVal (c : Char) : Int :=
  ((c.toNat - '0'.toNat : Nat) : Int)

/-- Go `time.getnum`: a one- or two-digit number (two digits when `fixed`). -/
def getnum (s : List Char) (fixed : Bool) : Option (Int × List Char) :=
  match s with
  | [] => none
  | a :: rest =>
    if !isDigit0 s then none
    else if !isDigit0 rest then
      if fixed then none else some (digitVal a, rest)
    else
      match rest with
      | b :: rest2 => some (digitVal a * 10 + digitVal b, rest2)
      | [] => none

/-- Loop of Go `time.getnum3`: up to `k` leading digits are read into `n`; the
result has the number, the count of digits read and the rest. -/
def getnum3Loop : Nat → List Char → Int → Nat → Int × Nat × List Char
  | 0, s, n, i => (n, i, s)
  | k + 1, s, n, i =>
    match s with
    | c :: cs => if isDigit0 s then getnum3Loop k cs (n * 10 + digitVal c) (i + 1) else (n, i, s)
    | [] => (n, i, s)

/-- Go `time.getnum3`: a number of one to three digits (three when `fixed`). -/
def getnum3 (s : List Char) (fixed : Bool) : Option (Int × List Char) :=
  let r := getnum3Loop 3 s 0 0
  if r.2.1 = 0 || (fixed && r.2.1 ≠ 3) then none else some (r.1, r.2.2)

/-- Go `time.match`: equality of two byte strings of the same length, ignoring
the case of ASCII letters. -/
def matchFold : List Char → List Char → Bool
  | c1 :: s1, c2 :: s2 =>
    if c1 ≠ c2 then
      let l1 := c1.toNat ||| 32
      let l2 := c2.toNat ||| 32
      if l1 ≠ l2 || l1 < 'a'.toNat || l1 > 'z'.toNat then false else matchFold s1 s2
    else matchFold s1 s2
  | _, _ => true

/-- Go `time.lookup`: the index of the first name of `tab` that `val` starts
with (ignoring case), and the rest of `val`. -/
def lookup (tab : List String) (val : List Char) : Option (Int × List Char) :=
  match tab with
  | [] => none
  | v :: rest =>
    if val.length ≥ v.data.length && matchFold (val.take v.data.length) v.data then
      some (0, val.drop v.data.length)
    else
      match lookup rest val with
      | none => none
      | some (i, r) => some (i + 1, r)

/-- Go `time.shortDayNames`. -/
def shortDayNames : List String := ["Sun", "Mon", "Tue", "Wed", "Thu", "Fri", "Sat"]

/-- Go `time.longDayNames`. -/
def longDayNames : List String :=
  ["Sunday", "Monday", "Tuesday", "Wednesday", "Thursday", "Friday", "Saturday"]

/-- Go `time.shortMonthNames`. -/
def shortMonthNames : List String :=
  ["Jan", "Feb", "Mar", "Apr", "May", "Jun", "Jul", "Aug", "Sep", "Oct", "Nov", "Dec"]

/-- Go `time.longMonthNames`. -/
def longMonthNames : List String :=
  ["January", "February", "March", "April", "May", "June", "July", "August", "September",
    "October", "November", "December"]

/-- Go `time.commaOrPeriod`. -/
def commaOrPeriod (c : Char) : Bool :=
  c = '.' || c = ','

/-- Go `time.parseNanoseconds`: `value` starts with a comma or period followed
by digits; `nbytes` counts the separator and the digits to read.  The result is
scaled to nanoseconds.  A failure stands for Go's error or range error. -/
def parseNanoseconds (value : List Char) (nbytes : Nat) : Option Int :=
  match value with
  | [] => none
  | c :: _ =>
    if !commaOrPeriod c then none
    else
      let value := if nbytes > 10 then value.take 10 else value
      let nbytes := if nbytes > 10 then 10 else nbytes
      match atoi ((value.take nbytes).drop 1) with
      | none => none
      | some ns => if ns < 0 then none else some (ns * 10 ^ (10 - nbytes))

/-- Go `time.parseSignedOffset`: the length of a sign followed by an hour
number of at most 23 at the start of `value`, or 0. -/
def parseSignedOffset (value : List Char) : Nat :=
  match value with
  | [] => 0
  | sign :: rest =>
    if sign ≠ '-' ∧ sign ≠ '+' then 0
    else
      match leadingInt rest with
      | none => 0
      | some (x, rem) =>
        if rest = rem then 0
        else if x > 23 then 0
        else value.length - rem.length

/-- Go `time.parseGMT`: the length of `GMT` with its optional hour offset. -/
def parseGMT (value : List Char) : Nat :=
  let value := value.drop 3
  if value.length = 0 then 3 else 3 + parseSignedOffset value

/-- Number of leading upper-case letters of `value`, counted up to `k`. -/
def countUpper : Nat → List Char → Nat
  | 0, _ => 0
  | k + 1, s =>
    match s with
    | [] => 0
    | c :: cs => if c < 'A' || 'Z' < c then 0 else countUpper k cs + 1

/-- Go `time.parseTimeZone`: the length of the time zone abbreviation at the
start of `value`, if there is one. -/
def parseTimeZone (value : List Char) : Option Nat :=
  if value.length < 3 then none
  else if value.length ≥ 4 && (value.take 4 = "ChST".data || value.take 4 = "MeST".data) then
    some 4
  else if value.take 3 = "GMT".data then some (parseGMT value)
  else if value.head? = some '+' || value.head? = some '-' then
    let length := parseSignedOffset value
    if length > 0 then some length else none
  else
    let nUpper := countUpper 6 value
    if nUpper = 5 then (if value.get? 4 = some 'T' then some 5 else none)
    else if nUpper = 4 then
      (if value.get? 3 = some 'T' || value.take 4 = "WITA".data then some 4 else none)
    else if nUpper = 3 then some 3
    else none

/-- The local variables of Go `time.parse` that describe the time being
constructed (`z` tells whether the location was set, which is always to UTC). -/
structure ParseState where
  year : Int
  month : Int
  day : Int
  yday : Int
  hour : Int
  min : Int
  sec : Int
  nsec : Int
  z : Bool
  zoneOffset : Int
  zoneName : String
  amSet : Bool
  pmSet : Bool
  deriving DecidableEq, Repr

/-- Initial values of the variables of Go `time.parse`. -/
def ParseState.init : ParseState :=
  ⟨0, -1, -1, -1, 0, 0, 0, 0, false, -1, "", false, false⟩

/-- The numeric time zone cases of the `switch` in Go `time.parse`: a sign,
hours, minutes and perhaps seconds, laid out as the element says. -/
def parseNumTZ (std : Std) (value : List Char) (st : ParseState) :
    Option (List Char × ParseState) :=
  let parts : Option (List Char × List Char × List Char × List Char × List Char) :=
    if std = .stdISO8601ColonTZ ∨ std = .stdNumColonTZ then
      if value.length < 6 then none
      else if value.get? 3 ≠ some ':' then none
      else some (value.take 1, (value.drop 1).take 2, (value.drop 4).take 2, "00".data,
        value.drop 6)
    else if std = .stdNumShortTZ ∨ std = .stdISO8601ShortTZ then
      if value.length < 3 then none
      else some (value.take 1, (value.drop 1).take 2, "00".data, "00".data, value.drop 3)
    else if std = .stdISO8601ColonSecondsTZ ∨ std = .stdNumColonSecondsTZ then
      if value.length < 9 then none
      else if value.get? 3 ≠ some ':' ∨ value.get? 6 ≠ some ':' then none
      else some (value.take 1, (value.drop 1).take 2, (value.drop 4).take 2,
        (value.drop 7).take 2, value.drop 9)
    else if std = .stdISO8601SecondsTZ ∨ std = .stdNumSecondsTz then
      if value.length < 7 then none
      else some (value.take 1, (value.drop 1).take 2, (value.drop 3).take 2,
        (value.drop 5).take 2, value.drop 7)
    else
      if value.length < 5 then none
      else some (value.take 1, (value.drop 1).take 2, (value.drop 3).take 2, "00".data,
        value.drop 5)
  match parts with
  | none => none
  | some (sign, hour, min, seconds, value) =>
    match getnum hour true with
    | none => none
    | some (hr, _) =>
      match getnum min true with
      | none => none
      | some (mm, _) =>
        match getnum seconds true with
        | none => none
        | some (ss, _) =>
          if hr > 24 ∨ mm > 60 ∨ ss > 60 then none
          else
            let zoneOffset := (hr * 60 + mm) * 60 + ss
            if sign = ['+'] then some (value, { st with zoneOffset := zoneOffset })
            else if sign = ['-'] then some (value, { st with zoneOffset := -zoneOffset })
            else none

/-- One iteration of the `switch` in Go `time.parse`: the element `std` is read
from the front of `value`; `layout` is the layout after the element.  The result
is the rest of the value and the updated variables, or a failure (Go's `err` or
range error, which end the parse). -/
def parseStd (std : Std) (layout value : List Char) (st : ParseState) :
    Option (List Char × ParseState) :=
  match std with
  | .stdYear =>
    if value.length < 2 then none
    else
      match atoi (value.take 2) with
      | none => none
      | some year =>
        some (value.drop 2, { st with year := if year ≥ 69 then year + 1900 else year + 2000 })
  | .stdLongYear =>
    if value.length < 4 || !isDigit0 value then none
    else
      match atoi (value.take 4) with
      | none => none
      | some year => some (value.drop 4, { st with year := year })
  | .stdMonth =>
    match lookup shortMonthNames value with
    | none => none
    | some (month, value) => some (value, { st with month := month + 1 })
  | .stdLongMonth =>
    match lookup longMonthNames value with
    | none => none
    | some (month, value) => some (value, { st with month := month + 1 })
  | .stdNumMonth | .stdZeroMonth =>
    match getnum value (std = .stdZeroMonth) with
    | none => none
    | some (month, value) =>
      if month ≤ 0 ∨ 12 < month then none else some (value, { st with month := month })
  | .stdWeekDay =>
    match lookup shortDayNames value with
    | none => none
    | some (_, value) => some (value, st)
  | .stdLongWeekDay =>
    match lookup longDayNames value with
    | none => none
    | some (_, value) => some (value, st)
  | .stdDay | .stdUnderDay | .stdZeroDay =>
    let value := if std = .stdUnderDay ∧ value.head? = some ' ' then value.drop 1 else value
    match getnum value (std = .stdZeroDay) with
    | none => none
    | some (day, value) => some (value, { st with day := day })
  | .stdUnderYearDay | .stdZeroYearDay =>
    let value := if std = .stdUnderYearDay ∧ value.head? = some ' ' then value.drop 1 else value
    let value := if std = .stdUnderYearDay ∧ value.head? = some ' ' then value.drop 1 else value
    match getnum3 value (std = .stdZeroYearDay) with
    | none => none
    | some (yday, value) => some (value, { st with yday := yday })
  | .stdHour =>
    match getnum value false with
    | none => none
    | some (hour, value) =>
      if hour < 0 ∨ 24 ≤ hour then none else some (value, { st with hour := hour })
  | .stdHour12 | .stdZeroHour12 =>
    match getnum value (std = .stdZeroHour12) with
    | none => none
    | some (hour, value) =>
      if hour < 0 ∨ 12 < hour then none else some (value, { st with hour := hour })
  | .stdMinute | .stdZeroMinute =>
    match getnum value (std = .stdZeroMinute) with
    | none => none
    | some (min, value) =>
      if min < 0 ∨ 60 ≤ min then none else some (value, { st with min := min })
  | .stdSecond | .stdZeroSecond =>
    match getnum value (std = .stdZeroSecond) with
    | none => none
    | some (sec, value) =>
      if sec < 0 ∨ 60 ≤ sec then none
      else
        let st := { st with sec := sec }
        -- a fractional second in the input that the layout does not ask for
        if value.length ≥ 2 && commaOrPeriod (value.headD ' ') && isDigit0 (value.drop 1) then
          match (nextStdChunk layout).2.1 with
          | some (.stdFracSecond0 _) => some (value, st)
          | some (.stdFracSecond9 _) => some (value, st)
          | _ =>
            let n := 2 + ((value.drop 2).takeWhile (fun c => '0' ≤ c && c ≤ '9')).length
            match parseNanoseconds value n with
            | none => none
            | some nsec => some (value.drop n, { st with nsec := nsec })
        else some (value, st)
  | .stdPM =>
    if value.length < 2 then none
    else if value.take 2 = "PM".data then some (value.drop 2, { st with pmSet := true })
    else if value.take 2 = "AM".data then some (value.drop 2, { st with amSet := true })
    else none
  | .stdpm =>
    if value.length < 2 then none
    else if value.take 2 = "pm".data then some (value.drop 2, { st with pmSet := true })
    else if value.take 2 = "am".data then some (value.drop 2, { st with amSet := true })
    else none
  | .stdISO8601TZ | .stdISO8601ShortTZ | .stdISO8601ColonTZ | .stdISO8601SecondsTZ
  | .stdISO8601ColonSecondsTZ =>
    if value.head? = some 'Z' then some (value.drop 1, { st with z := true })
    else parseNumTZ std value st
  | .stdNumTZ | .stdNumShortTZ | .stdNumColonTZ | .stdNumSecondsTz | .stdNumColonSecondsTZ =>
    parseNumTZ std value st
  | .stdTZ =>
    if value.length ≥ 3 && value.take 3 = "UTC".data then
      some (value.drop 3, { st with z := true })
    else
      match parseTimeZone value with
      | none => none
      | some n => some (value.drop n, { st with zoneName := String.mk (value.take n) })
  | .stdFracSecond0 digits =>
    let ndigit := 1 + digits
    if value.length < ndigit then none
    else
      match parseNanoseconds value ndigit with
      | none => none
      | some nsec => some (value.drop ndigit, { st with nsec := nsec })
  | .stdFracSecond9 _ =>
    if value.length < 2 || !commaOrPeriod (value.headD ' ') || !isDigit0 (value.drop 1) then
      some (value, st)
    else
      let i := ((value.drop 1).takeWhile (fun c => '0' ≤ c && c ≤ '9')).length
      match parseNanoseconds value (1 + i) with
      | none => none
      | some nsec => some (value.drop (1 + i), { st with nsec := nsec })

/-- The main loop of Go `time.parse`: literal text is skipped, each layout
element is read, and at the end of the layout no text may be left.  `fuel`
bounds the iterations (the length of the layout plus one is enough). -/
def parseLoop : Nat → List Char → List Char → ParseState → Option ParseState
  | 0, _, _, _ => none
  | fuel + 1, layout, value, st =>
    let chunk := nextStdChunk layout
    match skip value chunk.1 with
    | none => none
    | some value =>
      match chunk.2.1 with
      | none => if value.length ≠ 0 then none else some st
      | some std =>
        match parseStd std chunk.2.2 value st with
        | none => none
        | some (value, st) => parseLoop fuel chunk.2.2 value st

/-- Go `time.isLeap`. -/
def isLeap (year : Int) : Bool :=
  year % 4 = 0 && (year % 100 ≠ 0 || year % 400 = 0)

/-- Go `time.daysBefore`: the days of a non-leap year before each month. -/
def daysBefore : List Int := [0, 31, 59, 90, 120, 151, 181, 212, 243, 273, 304, 334, 365]

/-- Go `time.daysIn`. -/
def daysIn (m : Int) (year : Int) : Int :=
  if m = 2 && isLeap year then 29
  else daysBefore.getD m.toNat 0 - daysBefore.getD (m.toNat - 1) 0

/-- Go `time.Date(year, month, day, hour, min, sec, nsec, UTC)` for arguments
that are in range (month 1..12, day within the month, hour below 24, minute and
second below 60, nanoseconds below 10^9), as `time.Parse` passes them after its
range checks: the days since January 1, 1970 in the proleptic Gregorian
calendar, times 86400, plus the seconds of the day. -/
def Date (year month day hour min sec nsec : Int) : Time :=
  let y := year - 1
  let days := 365 * y + y / 4 - y / 100 + y / 400
    + daysBefore.getD (month.toNat - 1) 0
    + (if month > 2 && isLeap year then 1 else 0)
    + (day - 1) - 719162
  ⟨days * 86400 + hour * 3600 + min * 60 + sec, nsec, .UTC⟩

/-- The end of Go `time.parse`, after the loop: the hour is adjusted for AM/PM,
a day of the year is converted to month and day, the day is checked against the
month, and the time is built in the zone that was read.  `local` is the
machine's zone and the default location is UTC, as `time.Parse` passes them. -/
def finishParse (L : Lib) (st : ParseState) : Option Time :=
  let hour :=
    if st.pmSet && st.hour < 12 then st.hour + 12
    else if st.amSet && st.hour = 12 then 0
    else st.hour
  let md : Option (Int × Int) :=
    if st.yday ≥ 0 then
      let leapFeb29 := isLeap st.year && st.yday = 31 + 29
      let yday := if isLeap st.year && st.yday > 31 + 29 then st.yday - 1 else st.yday
      if yday < 1 ∨ yday > 365 then none
      else
        let m0 := (yday - 1) / 31 + 1
        let m1 := if daysBefore.getD m0.toNat 0 < yday then m0 + 1 else m0
        let m := if leapFeb29 then 2 else m1
        let d := if leapFeb29 then 29 else yday - daysBefore.getD (m1.toNat - 1) 0
        if st.month ≥ 0 ∧ st.month ≠ m then none
        else if st.day ≥ 0 ∧ st.day ≠ d then none
        else some (m, d)
    else some (if st.month < 0 then 1 else st.month, if st.day < 0 then 1 else st.day)
  match md with
  | none => none
  | some (month, day) =>
    if day < 1 ∨ day > daysIn month st.year then none
    else
      let t := Date st.year month day hour st.min st.sec st.nsec
      if st.z then some t
      else if st.zoneOffset ≠ -1 then
        let t := { t with sec := t.sec - st.zoneOffset }
        let lk := L.LocalLookup t.sec
        if lk.2 = st.zoneOffset ∧ (st.zoneName = "" ∨ lk.1 = st.zoneName) then
          some { t with loc := .Local }
        else some { t with loc := .Fixed st.zoneName st.zoneOffset }
      else if st.zoneName ≠ "" then
        match L.LocalLookupName st.zoneName t.sec with
        | some offset => some { t with sec := t.sec - offset, loc := .Local }
        | none =>
          let offset :=
            if st.zoneName.data.length > 3 ∧ st.zoneName.data.take 3 = "GMT".data then
              (atoi (st.zoneName.data.drop 3)).getD 0 * 3600
            else 0
          some { t with loc := .Fixed st.zoneName offset }
      else some t

/-- Go `time.parse(layout, value, UTC, Local)`. -/
def parse (L : Lib) (layout value : List Char) : Option Time :=
  match parseLoop (layout.length + 1) layout value .init with
  | none => none
  | some st => finishParse L st

/-- The closure `parseUint` of Go `time.parseRFC3339`: all bytes of `s` are
digits and the number lies between `min` and `max`. -/
def parseUintIn (s : List Char) (min max : Int) : Option Int :=
  if s.all (fun c => '0' ≤ c && c ≤ '9') then
    let x := s.foldl (fun x c => x * 10 + digitVal c) 0
    if x < min ∨ max < x then none else some x
  else none

/-- Go `time.parseRFC3339(s, Local)`: the fast path of `time.Parse` for the
two RFC 3339 layouts; a failure sends `Parse` to the general parser. -/
def parseRFC3339 (L : Lib) (s : List Char) : Option Time :=
  if s.length < "2006-01-02T15:04:05".data.length then none
  else
    match parseUintIn (s.take 4) 0 9999, parseUintIn ((s.drop 5).take 2) 1 12 with
    | some year, some month =>
      match parseUintIn ((s.drop 8).take 2) 1 (daysIn month year),
        parseUintIn ((s.drop 11).take 2) 0 23, parseUintIn ((s.drop 14).take 2) 0 59,
        parseUintIn ((s.drop 17).take 2) 0 59 with
      | some day, some hour, some min, some sec =>
        if ¬ (s.get? 4 = some '-' ∧ s.get? 7 = some '-' ∧ s.get? 10 = some 'T'
            ∧ s.get? 13 = some ':' ∧ s.get? 16 = some ':') then none
        else
          let s := s.drop 19
          let hasFrac := s.length ≥ 2 && s.head? = some '.' && isDigit0 (s.drop 1)
          let n := 2 + ((s.drop 2).takeWhile (fun c => '0' ≤ c && c ≤ '9')).length
          let nsec := if hasFrac then (parseNanoseconds s n).getD 0 else 0
          let s := if hasFrac then s.drop n else s
          let t := Date year month day hour min sec nsec
          if s = ['Z'] then some t
          else if s.length ≠ "-07:00".data.length then none
          else
            match parseUintIn ((s.drop 1).take 2) 0 23, parseUintIn ((s.drop 4).take 2) 0 59 with
            | some hr, some mm =>
              if ¬ ((s.head? = some '-' ∨ s.head? = some '+') ∧ s.get? 3 = some ':') then none
              else
                let zoneOffset := if s.head? = some '-' then -((hr * 60 + mm) * 60)
                  else (hr * 60 + mm) * 60
                let t := { t with sec := t.sec - zoneOffset }
                if (L.LocalLookup t.sec).2 = zoneOffset then some { t with loc := .Local }
                else some { t with loc := .Fixed "" zoneOffset }
            | _, _ => none
      | _, _, _, _ => none
    | _, _ => none

/-- Go `time.RFC1123`. -/
def RFC1123 : String := "Mon, 02 Jan 2006 15:04:05 MST"

/-- Go `time.RFC1123Z`. -/
def RFC1123Z : String := "Mon, 02 Jan 2006 15:04:05 -0700"

/-- Go `time.RFC3339`. -/
def RFC3339 : String := "2006-01-02T15:04:05Z07:00"

/-- Go `time.RFC3339Nano`. -/
def RFC3339Nano : String := "2006-01-02T15:04:05.999999999Z07:00"

/-- Go `time.RFC822`. -/
def RFC822 : String := "02 Jan 06 15:04 MST"

/-- Go `time.RFC822Z`. -/
def RFC822Z : String := "02 Jan 06 15:04 -0700"

/-- Go `time.RFC850`. -/
def RFC850 : String := "Monday, 02-Jan-06 15:04:05 MST"

/-- Go `time.UnixDate`. -/
def UnixDate : String := "Mon Jan _2 15:04:05 MST 2006"

/-- Go `time.Parse(layout, value)`; `none` stands for a non-nil error (the
binder only tests the error against nil). -/
def Parse (L : Lib) (layout value : String) : Option Time :=
  if layout = RFC3339 ∨ layout = RFC3339Nano then
    match parseRFC3339 L value.data with
    | some t => some t
    | none => parse L layout.data value.data
  else parse L layout.data value.data

/-! ## Error messages -/

/-- The method `Error()` of the errors above. -/
def GoError.Error (L : Lib) : GoError → String
  | .EscapeError s => "invalid URL escape " ++ L.Quote s
  | .NumError f n k =>
    "strconv." ++ f ++ ": parsing " ++ L.Quote n ++ ": "
      ++ (match k with
          | .ErrSyntaxKind => "invalid syntax"
          | .ErrRange => "value out of range")
  | .errorString s => s
  | .wrapError msg _ => msg

/-- Go `fmt.Errorf(format + ": %w", err)`, where `msg` is the text that the
format produces before the wrapped error. -/
def Errorf_w (L : Lib) (msg : String) (err : GoError) : GoError :=
  .wrapError (msg ++ err.Error L) err

/-! ## reflect: kinds, types and values -/

/-- Go `reflect.Kind`. -/
inductive Kind where
  | Invalid | Bool | Int | Int8 | Int16 | Int32 | Int64
  | Uint | Uint8 | Uint16 | Uint32 | Uint64 | Uintptr
  | Float32 | Float64 | Complex64 | Complex128
  | Array | Chan | Func | Interface | Map | Pointer | Slice | String | Struct | UnsafePointer
  deriving DecidableEq, Repr

/-- Go `reflect.Kind.String`: the name of a kind. -/
def kindName : Kind → String
  | .Invalid => "invalid" | .Bool => "bool" | .Int => "int" | .Int8 => "int8"
  | .Int16 => "int16" | .Int32 => "int32" | .Int64 => "int64" | .Uint => "uint"
  | .Uint8 => "uint8" | .Uint16 => "uint16" | .Uint32 => "uint32" | .Uint64 => "uint64"
  | .Uintptr => "uintptr" | .Float32 => "float32" | .Float64 => "float64"
  | .Complex64 => "complex64" | .Complex128 => "complex128" | .Array => "array"
  | .Chan => "chan" | .Func => "func" | .Interface => "interface" | .Map => "map"
  | .Pointer => "ptr" | .Slice => "slice" | .String => "string" | .Struct => "struct"
  | .UnsafePointer => "unsafe.Pointer"

/-- The declared type of a struct field, as far as the binder looks at it:
`time.Time`, or any other type, given by its kind (so `other .Struct` is a
struct type other than `time.Time`, and `other .Int64` covers `int64` and
every named type with that underlying type). -/
inductive FieldType where
  | time
  | other (k : Kind)
  deriving DecidableEq, Repr

/-- Kind of a field type. -/
def FieldType.Kind : FieldType → Kind
  | .time => .Struct
  | .other k => k

/-- A `reflect.StructField`: the name, the struct tag (as its key/value pairs),
the type (`Typ`), and whether the field is exported (`PkgPath` empty). -/
structure StructField where
  Name : String
  Tag : List (String × String)
  Typ : FieldType
  exported : Bool
  deriving DecidableEq, Repr

/-- Go `reflect.StructTag.Get`: the value of the first pair with the key, or
the empty string. -/
def StructTagGet (tag : List (String × String)) (key : String) : String :=
  match tag with
  | [] => ""
  | (k, v) :: rest => if k = key then v else StructTagGet rest key

/-- The contents of a struct field. -/
inductive Val where
  | str (s : String)
  | int (n : Int)
  | bool (b : Bool)
  | float (x : Float64)
  | time (t : Time)
  /-- Contents of a field of any other type. -/
  | other (id : Nat)
  deriving DecidableEq, Repr

/-- A field of a struct value: its declaration and its contents. -/
structure Field where
  decl : StructField
  val : Val
  deriving DecidableEq, Repr

/-- A struct value: its fields in declaration order. -/
abbrev Struct := List Field

/-- The kinds of the types that are neither struct nor pointer types. -/
inductive PlainKind where
  | Bool | Int | Int8 | Int16 | Int32 | Int64
  | Uint | Uint8 | Uint16 | Uint32 | Uint64 | Uintptr
  | Float32 | Float64 | Complex64 | Complex128
  | Array | Chan | Func | Interface | Map | Slice | String | UnsafePointer
  deriving DecidableEq, Repr

/-- The `reflect.Kind` of a plain kind. -/
def PlainKind.toKind : PlainKind → Kind
  | .Bool => .Bool | .Int => .Int | .Int8 => .Int8 | .Int16 => .Int16 | .Int32 => .Int32
  | .Int64 => .Int64 | .Uint => .Uint | .Uint8 => .Uint8 | .Uint16 => .Uint16
  | .Uint32 => .Uint32 | .Uint64 => .Uint64 | .Uintptr => .Uintptr | .Float32 => .Float32
  | .Float64 => .Float64 | .Complex64 => .Complex64 | .Complex128 => .Complex128
  | .Array => .Array | .Chan => .Chan | .Func => .Func | .Interface => .Interface
  | .Map => .Map | .Slice => .Slice | .String => .String | .UnsafePointer => .UnsafePointer

/-- A `reflect.Type`: a struct type with its fields, a pointer type, or a type
of another kind. -/
inductive GoType where
  | plain (k : PlainKind)
  | struct (fields : List StructField)
  | ptr (pointee : GoType)
  deriving DecidableEq, Repr

/-- A Go value as the binder can be handed one: a struct, a pointer to a value,
a nil pointer of some pointer type, or a value of another kind (whose contents
play no role). -/
inductive GoValue where
  | plain (k : PlainKind)
  | struct (fields : Struct)
  | ptr (target : GoValue)
  | nilPtr (pointee : GoType)
  deriving DecidableEq, Repr

/-- A value of type `any`; `none` is the nil interface value. -/
abbrev GoAny := Option GoValue

/-- The dynamic type of a value. -/
def GoValue.typeOf : GoValue → GoType
  | .plain k => .plain k
  | .struct fields => .struct (fields.map Field.decl)
  | .ptr target => .ptr target.typeOf
  | .nilPtr pointee => .ptr pointee

/-- A `reflect.Value`: the zero Value, or a Value holding a Go value. -/
inductive Value where
  | zero
  | of (v : GoValue)
  deriving DecidableEq, Repr

/-- Go `reflect.ValueOf`: the zero Value for the nil interface. -/
def ValueOf (val : GoAny) : Value :=
  match val with
  | none => .zero
  | some v => .of v

/-- Go `reflect.Value.Kind`: `Invalid` for the zero Value. -/
def Value.Kind : Value → Kind
  | .zero => .Invalid
  | .of (.plain k) => k.toKind
  | .of (.struct _) => .Struct
  | .of (.ptr _) => .Pointer
  | .of (.nilPtr _) => .Pointer

/-- Go `reflect.Value.Type`: it panics on the zero Value. -/
def Value.Typ : Value → Outcome GoType
  | .zero => .panic "reflect: call of reflect.Value.Type on zero Value"
  | .of v => .returned v.typeOf

/-- Go `reflect.Value.Elem` (the binder calls it on pointers only): the value
pointed to, the zero Value for a nil pointer, a panic for a Value that is not a
pointer. -/
def Value.Elem : Value → Outcome Value
  | .of (.ptr target) => .returned (.of target)
  | .of (.nilPtr _) => .returned .zero
  | .of (.plain k) => .panic ("reflect: call of reflect.Value.Elem on " ++ kindName k.toKind ++ " Value")
  | .of (.struct _) => .panic "reflect: call of reflect.Value.Elem on struct Value"
  | .zero => .panic "reflect: call of reflect.Value.Elem on zero Value"

/-- Go `reflect.Type.NumField`: it panics unless the type is a struct type.
The panic message is given up to the name of the type, which reflect appends
to it. -/
def GoType.NumField : GoType → Outcome Nat
  | .struct fields => .returned fields.length
  | _ => .panic "reflect: NumField of non-struct type"

/-- Go `reflect.Type.Field(i)`: it panics unless the type is a struct type with
more than `i` fields.  For a type that is not a struct type the panic message
is given up to the name of the type, which reflect appends to it. -/
def GoType.Field : GoType → Nat → Outcome StructField
  | .struct fields, i =>
    match fields.get? i with
    | some f => .returned f
    | none => .panic "reflect: Field index out of bounds"
  | _, _ => .panic "reflect: Field of non-struct type"

/-- Go `reflect.Value.FieldByName` on a struct value: the first field with the
name; `none` is the zero Value that Go returns when there is none. -/
def FieldByName : Struct → String → Option Field
  | [], _ => none
  | f :: rest, name => if f.decl.Name = name then some f else FieldByName rest name

/-- Go `reflect.Value.CanSet` for a field of a struct reached through a
pointer: the field is exported. -/
def Field.CanSet (f : Field) : Bool :=
  f.decl.exported

/-- Go `reflect.Value.Kind` for a field. -/
def Field.Kind (f : Field) : Kind :=
  f.decl.Typ.Kind

/-- The store done by `f.SetString`, `f.SetInt`, `f.SetBool`, `f.SetFloat` and
`f.Set` when `f` is `s.FieldByName(name)`: the contents of the first field with
the name are replaced.  (`SetFloat` on a float32 field converts to float32,
which does not change a value returned by `ParseFloat(s, 32)`; the conversion of
`SetInt` is `truncInt`.) -/
def setField : Struct → String → Val → Struct
  | [], _, _ => []
  | f :: rest, name, v =>
    if f.decl.Name = name then { f with val := v } :: rest else f :: setField rest name v

/-- The conversion that Go `reflect.Value.SetInt` applies to its int64
argument for a field of the given kind (`int` has 64 bits). -/
def truncInt (k : Kind) (x : Int) : Int :=
  match k with
  | .Int8 => wrap 8 x
  | .Int16 => wrap 16 x
  | .Int32 => wrap 32 x
  | _ => wrap 64 x

/-! ## net/http: the request -/

/-- The part of a `*http.Request` that the binder reads: the raw query of the
URL and the maps `Form` and `PostForm` (`none` is a nil map).  A request whose
body has been read is represented with `Form` already filled; for a request
whose `Form` is still nil, `ParseForm` reads the URL query only. -/
structure Request where
  RawQuery : String
  Form : Option Values
  PostForm : Option Values
  deriving DecidableEq, Repr

/-- Go `(*http.Request).ParseForm` for a request without a body: `PostForm`
becomes non-nil, and a nil `Form` is filled from `PostForm` and the URL query.
The error of `url.ParseQuery` is returned, with the form still filled. -/
def Request.ParseForm (r : Request) : Request × Option GoError :=
  let postForm := r.PostForm.getD []
  match r.Form with
  | some form => ({ r with PostForm := some postForm, Form := some form }, none)
  | none =>
    let q := ParseQuery r.RawQuery
    let form := if postForm.length > 0 then copyValues (copyValues [] postForm) q.1 else q.1
    ({ r with PostForm := some postForm, Form := some form }, q.2)

/-- Go `(*http.Request).FormValue`: the first value of the key in `Form`, or
the empty string; a nil `Form` is filled first (errors are ignored). -/
def Request.FormValue (r : Request) (key : String) : String :=
  let r := if r.Form = none then r.ParseForm.1 else r
  match r.Form with
  | none => ""
  | some form =>
    match Values.lookup form key with
    | [] => ""
    | v :: _ => v

/-! ## The binder (request_binding.go) -/

/-- The constant `TagName`. -/
def TagName : String := "param"

/-- The variable `TimeFormats`. -/
def TimeFormats : List String :=
  [RFC1123, RFC1123Z, RFC3339, RFC3339Nano, RFC822, RFC822Z, RFC850, UnixDate, "2006-01-02"]

/-- Go `strings.Split(s, sep)` for a separator of one byte. -/
def Split (sep : Char) : List Char → List (List Char)
  | [] => [[]]
  | c :: rest =>
    if c = sep then [] :: Split sep rest
    else
      match Split sep rest with
      | first :: more => (c :: first) :: more
      | [] => [[c]]

/-- A Go `map[string]string`, as the list of its entries (keys are distinct). -/
abbrev GoMap := List (String × String)

/-- The assignment `m[k] = v` on a map. -/
def mapSet (m : GoMap) (k v : String) : GoMap :=
  match m with
  | [] => [(k, v)]
  | (k0, v0) :: rest => if k0 = k then (k, v) :: rest else (k0, v0) :: mapSet rest k v

/-- The order in which a `range` over a map visits the entries: Go leaves it
unspecified, so it is any rearrangement of the entries. -/
structure MapOrder where
  visit : GoMap → GoMap
  perm : ∀ m, (visit m).Perm m

/-- The function `validateAndGetType`. -/
def validateAndGetType (val : GoAny) : Outcome (GoType × Option GoError) :=
  let v := ValueOf val
  let kind := v.Kind
  if kind ≠ .Pointer then
    match v.Typ with
    | .panic m => .panic m
    | .returned t => .returned (t, some (.errorString "val is not a pointer to struct"))
  else
    match v.Elem with
    | .panic m => .panic m
    | .returned v =>
      let kind := v.Kind
      if kind ≠ .Struct then
        match v.Typ with
        | .panic m => .panic m
        | .returned t => .returned (t, some (.errorString "val is not a struct to struct"))
      else
        match v.Typ with
        | .panic m => .panic m
        | .returned t => .returned (t, none)

/-- The loop of `getListOfParamNames`: `n` iterations are left, `i` is the
loop variable. -/
def paramNamesLoop (t : GoType) : Nat → Nat → GoMap → Outcome GoMap
  | 0, _, params => .returned params
  | n + 1, i, params =>
    match t.Field i with
    | .panic m => .panic m
    | .returned f =>
      let v := StructTagGet f.Tag TagName
      let v := String.mk ((Split ',' v.data).headD [])
      paramNamesLoop t n (i + 1) (mapSet params v f.Name)

/-- The function `getListOfParamNames`. -/
def getListOfParamNames (t : GoType) : Outcome GoMap :=
  match t.NumField with
  | .panic m => .panic m
  | .returned fieldCount => paramNamesLoop t fieldCount 0 []

/-- The loop over `TimeFormats` in `setFieldValue`: the time parsed with the
first format that `time.Parse` accepts. -/
def parseTimeFormats (L : Lib) (formats : List String) (requestValue : String) : Option Time :=
  match formats with
  | [] => none
  | format :: rest =>
    match Parse L format requestValue with
    | some pt => some pt
    | none => parseTimeFormats L rest requestValue

/-- The function `setFieldValue`, on the struct `s` that the target pointer
points to: the struct after the call and the returned error. -/
def setFieldValue (L : Lib) (s : Struct) (param fieldName : String) (request : Request) :
    Struct × Option GoError :=
  match FieldByName s fieldName with
  | none => (s, none)
  | some f =>
    if !f.CanSet then (s, none)
    else
      let requestValue := request.FormValue param
      if requestValue = "" then (s, none)
      else
        match QueryUnescape requestValue with
        | .error err => (s, some err)
        | .ok requestValue =>
          match f.Kind with
          | .String => (setField s fieldName (.str requestValue), none)
          | .Int | .Int8 | .Int16 | .Int32 | .Int64 =>
            match Atoi requestValue with
            | .ok i => (setField s fieldName (.int (truncInt f.Kind i)), none)
            | .error err => (s, some err)
          | .Bool =>
            match ParseBool requestValue with
            | .ok b => (setField s fieldName (.bool b), none)
            | .error err => (s, some err)
          | .Float32 =>
            match L.ParseFloat requestValue 32 with
            | .ok fl => (setField s fieldName (.float fl), none)
            | .error err => (s, some err)
          | .Float64 =>
            match L.ParseFloat requestValue 64 with
            | .ok fl => (setField s fieldName (.float fl), none)
            | .error err => (s, some err)
          | .Struct =>
            match f.decl.Typ with
            | .time =>
              match parseTimeFormats L TimeFormats requestValue with
              | some pt => (setField s fieldName (.time pt), none)
              | none =>
                (s, some (.errorString ("invalid time format for parameter " ++ fieldName)))
            | .other _ => (s, none)
          | _ => (s, some (.errorString ("unsupported type: " ++ kindName f.Kind)))

/-- The `range` loop of `UnmarshallRequestForm` over the entries in the order
they are visited: the first error ends it. -/
def bindLoop (L : Lib) (request : Request) : GoMap → Struct → Option GoError × Struct
  | [], s => (none, s)
  | (p, fn) :: rest, s =>
    match setFieldValue L s p fn request with
    | (s1, some err) => (some (Errorf_w L ("error setting value for param " ++ p ++ ": ") err), s1)
    | (s1, none) => bindLoop L request rest s1

/-- The function `UnmarshallRequestForm`: the returned error and the value of
`val` after the call (the struct it points to is updated in place). -/
def UnmarshallRequestForm (L : Lib) (o : MapOrder) (request : Request) (val : GoAny) :
    Outcome (Option GoError × GoAny) :=
  match validateAndGetType val with
  | .panic m => .panic m
  | .returned (_, some err) => .returned (some err, val)
  | .returned (t, none) =>
    let parsed : Request × Option GoError :=
      if request.Form = none ∧ request.PostForm = none then request.ParseForm
      else (request, none)
    match parsed with
    | (_, some err) => .returned (some (Errorf_w L "error parsing request form: " err), val)
    | (request, none) =>
      match getListOfParamNames t with
      | .panic m => .panic m
      | .returned paramToFieldname =>
        match (ValueOf val).Elem with
        | .returned (.of (.struct s)) =>
          let r := bindLoop L request (o.visit paramToFieldname) s
          .returned (r.1, some (.ptr (.struct r.2)))
        | .returned _ => .panic "reflect: call of reflect.Value.FieldByName on non-struct Value"
        | .panic m => .panic m

/-- The struct type `TestStruct` of the tests and of the usage example. -/
def TestStructType : List StructField :=
  [⟨"Name", [("param", "name")], .other .String, true⟩,
   ⟨"IsCool", [("param", "is_cool")], .other .Bool, true⟩,
   ⟨"Counter", [("param", "counter")], .other .Int, true⟩,
   ⟨"Start", [("param", "start")], .time, true⟩]

/-- The zero value `TestStruct{}`. -/
def TestStructZero : Struct :=
  [⟨⟨"Name", [("param", "name")], .other .String, true⟩, .str ""⟩,
   ⟨⟨"IsCool", [("param", "is_cool")], .other .Bool, true⟩, .bool false⟩,
   ⟨⟨"Counter", [("param", "counter")], .other .Int, true⟩, .int 0⟩,
   ⟨⟨"Start", [("param", "start")], .time, true⟩, .time Time.zero⟩]

/-- A request made by `http.NewRequest(http.MethodGet, url, ...)` whose URL has
the given query string: `Form` and `PostForm` are still nil. -/
def getRequest (query : String) : Request :=
  ⟨query, none, none⟩

/-- The visiting order that keeps the entries as they are stored. -/
def MapOrder.stored : MapOrder := ⟨fun m => m, fun m => List.Perm.refl m⟩

/-- The visiting order that reverses the stored entries. -/
def MapOrder.reversed : MapOrder := ⟨fun m => m.reverse, fun m => List.reverse_perm m⟩

/-- A pointer to a struct value, as a value of type `any`. -/
def ptrTo (s : Struct) : GoAny :=
  some (.ptr (.struct s))

/-- A sample of the library inputs, for concrete instances: a machine whose
local zone is UTC, a `ParseFloat` that knows the literals `0`, `1` and `1.5`
and rejects everything else as a syntax error, and a `Quote` that puts its
argument between double quotes. -/
def Lib.sample : Lib where
  ParseFloat := fun s _ =>
    if s = "0" then .ok ⟨0⟩
    else if s = "1" then .ok ⟨0x3FF0000000000000⟩
    else if s = "1.5" then .ok ⟨0x3FF8000000000000⟩
    else .error (.NumError "ParseFloat" s .ErrSyntaxKind)
  Quote := fun s => String.mk (Char.ofNat 34 :: s.data ++ [Char.ofNat 34])
  LocalLookup := fun _ => ("UTC", 0)
  LocalLookupName := fun name _ => if name = "UTC" then some 0 else none

/-! ## Auxiliary notions for the statements and proofs -/

/-- The declaration of the first field with the given name. -/
def declByName : List StructField → String → Option StructField
  | [], _ => none
  | d :: rest, name => if d.Name = name then some d else declByName rest name

/-- What processing one entry of the field map does to the struct: nothing, a
store into the field, or nothing together with an error. -/
inductive Act where
  | skip
  | store (v : Val)
  | fail (err : GoError)
  deriving DecidableEq, Repr

/-- The effect of `setFieldValue` for one entry, read off the declarations of
the struct type and the request alone (the proofs show that `setFieldValue`
does exactly this). -/
def entryAct (L : Lib) (request : Request) (decls : List StructField) (param fieldName : String) :
    Act :=
  match declByName decls fieldName with
  | none => .skip
  | some d =>
    if !d.exported then .skip
    else if request.FormValue param = "" then .skip
    else
      match QueryUnescape (request.FormValue param) with
      | .error err => .fail err
      | .ok requestValue =>
        match d.Typ.Kind with
        | .String => .store (.str requestValue)
        | .Int | .Int8 | .Int16 | .Int32 | .Int64 =>
          match Atoi requestValue with
          | .ok i => .store (.int (truncInt d.Typ.Kind i))
          | .error err => .fail err
        | .Bool =>
          match ParseBool requestValue with
          | .ok b => .store (.bool b)
          | .error err => .fail err
        | .Float32 =>
          match L.ParseFloat requestValue 32 with
          | .ok fl => .store (.float fl)
          | .error err => .fail err
        | .Float64 =>
          match L.ParseFloat requestValue 64 with
          | .ok fl => .store (.float fl)
          | .error err => .fail err
        | .Struct =>
          match d.Typ with
          | .time =>
            match parseTimeFormats L TimeFormats requestValue with
            | some pt => .store (.time pt)
            | none => .fail (.errorString ("invalid time format for parameter " ++ fieldName))
          | .other _ => .skip
        | _ => .fail (.errorString ("unsupported type: " ++ kindName d.Typ.Kind))

/-- The struct after an act on the field `fieldName`, and the error. -/
def applyAct (s : Struct) (fieldName : String) : Act → Struct × Option GoError
  | .skip => (s, none)
  | .store v => (setField s fieldName v, none)
  | .fail err => (s, some err)

/-- The request as the loop of `UnmarshallRequestForm` reads it: after the
`ParseForm` call that is made when `Form` and `PostForm` are both nil, with
the error of that call. -/
def Request.ensureParsed (request : Request) : Request × Option GoError :=
  if request.Form = none ∧ request.PostForm = none then request.ParseForm else (request, none)

/-- Following the spec's words (percent-decoding): each `%XX` is replaced by
the byte `XX`, each `+` by a space, every other byte is kept; a `%` that is not
followed by two hexadecimal digits makes the value undecodable. -/
def percentDecode : List Char → Option (List Char)
  | [] => some []
  | c :: rest =>
    if c = '%' then
      match rest with
      | a :: b :: rest2 =>
        if ishex a && ishex b then
          (percentDecode rest2).map (fun t => Char.ofNat (unhex a * 16 + unhex b) :: t)
        else none
      | _ => none
    else if c = '+' then (percentDecode rest).map (fun t => ' ' :: t)
    else (percentDecode rest).map (fun t => c :: t)

/-- The number that a list of decimal digits denotes. -/
def decimalValue (digits : List Char) : Nat :=
  digits.foldl (fun acc c => acc * 10 + (c.toNat - '0'.toNat)) 0

/-- Following the claim's words: `s` is a base-10 signed integer literal (an
optional sign `+` or `-`, then one or more decimal digits) denoting `n`. -/
def IsIntLiteral (s : String) (n : Int) : Prop :=
  ∃ sign digits, s.data = sign ++ digits ∧ (sign = [] ∨ sign = ['+'] ∨ sign = ['-'])
    ∧ digits ≠ [] ∧ (∀ c ∈ digits, '0' ≤ c ∧ c ≤ '9')
    ∧ n = if sign = ['-'] then -(decimalValue digits : Int) else (decimalValue digits : Int)

/-- The range of the integer type of a field of kind `k`: 8, 16, 32 or 64 bits
(`int` has 64). -/
def kindBits (k : Kind) : Nat :=
  match k with
  | .Int8 => 8
  | .Int16 => 16
  | .Int32 => 32
  | _ => 64

/-- The kinds of the signed integer types. -/
def isIntKind (k : Kind) : Bool :=
  k = .Int || k = .Int8 || k = .Int16 || k = .Int32 || k = .Int64

/-- The key under which `getListOfParamNames` registers a field: the first
comma-separated piece of the value of its `param` tag. -/
def paramKey (f : StructField) : String :=
  String.mk ((Split ',' (StructTagGet f.Tag TagName).data).headD [])

/-- The map that `getListOfParamNames` builds for a struct type with the given
fields (the proofs show that it returns exactly this). -/
def paramMap (fields : List StructField) : GoMap :=
  fields.foldl (fun params f => mapSet params (paramKey f) f.Name) []

/-- A struct value with one exported field `Inner` of a struct type other than
`time.Time`, tagged `param:"inner"`. -/
def InnerRecord : Struct :=
  [⟨⟨"Inner", [("param", "inner")], .other .Struct, true⟩, .other 0⟩]

/-- A struct value with one exported field `Small int8`, tagged
`param:"small"`, holding 0. -/
def SmallRecord : Struct :=
  [⟨⟨"Small", [("param", "small")], .other .Int8, true⟩, .int 0⟩]

/-- The struct after the acts of the given entries, one after the other. -/
def applyEntries (L : Lib) (request : Request) (decls : List StructField) (l : GoMap)
    (s : Struct) : Struct :=
  l.foldl (fun s e => (applyAct s e.2 (entryAct L request decls e.1 e.2)).1) s

/-- A struct value like the test's `struct{ n int }{3}`: one unexported field
without a tag. -/
def UnexportedRecord : Struct :=
  [⟨⟨"n", [], .other .Int, false⟩, .int 3⟩]

/-- Following the claim's words: the portion of a tag value before the first
comma (the whole value when it contains no comma). -/
def beforeFirstComma (value : String) : String :=
  String.mk (value.data.takeWhile (fun c => c ≠ ','))

/-- The map index expression `m[k]`, with `none` for an absent key. -/
def mapGet (m : GoMap) (k : String) : Option String :=
  match m with
  | [] => none
  | (k0, v0) :: rest => if k0 = k then some v0 else mapGet rest k

/-- Following the claim's words: the last field, in declaration order, that
declares the parameter name `k`. -/
def lastDeclaring (fields : List StructField) (k : String) : Option StructField :=
  (fields.filter (fun f => paramKey f = k)).getLast?

/-- A struct value whose two exported string fields `First` and `Second` both
declare the parameter name `x`. -/
def CollidingRecord : Struct :=
  [⟨⟨"First", [("param", "x")], .other .String, true⟩, .str "one"⟩,
   ⟨⟨"Second", [("param", "x")], .other .String, true⟩, .str "two"⟩]

/-- Following the claim's words: the value has a `%` that is not followed by
two hexadecimal digits. -/
def HasBadEscape (l : List Char) : Prop :=
  ∃ a b, l = a ++ '%' :: b ∧ ∀ x y r, b = x :: y :: r → ¬ (ishex x = true ∧ ishex y = true)

/-- A struct value whose exported field `When time.Time` and, declared after
it, exported field `Note string` both carry the tag `param:"x"`. -/
def ShadowedTimeRecord : Struct :=
  [⟨⟨"When", [("param", "x")], .time, true⟩, .time Time.zero⟩,
   ⟨⟨"Note", [("param", "x")], .other .String, true⟩, .str ""⟩]

/-- A struct value whose exported field `Name string` and, declared after it,
unexported field `hidden string` both carry the tag `param:"x"`. -/
def ShadowedNameRecord : Struct :=
  [⟨⟨"Name", [("param", "x")], .other .String, true⟩, .str ""⟩,
   ⟨⟨"hidden", [("param", "x")], .other .String, false⟩, .str ""⟩]

/-! ## Basic facts about the reflect model and the request -/

theorem FieldByName_decl (s : Struct) (name : String) :
    declByName (s.map Field.decl) name = (FieldByName s name).map Field.decl := by
  induction s with
  | nil => rfl
  | cons f rest ih =>
    simp only [List.map_cons, declByName, FieldByName]
    split
    · rfl
    · exact ih

theorem setField_decl (s : Struct) (name : String) (v : Val) :
    (setField s name v).map Field.decl = s.map Field.decl := by
  induction s with
  | nil => rfl
  | cons f rest ih =>
    simp only [setField]
    split
    · rfl
    · simp [ih]

/-- The function `setFieldValue` does what `entryAct` says. -/
theorem setFieldValue_eq (L : Lib) (s : Struct) (p fn : String) (request : Request) :
    setFieldValue L s p fn request
      = applyAct s fn (entryAct L request (s.map Field.decl) p fn) := by
  unfold setFieldValue entryAct
  rw [FieldByName_decl]
  cases hf : FieldByName s fn with
  | none => rfl
  | some f =>
    simp only [Option.map_some', Field.CanSet, Field.Kind]
    by_cases hx : f.decl.exported = true
    · simp only [hx, Bool.not_true, Bool.false_eq_true, if_false]
      by_cases hv : request.FormValue p = ""
      · simp [hv, applyAct]
      · simp only [hv, if_false]
        cases QueryUnescape (request.FormValue p) with
        | error e => rfl
        | ok d =>
          simp only []
          cases hk : f.decl.Typ.Kind <;> simp only [applyAct] <;>
            first
              | rfl
              | (cases Atoi d <;> rfl)
              | (cases ParseBool d <;> rfl)
              | (cases L.ParseFloat d 32 <;> rfl)
              | (cases L.ParseFloat d 64 <;> rfl)
              | (cases f.decl.Typ <;> first | rfl | (cases parseTimeFormats L TimeFormats d <;> rfl))
    · simp [hx, applyAct]

theorem FormValue_ensureParsed (request : Request) (key : String) :
    request.ensureParsed.1.FormValue key = request.FormValue key := by
  unfold Request.ensureParsed
  by_cases h : request.Form = none ∧ request.PostForm = none
  · rw [if_pos h]
    obtain ⟨hF, _⟩ := h
    simp only [Request.FormValue, hF, if_true]
    simp [Request.ParseForm, hF]
  · rw [if_neg h]

theorem paramNamesLoop_struct (fs : List StructField) :
    ∀ (n i : Nat) (params : GoMap), i + n = fs.length →
      paramNamesLoop (.struct fs) n i params
        = .returned ((fs.drop i).foldl (fun m f => mapSet m (paramKey f) f.Name) params) := by
  intro n
  induction n with
  | zero =>
    intro i params h
    have : fs.drop i = [] := List.drop_eq_nil_of_le (by omega)
    simp [paramNamesLoop, this]
  | succ n ih =>
    intro i params h
    have hi : i < fs.length := by omega
    have hd : fs.drop i = fs.get ⟨i, hi⟩ :: fs.drop (i + 1) := by
      simp
    have hg : fs.get? i = some (fs.get ⟨i, hi⟩) := List.get?_eq_get hi
    simp only [paramNamesLoop, GoType.Field, hg]
    rw [ih (i + 1) _ (by omega), hd]
    rfl

/-- On a struct type `getListOfParamNames` returns, and returns `paramMap`. -/
theorem getListOfParamNames_struct (fs : List StructField) :
    getListOfParamNames (.struct fs) = .returned (paramMap fs) := by
  simp only [getListOfParamNames, GoType.NumField]
  rw [paramNamesLoop_struct fs fs.length 0 [] (by omega)]
  simp [paramMap]

theorem validateAndGetType_ptrTo (s : Struct) :
    validateAndGetType (ptrTo s) = .returned (.struct (s.map Field.decl), none) := by
  rfl

theorem entryAct_congr (L : Lib) (r r2 : Request) (ds : List StructField) (p fn : String)
    (h : r.FormValue p = r2.FormValue p) : entryAct L r ds p fn = entryAct L r2 ds p fn := by
  unfold entryAct
  rw [h]

theorem bindLoop_congr (L : Lib) (r r2 : Request) (h : ∀ k, r.FormValue k = r2.FormValue k) :
    ∀ (l : GoMap) (s : Struct), bindLoop L r l s = bindLoop L r2 l s := by
  intro l
  induction l with
  | nil => intro s; rfl
  | cons e rest ih =>
    intro s
    obtain ⟨p, fn⟩ := e
    simp only [bindLoop]
    rw [setFieldValue_eq, setFieldValue_eq, entryAct_congr L r r2 _ p fn (h p)]
    cases entryAct L r2 (s.map Field.decl) p fn <;> simp [applyAct, ih]

/-- The call of `UnmarshallRequestForm` on a pointer to a struct, unfolded: it
returns; the error is that of `ParseForm`, or else that of the loop. -/
theorem UnmarshallRequestForm_ptrTo (L : Lib) (o : MapOrder) (request : Request) (s : Struct) :
    UnmarshallRequestForm L o request (ptrTo s)
      = match request.ensureParsed.2 with
        | some err => .returned (some (Errorf_w L "error parsing request form: " err), ptrTo s)
        | none =>
          .returned ((bindLoop L request (o.visit (paramMap (s.map Field.decl))) s).1,
            ptrTo (bindLoop L request (o.visit (paramMap (s.map Field.decl))) s).2) := by
  have hb := bindLoop_congr L request.ensureParsed.1 request
    (fun k => FormValue_ensureParsed request k)
  unfold UnmarshallRequestForm
  rw [validateAndGetType_ptrTo]
  simp only []
  rw [getListOfParamNames_struct]
  unfold Request.ensureParsed at hb ⊢
  generalize (if request.Form = none ∧ request.PostForm = none then request.ParseForm
    else (request, none)) = pr at hb ⊢
  obtain ⟨r1, e1⟩ := pr
  cases e1 with
  | some err => rfl
  | none =>
    simp only [ptrTo, ValueOf, Value.Elem]
    rw [hb]

theorem applyAct_decl (s : Struct) (fn : String) (a : Act) :
    (applyAct s fn a).1.map Field.decl = s.map Field.decl := by
  cases a <;> simp [applyAct, setField_decl]

theorem setField_idem (s : Struct) (fn : String) (v : Val) :
    setField (setField s fn v) fn v = setField s fn v := by
  induction s with
  | nil => rfl
  | cons f rest ih =>
    simp only [setField]
    by_cases h : f.decl.Name = fn
    · simp [h, setField]
    · simp [h, setField, ih]

theorem setField_comm (s : Struct) (a b : String) (v w : Val) (hab : a ≠ b) :
    setField (setField s a v) b w = setField (setField s b w) a v := by
  induction s with
  | nil => rfl
  | cons f rest ih =>
    by_cases ha : f.decl.Name = a
    · have hb : ¬ f.decl.Name = b := fun h => hab (ha.symm.trans h)
      simp only [setField, if_pos ha, if_neg hb]
    · by_cases hb : f.decl.Name = b
      · simp only [setField, if_neg ha, if_pos hb]
      · simp only [setField, if_neg ha, if_neg hb, ih]

theorem FieldByName_setField_ne (s : Struct) (a b : String) (v : Val) (hab : a ≠ b) :
    FieldByName (setField s a v) b = FieldByName s b := by
  induction s with
  | nil => rfl
  | cons f rest ih =>
    by_cases ha : f.decl.Name = a
    · have hb : ¬ f.decl.Name = b := fun h => hab (ha.symm.trans h)
      simp only [setField, FieldByName, if_pos ha, if_neg hb]
    · by_cases hb : f.decl.Name = b
      · simp only [setField, FieldByName, if_neg ha, if_pos hb]
      · simp only [setField, FieldByName, if_neg ha, if_neg hb, ih]

theorem FieldByName_setField_eq (s : Struct) (a : String) (v : Val) (f : Field)
    (hf : FieldByName s a = some f) :
    FieldByName (setField s a v) a = some { f with val := v } := by
  induction s with
  | nil => simp [FieldByName] at hf
  | cons g rest ih =>
    by_cases ha : g.decl.Name = a
    · simp only [FieldByName, if_pos ha, Option.some.injEq] at hf
      subst hf
      simp only [setField, FieldByName, if_pos ha]
    · simp only [FieldByName, if_neg ha] at hf
      simp only [setField, FieldByName, if_neg ha, ih hf]

/-- One step of the loop of `UnmarshallRequestForm`, by the act of the entry. -/
theorem bindLoop_cons (L : Lib) (r : Request) (p fn : String) (rest : GoMap) (s : Struct) :
    bindLoop L r ((p, fn) :: rest) s
      = match entryAct L r (s.map Field.decl) p fn with
        | .skip => bindLoop L r rest s
        | .store v => bindLoop L r rest (setField s fn v)
        | .fail err => (some (Errorf_w L ("error setting value for param " ++ p ++ ": ") err), s) := by
  simp only [bindLoop]
  rw [setFieldValue_eq]
  cases entryAct L r (s.map Field.decl) p fn <;> rfl

theorem bindLoop_decl (L : Lib) (r : Request) :
    ∀ (l : GoMap) (s : Struct), (bindLoop L r l s).2.map Field.decl = s.map Field.decl := by
  intro l
  induction l with
  | nil => intro s; rfl
  | cons e rest ih =>
    intro s
    obtain ⟨p, fn⟩ := e
    rw [bindLoop_cons]
    cases entryAct L r (s.map Field.decl) p fn with
    | skip => exact ih s
    | store v => simpa [setField_decl] using ih (setField s fn v)
    | fail err => rfl

/-- If the processing of some visited entry fails, the loop ends with an
error. -/
theorem bindLoop_fail_of_mem (L : Lib) (r : Request) (ds : List StructField) :
    ∀ (l : GoMap) (s : Struct), s.map Field.decl = ds →
      (∃ e ∈ l, ∃ err, entryAct L r ds e.1 e.2 = .fail err) →
      ∃ err, (bindLoop L r l s).1 = some err := by
  intro l
  induction l with
  | nil => intro s _ h; obtain ⟨e, he, _⟩ := h; simp at he
  | cons e rest ih =>
    intro s hs h
    obtain ⟨p, fn⟩ := e
    rw [bindLoop_cons, hs]
    cases ha : entryAct L r ds p fn with
    | fail err => exact ⟨_, rfl⟩
    | skip =>
      obtain ⟨e, he, err, hfail⟩ := h
      rcases List.mem_cons.mp he with h1 | h1
      · subst h1; simp [ha] at hfail
      · exact ih s hs ⟨e, h1, err, hfail⟩
    | store v =>
      obtain ⟨e, he, err, hfail⟩ := h
      rcases List.mem_cons.mp he with h1 | h1
      · subst h1; simp [ha] at hfail
      · exact ih (setField s fn v) (by rw [setField_decl, hs]) ⟨e, h1, err, hfail⟩

/-- If every visited entry other than `(p, fn)` is skipped, the loop does what
the entry `(p, fn)` does, when it is visited. -/
theorem bindLoop_only (L : Lib) (r : Request) (ds : List StructField) (p fn : String) :
    ∀ (l : GoMap) (s : Struct), s.map Field.decl = ds →
      (∀ e ∈ l, e = (p, fn) ∨ entryAct L r ds e.1 e.2 = .skip) →
      bindLoop L r l s
        = if (p, fn) ∈ l then
            match entryAct L r ds p fn with
            | .skip => (none, s)
            | .store v => (none, setField s fn v)
            | .fail err =>
              (some (Errorf_w L ("error setting value for param " ++ p ++ ": ") err), s)
          else (none, s) := by
  intro l
  induction l with
  | nil => intro s _ _; simp [bindLoop]
  | cons e rest ih =>
    intro s hs h
    obtain ⟨q, g⟩ := e
    have hrest : ∀ e ∈ rest, e = (p, fn) ∨ entryAct L r ds e.1 e.2 = .skip :=
      fun e he => h e (List.mem_cons_of_mem _ he)
    rw [bindLoop_cons, hs]
    rcases h (q, g) (List.mem_cons_self _ _) with h1 | h1
    · have hq : q = p := congrArg Prod.fst h1
      have hg : g = fn := congrArg Prod.snd h1
      subst hq; subst hg
      simp only [List.mem_cons, true_or, if_true]
      cases ha : entryAct L r ds q g with
      | fail err => rfl
      | skip =>
        simp only []
        rw [ih s hs hrest, ha]
        split <;> rfl
      | store v =>
        simp only []
        rw [ih (setField s g v) (by rw [setField_decl, hs]) hrest, ha]
        simp only [setField_idem]
        split <;> rfl
    · simp only [] at h1
      rw [h1]
      simp only []
      rw [ih s hs hrest]
      by_cases hm : (p, fn) ∈ rest
      · simp [hm]
      · by_cases he : (p, fn) = (q, g)
        · have h2 : entryAct L r ds p fn = .skip := by
            have hq : p = q := congrArg Prod.fst he
            have hg : fn = g := congrArg Prod.snd he
            rw [hq, hg]; exact h1
          simp [hm, he, h2]
        · simp [hm, he]

theorem entryAct_empty (L : Lib) (r : Request) (ds : List StructField) (p fn : String)
    (h : r.FormValue p = "") : entryAct L r ds p fn = .skip := by
  unfold entryAct
  cases declByName ds fn with
  | none => rfl
  | some d =>
    simp only [h]
    cases d.exported <;> simp

/-- The whole call when the request carries a value for one parameter of the
record only: in every visiting order it does what that entry does. -/
theorem UnmarshallRequestForm_only (L : Lib) (o : MapOrder) (request : Request) (s : Struct)
    (m : GoMap) (p fn : String)
    (hmap : getListOfParamNames (.struct (s.map Field.decl)) = .returned m)
    (hentry : (p, fn) ∈ m)
    (hothers : ∀ e ∈ m, e = (p, fn) ∨ request.FormValue e.1 = "")
    (hparse : request.ensureParsed.2 = none) :
    UnmarshallRequestForm L o request (ptrTo s)
      = match entryAct L request (s.map Field.decl) p fn with
        | .skip => .returned (none, ptrTo s)
        | .store v => .returned (none, ptrTo (setField s fn v))
        | .fail err =>
          .returned (some (Errorf_w L ("error setting value for param " ++ p ++ ": ") err),
            ptrTo s) := by
  rw [getListOfParamNames_struct] at hmap
  have hm : paramMap (s.map Field.decl) = m := by injection hmap
  rw [UnmarshallRequestForm_ptrTo, hparse, hm]
  simp only []
  have hmem : (p, fn) ∈ o.visit m := (o.perm m).mem_iff.mpr hentry
  have hall : ∀ e ∈ o.visit m, e = (p, fn) ∨ entryAct L request (s.map Field.decl) e.1 e.2 = .skip := by
    intro e he
    rcases hothers e ((o.perm m).mem_iff.mp he) with h | h
    · exact Or.inl h
    · exact Or.inr (entryAct_empty L request _ e.1 e.2 h)
  rw [bindLoop_only L request (s.map Field.decl) p fn (o.visit m) s rfl hall, if_pos hmem]
  cases entryAct L request (s.map Field.decl) p fn <;> rfl

/-- The whole call when the processing of some entry of the field map fails:
in every visiting order a non-nil error is returned. -/
theorem UnmarshallRequestForm_fail (L : Lib) (o : MapOrder) (request : Request) (s : Struct)
    (m : GoMap) (p fn : String) (err : GoError)
    (hmap : getListOfParamNames (.struct (s.map Field.decl)) = .returned m)
    (hentry : (p, fn) ∈ m)
    (hfail : entryAct L request (s.map Field.decl) p fn = .fail err) :
    ∃ e val, UnmarshallRequestForm L o request (ptrTo s) = .returned (some e, val) := by
  rw [getListOfParamNames_struct] at hmap
  have hm : paramMap (s.map Field.decl) = m := by injection hmap
  rw [UnmarshallRequestForm_ptrTo, hm]
  cases request.ensureParsed.2 with
  | some e0 => exact ⟨_, _, rfl⟩
  | none =>
    simp only []
    have hmem : (p, fn) ∈ o.visit m := (o.perm m).mem_iff.mpr hentry
    obtain ⟨e, he⟩ := bindLoop_fail_of_mem L request (s.map Field.decl) (o.visit m) s rfl
      ⟨(p, fn), hmem, err, hfail⟩
    exact ⟨e, _, by rw [he]⟩

/-- The act of an entry whose field is settable and whose parameter has a
non-empty value that percent-decodes to `d`. -/
theorem entryAct_present (L : Lib) (request : Request) (s : Struct) (p fn : String) (f : Field)
    (v d : String) (hfield : FieldByName s fn = some f) (hset : f.CanSet = true)
    (hval : request.FormValue p = v) (hne : v ≠ "") (hdec : QueryUnescape v = .ok d) :
    entryAct L request (s.map Field.decl) p fn
      = match f.Kind with
        | .String => .store (.str d)
        | .Int | .Int8 | .Int16 | .Int32 | .Int64 =>
          match Atoi d with
          | .ok i => .store (.int (truncInt f.Kind i))
          | .error err => .fail err
        | .Bool =>
          match ParseBool d with
          | .ok b => .store (.bool b)
          | .error err => .fail err
        | .Float32 =>
          match L.ParseFloat d 32 with
          | .ok fl => .store (.float fl)
          | .error err => .fail err
        | .Float64 =>
          match L.ParseFloat d 64 with
          | .ok fl => .store (.float fl)
          | .error err => .fail err
        | .Struct =>
          match f.decl.Typ with
          | .time =>
            match parseTimeFormats L TimeFormats d with
            | some pt => .store (.time pt)
            | none => .fail (.errorString ("invalid time format for parameter " ++ fn))
          | .other _ => .skip
        | _ => .fail (.errorString ("unsupported type: " ++ kindName f.Kind)) := by
  unfold entryAct
  rw [FieldByName_decl, hfield]
  simp only [Option.map_some', Field.CanSet] at hset ⊢
  simp only [hset, hval, hne, hdec, Bool.not_true, Bool.false_eq_true, if_false, Field.Kind]

/-- When exactly one visited entry fails, the loop ends with the error of
that entry, wrapped with its parameter name. -/
theorem bindLoop_unique_fail (L : Lib) (r : Request) (ds : List StructField) (p fn : String)
    (err : GoError) (hfail : entryAct L r ds p fn = .fail err) :
    ∀ (l : GoMap) (s : Struct), s.map Field.decl = ds → (p, fn) ∈ l →
      (∀ e ∈ l, e ≠ (p, fn) → ∀ err2, entryAct L r ds e.1 e.2 ≠ .fail err2) →
      (bindLoop L r l s).1
        = some (Errorf_w L ("error setting value for param " ++ p ++ ": ") err) := by
  intro l
  induction l with
  | nil => intro s _ h _; simp at h
  | cons e rest ih =>
    intro s hs hmem h
    obtain ⟨q, g⟩ := e
    rw [bindLoop_cons, hs]
    by_cases he : (q, g) = (p, fn)
    · have hq : q = p := congrArg Prod.fst he
      have hg : g = fn := congrArg Prod.snd he
      rw [hq, hg, hfail]
    · have hmem2 : (p, fn) ∈ rest := by
        rcases List.mem_cons.mp hmem with h1 | h1
        · exact absurd h1.symm he
        · exact h1
      have hrest : ∀ e ∈ rest, e ≠ (p, fn) → ∀ err2, entryAct L r ds e.1 e.2 ≠ .fail err2 :=
        fun e he2 => h e (List.mem_cons_of_mem _ he2)
      cases ha : entryAct L r ds q g with
      | skip => exact ih s hs hmem2 hrest
      | fail err2 => exact absurd ha (h (q, g) (List.mem_cons_self _ _) he err2)
      | store v => exact ih (setField s g v) (by rw [setField_decl, hs]) hmem2 hrest

/-- The whole call when exactly one entry of the field map fails: in every
visiting order the error of that entry is returned, wrapped with its parameter
name. -/
theorem UnmarshallRequestForm_unique_fail (L : Lib) (o : MapOrder) (request : Request)
    (s : Struct) (m : GoMap) (p fn : String) (err : GoError)
    (hmap : getListOfParamNames (.struct (s.map Field.decl)) = .returned m)
    (hparse : request.ensureParsed.2 = none)
    (hentry : (p, fn) ∈ m)
    (hfail : entryAct L request (s.map Field.decl) p fn = .fail err)
    (hothers : ∀ e ∈ m, e ≠ (p, fn) →
      ∀ err2, entryAct L request (s.map Field.decl) e.1 e.2 ≠ .fail err2) :
    ∃ s2, UnmarshallRequestForm L o request (ptrTo s)
      = .returned (some (Errorf_w L ("error setting value for param " ++ p ++ ": ") err),
          ptrTo s2) := by
  rw [getListOfParamNames_struct] at hmap
  have hm : paramMap (s.map Field.decl) = m := by injection hmap
  rw [UnmarshallRequestForm_ptrTo, hparse, hm]
  simp only []
  refine ⟨(bindLoop L request (o.visit m) s).2, ?_⟩
  rw [bindLoop_unique_fail L request (s.map Field.decl) p fn err hfail (o.visit m) s rfl
    ((o.perm m).mem_iff.mpr hentry) (fun e he => hothers e ((o.perm m).mem_iff.mp he))]

theorem no_other_fail_of_setFieldValue (L : Lib) (request : Request) (s : Struct) (m : GoMap)
    (p fn : String)
    (hok : ∀ e ∈ m, e ≠ (p, fn) → (setFieldValue L s e.1 e.2 request).2 = none) :
    ∀ e ∈ m, e ≠ (p, fn) → ∀ err, entryAct L request (s.map Field.decl) e.1 e.2 ≠ .fail err := by
  intro e he hne err hfail
  have := hok e he hne
  rw [setFieldValue_eq, hfail] at this
  simp [applyAct] at this

/-- C1 (counterexample): binding a zero `TestStruct` against the single
parameter `counter=notanumber` does not return nil: the error of
`strconv.Atoi` is returned, wrapped with the parameter name. -/
theorem counter_notanumber_returns_error :
    UnmarshallRequestForm Lib.sample MapOrder.stored (getRequest "counter=notanumber")
        (ptrTo TestStructZero)
      = .returned (some (Errorf_w Lib.sample "error setting value for param counter: "
          (.NumError "Atoi" "notanumber" .ErrSyntaxKind)), ptrTo TestStructZero) := by
  decide

/-- C1 (amended): for every settable field of integer, boolean or float kind
whose parameter is present with a non-empty, percent-decodable value that fails
to parse as that kind, `setFieldValue` returns the parse error and writes
nothing. When the field map returned by `getListOfParamNames` holds the field's
entry (parameter name to field name), `UnmarshallRequestForm` returns a non-nil
error in every visiting order; when moreover `ParseForm` reported no error and
no other entry of the field map fails, that error is the parse error wrapped
with the parameter name. -/
theorem parse_failure_is_returned (L : Lib) (o : MapOrder) (request : Request) (s : Struct)
    (m : GoMap) (p fn : String) (f : Field) (v d : String) (err : GoError)
    (hmap : getListOfParamNames (.struct (s.map Field.decl)) = .returned m)
    (hfield : FieldByName s fn = some f) (hset : f.CanSet = true)
    (hval : request.FormValue p = v) (hne : v ≠ "") (hdec : QueryUnescape v = .ok d)
    (hfail : (isIntKind f.Kind = true ∧ Atoi d = .error err)
      ∨ (f.Kind = .Bool ∧ ParseBool d = .error err)
      ∨ (f.Kind = .Float32 ∧ L.ParseFloat d 32 = .error err)
      ∨ (f.Kind = .Float64 ∧ L.ParseFloat d 64 = .error err)) :
    setFieldValue L s p fn request = (s, some err)
    ∧ ((p, fn) ∈ m →
        ∃ e val, UnmarshallRequestForm L o request (ptrTo s) = .returned (some e, val))
    ∧ ((p, fn) ∈ m → request.ensureParsed.2 = none →
        (∀ e ∈ m, e ≠ (p, fn) → (setFieldValue L s e.1 e.2 request).2 = none) →
        ∃ s2, UnmarshallRequestForm L o request (ptrTo s)
          = .returned (some (Errorf_w L ("error setting value for param " ++ p ++ ": ") err),
              ptrTo s2)) := by
  have hact : entryAct L request (s.map Field.decl) p fn = .fail err := by
    rw [entryAct_present L request s p fn f v d hfield hset hval hne hdec]
    rcases hfail with ⟨hk, h⟩ | ⟨hk, h⟩ | ⟨hk, h⟩ | ⟨hk, h⟩
    · cases hk2 : f.Kind <;> simp [isIntKind, hk2] at hk <;> simp [h]
    · simp [hk, h]
    · simp [hk, h]
    · simp [hk, h]
  refine ⟨?_, ?_, ?_⟩
  · rw [setFieldValue_eq, hact]; rfl
  · intro hentry
    exact UnmarshallRequestForm_fail L o request s m p fn err hmap hentry hact
  · intro hentry hparse hothers
    exact UnmarshallRequestForm_unique_fail L o request s m p fn err hmap hparse hentry hact
      (no_other_fail_of_setFieldValue L request s m p fn hothers)

/-- C1 (amended), at the zero `TestStruct` bound against `counter=notanumber`,
the field map visited in the reversed order. -/
theorem parse_failure_is_returned_witness :
    (getListOfParamNames (.struct (TestStructZero.map Field.decl))
        = .returned [("name", "Name"), ("is_cool", "IsCool"), ("counter", "Counter"),
            ("start", "Start")]
      ∧ FieldByName TestStructZero "Counter"
        = some ⟨⟨"Counter", [("param", "counter")], .other .Int, true⟩, .int 0⟩
      ∧ (getRequest "counter=notanumber").FormValue "counter" = "notanumber"
      ∧ QueryUnescape "notanumber" = .ok "notanumber"
      ∧ Atoi "notanumber" = .error (.NumError "Atoi" "notanumber" .ErrSyntaxKind)
      ∧ (getRequest "counter=notanumber").ensureParsed.2 = none
      ∧ ∀ e ∈ [("name", "Name"), ("is_cool", "IsCool"), ("counter", "Counter"),
            ("start", "Start")],
          e ≠ ("counter", "Counter") →
          (setFieldValue Lib.sample TestStructZero e.1 e.2
            (getRequest "counter=notanumber")).2 = none)
    ∧ (setFieldValue Lib.sample TestStructZero "counter" "Counter"
          (getRequest "counter=notanumber")
        = (TestStructZero, some (.NumError "Atoi" "notanumber" .ErrSyntaxKind))
      ∧ (∃ e val, UnmarshallRequestForm Lib.sample MapOrder.reversed
          (getRequest "counter=notanumber") (ptrTo TestStructZero) = .returned (some e, val))
      ∧ ∃ s2, UnmarshallRequestForm Lib.sample MapOrder.reversed
            (getRequest "counter=notanumber") (ptrTo TestStructZero)
          = .returned (some (Errorf_w Lib.sample
              ("error setting value for param " ++ "counter" ++ ": ")
              (.NumError "Atoi" "notanumber" .ErrSyntaxKind)), ptrTo s2)) :=
  have h := parse_failure_is_returned Lib.sample MapOrder.reversed
    (getRequest "counter=notanumber") TestStructZero
    [("name", "Name"), ("is_cool", "IsCool"), ("counter", "Counter"), ("start", "Start")]
    "counter" "Counter" ⟨⟨"Counter", [("param", "counter")], .other .Int, true⟩, .int 0⟩
    "notanumber" "notanumber" (.NumError "Atoi" "notanumber" .ErrSyntaxKind)
    (by decide) (by decide) (by decide) (by decide) (by decide) (by decide)
    (Or.inl (by decide))
  ⟨by decide, h.1, h.2.1 (by decide), h.2.2 (by decide) (by decide) (by decide)⟩

/-- C2: at a settable field of a struct type other than `time.Time` whose
parameter is present (`inner=x`), no `unsupported type` error is returned: the
inner type switch of `setFieldValue` has no default case, so the call returns
nil and writes nothing. -/
theorem struct_field_is_not_rejected :
    setFieldValue Lib.sample InnerRecord "inner" "Inner" (getRequest "inner=x")
        = (InnerRecord, none)
    ∧ UnmarshallRequestForm Lib.sample MapOrder.stored (getRequest "inner=x") (ptrTo InnerRecord)
        = .returned (none, ptrTo InnerRecord) := by
  decide

/-- For a settable field whose kind is none of string, the signed integers,
bool, the floats and struct, whose parameter is present with a non-empty,
percent-decodable value, `setFieldValue` returns the `unsupported type` error
naming the kind. -/
theorem unsupported_kind_is_rejected (L : Lib) (request : Request) (s : Struct) (p fn : String)
    (f : Field) (v d : String)
    (hfield : FieldByName s fn = some f) (hset : f.CanSet = true)
    (hval : request.FormValue p = v) (hne : v ≠ "") (hdec : QueryUnescape v = .ok d)
    (hkind : f.Kind ≠ .String ∧ isIntKind f.Kind = false ∧ f.Kind ≠ .Bool ∧ f.Kind ≠ .Float32
      ∧ f.Kind ≠ .Float64 ∧ f.Kind ≠ .Struct) :
    setFieldValue L s p fn request
      = (s, some (.errorString ("unsupported type: " ++ kindName f.Kind))) := by
  rw [setFieldValue_eq, entryAct_present L request s p fn f v d hfield hset hval hne hdec]
  obtain ⟨h1, h2, h3, h4, h5, h6⟩ := hkind
  cases hk : f.Kind <;> simp_all [isIntKind, applyAct]

theorem mapSet_mem (m : GoMap) (a b : String) (e : String × String) (h : e ∈ mapSet m a b) :
    e = (a, b) ∨ e ∈ m := by
  induction m with
  | nil => simpa [mapSet] using h
  | cons x rest ih =>
    obtain ⟨k0, v0⟩ := x
    simp only [mapSet] at h
    split at h
    · rcases List.mem_cons.mp h with h1 | h1
      · exact Or.inl h1
      · exact Or.inr (List.mem_cons_of_mem _ h1)
    · rcases List.mem_cons.mp h with h1 | h1
      · exact Or.inr (h1 ▸ List.mem_cons_self _ _)
      · rcases ih h1 with h2 | h2
        · exact Or.inl h2
        · exact Or.inr (List.mem_cons_of_mem _ h2)

theorem foldl_mapSet_mem (fs : List StructField) :
    ∀ (init : GoMap) (e : String × String),
      e ∈ fs.foldl (fun params f => mapSet params (paramKey f) f.Name) init →
      e ∈ init ∨ ∃ f ∈ fs, e = (paramKey f, f.Name) := by
  induction fs with
  | nil => intro init e h; exact Or.inl h
  | cons f rest ih =>
    intro init e h
    simp only [List.foldl_cons] at h
    rcases ih _ e h with h1 | ⟨g, hg, he⟩
    · rcases mapSet_mem _ _ _ _ h1 with h2 | h2
      · exact Or.inr ⟨f, List.mem_cons_self _ _, h2⟩
      · exact Or.inl h2
    · exact Or.inr ⟨g, List.mem_cons_of_mem _ hg, he⟩

/-- Every entry of the field map comes from a field: its key is the field's
parameter name and its value the field's name. -/
theorem paramMap_mem (fs : List StructField) (e : String × String) (h : e ∈ paramMap fs) :
    ∃ f ∈ fs, e = (paramKey f, f.Name) := by
  rcases foldl_mapSet_mem fs [] e h with h1 | h1
  · simp at h1
  · exact h1

theorem declByName_unique (ds : List StructField) (name : String) (d d2 : StructField)
    (hnodup : (ds.map StructField.Name).Nodup) (hd : d ∈ ds) (hname : d.Name = name)
    (hfirst : declByName ds name = some d2) : d = d2 := by
  induction ds with
  | nil => simp at hd
  | cons x rest ih =>
    simp only [List.map_cons, List.nodup_cons] at hnodup
    simp only [declByName] at hfirst
    by_cases hx : x.Name = name
    · rw [if_pos hx] at hfirst
      rcases List.mem_cons.mp hd with h1 | h1
      · rw [h1]; exact Option.some.inj hfirst
      · exact absurd (List.mem_map.mpr ⟨d, h1, hname.trans hx.symm⟩) hnodup.1
    · rw [if_neg hx] at hfirst
      rcases List.mem_cons.mp hd with h1 | h1
      · exact absurd (h1 ▸ hname) hx
      · exact ih hnodup.2 h1 hfirst

/-- The loop leaves a field alone when no visited entry stores into it. -/
theorem bindLoop_frame (L : Lib) (r : Request) (ds : List StructField) (fn : String) :
    ∀ (l : GoMap) (s : Struct), s.map Field.decl = ds →
      (∀ e ∈ l, e.2 = fn → ∀ v, entryAct L r ds e.1 e.2 ≠ .store v) →
      FieldByName (bindLoop L r l s).2 fn = FieldByName s fn := by
  intro l
  induction l with
  | nil => intro s _ _; rfl
  | cons e rest ih =>
    intro s hs h
    obtain ⟨q, g⟩ := e
    have hrest : ∀ e ∈ rest, e.2 = fn → ∀ v, entryAct L r ds e.1 e.2 ≠ .store v :=
      fun e he => h e (List.mem_cons_of_mem _ he)
    rw [bindLoop_cons, hs]
    cases ha : entryAct L r ds q g with
    | skip => exact ih s hs hrest
    | fail err => rfl
    | store v =>
      simp only []
      have hg : g ≠ fn := fun hg => h (q, g) (List.mem_cons_self _ _) hg v ha
      rw [ih (setField s g v) (by rw [setField_decl, hs]) hrest]
      exact FieldByName_setField_ne s g fn v hg

/-- C3: for every field of the target record, of any declared type, whose
parameter has an empty (or no) value in the request, processing the field
returns no error and leaves the record as it was; and, for a record type whose
field names are distinct, the field holds after the whole call, in every
visiting order, the value it held before. -/
theorem empty_value_leaves_field :
    (∀ (L : Lib) (request : Request) (s : Struct) (p fn : String),
      request.FormValue p = "" → setFieldValue L s p fn request = (s, none))
    ∧ (∀ (L : Lib) (o : MapOrder) (request : Request) (s : Struct) (fn : String) (f : Field),
      FieldByName s fn = some f →
      (s.map (fun x => x.decl.Name)).Nodup →
      request.FormValue (paramKey f.decl) = "" →
      ∃ e s2, UnmarshallRequestForm L o request (ptrTo s) = .returned (e, ptrTo s2)
        ∧ FieldByName s2 fn = some f) := by
  constructor
  · intro L request s p fn h
    rw [setFieldValue_eq, entryAct_empty L request _ p fn h]
    rfl
  · intro L o request s fn f hfield hnodup hempty
    rw [UnmarshallRequestForm_ptrTo]
    cases request.ensureParsed.2 with
    | some e0 => exact ⟨_, s, rfl, hfield⟩
    | none =>
      refine ⟨_, _, rfl, ?_⟩
      rw [bindLoop_frame L request (s.map Field.decl) fn _ s rfl, hfield]
      intro e he hfn v
      have hm := (o.perm _).mem_iff.mp he
      obtain ⟨d, hd, hed⟩ := paramMap_mem _ e hm
      have h1 : e.1 = paramKey d := congrArg Prod.fst hed
      have h2 : e.2 = d.Name := congrArg Prod.snd hed
      have hdecl : declByName (s.map Field.decl) fn = some f.decl := by
        rw [FieldByName_decl, hfield]; rfl
      have hnd : ((s.map Field.decl).map StructField.Name).Nodup := by
        simpa [List.map_map, Function.comp] using hnodup
      have hdf : d = f.decl :=
        declByName_unique (s.map Field.decl) fn d f.decl hnd hd (h2.symm.trans hfn) hdecl
      rw [entryAct_empty L request _ e.1 e.2 (by rw [h1, hdf]; exact hempty)]
      exact fun h => Act.noConfusion h

/-- C3, at the zero `TestStruct` and a request without parameters, for the
field `Start`. -/
theorem empty_value_leaves_field_witness :
    ((getRequest "").FormValue "start" = ""
      ∧ FieldByName TestStructZero "Start"
        = some ⟨⟨"Start", [("param", "start")], .time, true⟩, .time Time.zero⟩
      ∧ (TestStructZero.map (fun x => x.decl.Name)).Nodup)
    ∧ setFieldValue Lib.sample TestStructZero "start" "Start" (getRequest "")
        = (TestStructZero, none)
    ∧ ∃ e s2, UnmarshallRequestForm Lib.sample MapOrder.stored (getRequest "")
          (ptrTo TestStructZero) = .returned (e, ptrTo s2)
        ∧ FieldByName s2 "Start"
          = some ⟨⟨"Start", [("param", "start")], .time, true⟩, .time Time.zero⟩ :=
  ⟨by decide,
   empty_value_leaves_field.1 Lib.sample (getRequest "") TestStructZero "start" "Start"
    (by decide),
   empty_value_leaves_field.2 Lib.sample MapOrder.stored (getRequest "") TestStructZero "Start"
    ⟨⟨"Start", [("param", "start")], .time, true⟩, .time Time.zero⟩
    (by decide) (by decide) (by decide)⟩

/-- C4: the nil interface value is not a pointer, yet `validateAndGetType`
returns no error for it: the call panics in `v.Type()` on the zero
`reflect.Value`; the same happens on the error path for a nil pointer, whose
`Elem()` is the zero Value. -/
theorem validateAndGetType_nil_no_error :
    (ValueOf none).Kind ≠ .Pointer
    ∧ (∀ r, validateAndGetType none ≠ .returned r)
    ∧ (∀ r, validateAndGetType (some (.nilPtr (.plain .Int))) ≠ .returned r) := by
  refine ⟨by decide, ?_, ?_⟩ <;> intro r h <;> simp [validateAndGetType, ValueOf, Value.Kind,
    Value.Typ, Value.Elem] at h

/-- For every non-nil input that is not a nil pointer, `validateAndGetType`
returns: with an error when the input is not a pointer or points to something
that is not a struct, with the struct type and no error when it points to a
struct. -/
theorem validateAndGetType_non_nil (v : GoValue) :
    ((ValueOf (some v)).Kind ≠ .Pointer →
      validateAndGetType (some v)
        = .returned (v.typeOf, some (.errorString "val is not a pointer to struct")))
    ∧ (∀ t : GoValue, v = .ptr t → (ValueOf (some t)).Kind ≠ .Struct →
      validateAndGetType (some v)
        = .returned (t.typeOf, some (.errorString "val is not a struct to struct")))
    ∧ (∀ s : Struct, v = .ptr (.struct s) →
      validateAndGetType (some v) = .returned (.struct (s.map Field.decl), none)) := by
  refine ⟨?_, ?_, ?_⟩
  · intro h
    cases v <;> simp_all [validateAndGetType, ValueOf, Value.Kind, Value.Typ]
  · intro t hv ht
    subst hv
    cases t <;> simp_all [validateAndGetType, ValueOf, Value.Kind, Value.Typ, Value.Elem]
  · intro s hv
    subst hv
    rfl

/-- C5: `validateAndGetType` is not total: on the nil interface value and on a
nil pointer of struct-pointer type it panics, because `v.Type()` on its error
paths is applied to the zero `reflect.Value`. -/
theorem validateAndGetType_panics_on_nil :
    validateAndGetType none = .panic "reflect: call of reflect.Value.Type on zero Value"
    ∧ validateAndGetType (some (.nilPtr (.struct TestStructType)))
      = .panic "reflect: call of reflect.Value.Type on zero Value" := by
  decide

/-- When no visited entry fails, the loop returns nil after the acts of the
entries. -/
theorem bindLoop_ok (L : Lib) (r : Request) (ds : List StructField) :
    ∀ (l : GoMap) (s : Struct), s.map Field.decl = ds →
      (∀ e ∈ l, ∀ err, entryAct L r ds e.1 e.2 ≠ .fail err) →
      bindLoop L r l s = (none, applyEntries L r ds l s) := by
  intro l
  induction l with
  | nil => intro s _ _; rfl
  | cons e rest ih =>
    intro s hs h
    obtain ⟨q, g⟩ := e
    have hrest : ∀ e ∈ rest, ∀ err, entryAct L r ds e.1 e.2 ≠ .fail err :=
      fun e he => h e (List.mem_cons_of_mem _ he)
    rw [bindLoop_cons, hs]
    simp only [applyEntries, List.foldl_cons]
    cases ha : entryAct L r ds q g with
    | skip => exact ih s hs hrest
    | fail err => exact absurd ha (h (q, g) (List.mem_cons_self _ _) err)
    | store v => exact ih (setField s g v) (by rw [setField_decl, hs]) hrest

theorem applyAct_comm (s : Struct) (a b : String) (x y : Act) (hab : a ≠ b) :
    (applyAct (applyAct s a x).1 b y).1 = (applyAct (applyAct s b y).1 a x).1 := by
  cases x <;> cases y <;> simp only [applyAct]
  exact setField_comm s a b _ _ hab

/-- The acts of the entries of a map whose field names are distinct give the
same struct in every visiting order. -/
theorem applyEntries_perm (L : Lib) (r : Request) (ds : List StructField) (l m : GoMap)
    (s : Struct) (hperm : l.Perm m) (hnd : (m.map Prod.snd).Nodup) :
    applyEntries L r ds l s = applyEntries L r ds m s := by
  unfold applyEntries
  apply List.Perm.foldl_eq' hperm
  intro x hx y hy z
  by_cases hxy : x.2 = y.2
  · have : x = y := List.inj_on_of_nodup_map hnd (hperm.mem_iff.mp hx) (hperm.mem_iff.mp hy) hxy
    rw [this]
  · exact applyAct_comm z x.2 y.2 _ _ hxy

/-- The whole call when no entry of the field map fails: in every visiting
order it returns nil after the acts of all entries. -/
theorem UnmarshallRequestForm_all_ok (L : Lib) (o : MapOrder) (request : Request) (s : Struct)
    (m : GoMap)
    (hmap : getListOfParamNames (.struct (s.map Field.decl)) = .returned m)
    (hparse : request.ensureParsed.2 = none)
    (hok : ∀ e ∈ m, ∀ err, entryAct L request (s.map Field.decl) e.1 e.2 ≠ .fail err)
    (hnd : (m.map Prod.snd).Nodup) :
    UnmarshallRequestForm L o request (ptrTo s)
      = .returned (none, ptrTo (applyEntries L request (s.map Field.decl) m s)) := by
  rw [getListOfParamNames_struct] at hmap
  have hm : paramMap (s.map Field.decl) = m := by injection hmap
  rw [UnmarshallRequestForm_ptrTo, hparse, hm]
  simp only []
  have hall : ∀ e ∈ o.visit m, ∀ err, entryAct L request (s.map Field.decl) e.1 e.2 ≠ .fail err :=
    fun e he => hok e ((o.perm m).mem_iff.mp he)
  rw [bindLoop_ok L request (s.map Field.decl) (o.visit m) s rfl hall,
    applyEntries_perm L request (s.map Field.decl) (o.visit m) m s (o.perm m) hnd]

/-- The instant 2023-01-02T15:04:05Z is 1672671845 seconds after the Unix
epoch. -/
theorem Date_scenario : Date 2023 1 2 15 4 5 0 = ⟨1672671845, 0, .UTC⟩ := by
  decide

/-- C6: binding a zero-valued `TestStruct` against the parameters `name=Joe`,
`is_cool=true`, `counter=1`, `start=2023-01-02T15:04:05Z` returns no error and
leaves the record equal to `Name: "Joe"`, `IsCool: true`, `Counter: 1`,
`Start:` the instant 2023-01-02T15:04:05Z, that is 1672671845 seconds after the
Unix epoch, with no nanoseconds, in UTC -- for every visiting order of the field
map and every local time zone of the machine. -/
theorem bind_TestStruct_scenario (L : Lib) (o : MapOrder) :
    UnmarshallRequestForm L o
        (getRequest "name=Joe&is_cool=true&counter=1&start=2023-01-02T15:04:05Z")
        (ptrTo TestStructZero)
      = .returned (none, ptrTo
          [⟨⟨"Name", [("param", "name")], .other .String, true⟩, .str "Joe"⟩,
           ⟨⟨"IsCool", [("param", "is_cool")], .other .Bool, true⟩, .bool true⟩,
           ⟨⟨"Counter", [("param", "counter")], .other .Int, true⟩, .int 1⟩,
           ⟨⟨"Start", [("param", "start")], .time, true⟩,
             .time ⟨1672671845, 0, .UTC⟩⟩]) := by
  have h1 : entryAct L (getRequest "name=Joe&is_cool=true&counter=1&start=2023-01-02T15:04:05Z")
      (TestStructZero.map Field.decl) "name" "Name" = .store (.str "Joe") := rfl
  have h2 : entryAct L (getRequest "name=Joe&is_cool=true&counter=1&start=2023-01-02T15:04:05Z")
      (TestStructZero.map Field.decl) "is_cool" "IsCool" = .store (.bool true) := rfl
  have h3 : entryAct L (getRequest "name=Joe&is_cool=true&counter=1&start=2023-01-02T15:04:05Z")
      (TestStructZero.map Field.decl) "counter" "Counter" = .store (.int 1) := rfl
  have h4 : entryAct L (getRequest "name=Joe&is_cool=true&counter=1&start=2023-01-02T15:04:05Z")
      (TestStructZero.map Field.decl) "start" "Start"
      = .store (.time ⟨1672671845, 0, .UTC⟩) := by
    rw [← Date_scenario]; rfl
  rw [UnmarshallRequestForm_all_ok L o _ TestStructZero
    [("name", "Name"), ("is_cool", "IsCool"), ("counter", "Counter"), ("start", "Start")]
    (by decide) (by decide) ?_ (by decide)]
  · simp only [applyEntries, List.foldl_cons, List.foldl_nil, h1, h2, h3, h4]
    rfl
  · intro e he err
    simp only [List.mem_cons, List.mem_singleton, List.not_mem_nil, or_false] at he
    rcases he with h | h | h | h <;> subst h <;> simp only [h1, h2, h3, h4] <;>
      exact fun h => Act.noConfusion h

/-- C7: for the query string of the test and of the usage example,
`name=Joe&is_cool=true&counter=1&start=20023-01-02T15:04:05Z`, and a pointer to
a zero-valued `TestStruct`, `UnmarshallRequestForm` does not return nil: in
every visiting order and for every local time zone it returns the error
`invalid time format for parameter Start`, wrapped with the parameter name
`start` (none of the nine formats accepts the five-digit year). -/
theorem bind_TestFull_query_returns_error (L : Lib) (o : MapOrder) :
    ∃ s2, UnmarshallRequestForm L o
        (getRequest "name=Joe&is_cool=true&counter=1&start=20023-01-02T15:04:05Z")
        (ptrTo TestStructZero)
      = .returned (some (Errorf_w L "error setting value for param start: "
          (.errorString "invalid time format for parameter Start")), ptrTo s2) := by
  have h1 : entryAct L (getRequest "name=Joe&is_cool=true&counter=1&start=20023-01-02T15:04:05Z")
      (TestStructZero.map Field.decl) "name" "Name" = .store (.str "Joe") := rfl
  have h2 : entryAct L (getRequest "name=Joe&is_cool=true&counter=1&start=20023-01-02T15:04:05Z")
      (TestStructZero.map Field.decl) "is_cool" "IsCool" = .store (.bool true) := rfl
  have h3 : entryAct L (getRequest "name=Joe&is_cool=true&counter=1&start=20023-01-02T15:04:05Z")
      (TestStructZero.map Field.decl) "counter" "Counter" = .store (.int 1) := rfl
  have h4 : entryAct L (getRequest "name=Joe&is_cool=true&counter=1&start=20023-01-02T15:04:05Z")
      (TestStructZero.map Field.decl) "start" "Start"
      = .fail (.errorString "invalid time format for parameter Start") := rfl
  refine UnmarshallRequestForm_unique_fail L o _ TestStructZero
    [("name", "Name"), ("is_cool", "IsCool"), ("counter", "Counter"), ("start", "Start")]
    "start" "Start" _ (by decide) (by decide) (by decide) h4 ?_
  intro e he hne err2
  simp only [List.mem_cons, List.mem_singleton, List.not_mem_nil, or_false] at he
  rcases he with h | h | h | h <;> subst h
  · simp only [h1]; exact fun h => Act.noConfusion h
  · simp only [h2]; exact fun h => Act.noConfusion h
  · simp only [h3]; exact fun h => Act.noConfusion h
  · exact absurd rfl hne

theorem parseTimeFormats_none (L : Lib) (d : String) :
    ∀ formats : List String, (∀ format ∈ formats, Parse L format d = none) →
      parseTimeFormats L formats d = none := by
  intro formats
  induction formats with
  | nil => intro _; rfl
  | cons x rest ih =>
    intro h
    simp only [parseTimeFormats, h x (List.mem_cons_self _ _)]
    exact ih (fun y hy => h y (List.mem_cons_of_mem _ hy))

/-- In a record type with distinct field names, every entry of the field map
for the field name `fn` has the parameter name of the field `fn` as its key. -/
theorem entry_key (s : Struct) (fn : String) (f : Field) (e : String × String)
    (hfield : FieldByName s fn = some f)
    (hnodup : (s.map (fun x => x.decl.Name)).Nodup)
    (he : e ∈ paramMap (s.map Field.decl)) (hfn : e.2 = fn) : e.1 = paramKey f.decl := by
  obtain ⟨d, hd, hed⟩ := paramMap_mem _ e he
  have h1 : e.1 = paramKey d := congrArg Prod.fst hed
  have h2 : e.2 = d.Name := congrArg Prod.snd hed
  have hdecl : declByName (s.map Field.decl) fn = some f.decl := by
    rw [FieldByName_decl, hfield]; rfl
  have hnd : ((s.map Field.decl).map StructField.Name).Nodup := by
    simpa [List.map_map, Function.comp] using hnodup
  have hdf : d = f.decl :=
    declByName_unique (s.map Field.decl) fn d f.decl hnd hd (h2.symm.trans hfn) hdecl
  rw [h1, hdf]

/-- The whole call keeps the contents of a field whose own entry stores
nothing, in every visiting order (the field names of the record type being
distinct). -/
theorem UnmarshallRequestForm_field_kept (L : Lib) (o : MapOrder) (request : Request)
    (s : Struct) (fn : String) (f : Field)
    (hfield : FieldByName s fn = some f)
    (hnodup : (s.map (fun x => x.decl.Name)).Nodup)
    (hnostore : ∀ v, entryAct L request (s.map Field.decl) (paramKey f.decl) fn ≠ .store v) :
    ∃ e s2, UnmarshallRequestForm L o request (ptrTo s) = .returned (e, ptrTo s2)
      ∧ FieldByName s2 fn = some f := by
  rw [UnmarshallRequestForm_ptrTo]
  cases request.ensureParsed.2 with
  | some e0 => exact ⟨_, s, rfl, hfield⟩
  | none =>
    refine ⟨_, _, rfl, ?_⟩
    rw [bindLoop_frame L request (s.map Field.decl) fn _ s rfl, hfield]
    intro e he hfn v
    have hm := (o.perm _).mem_iff.mp he
    have hk := entry_key s fn f e hfield hnodup hm hfn
    rw [hk, hfn]
    exact hnostore v

set_option maxRecDepth 8000 in
/-- C8 (counterexample): a settable time-valued field whose parameter is
present with the value `not-a-date`, which none of the nine formats parses, and
yet no error naming the field. In `ShadowedTimeRecord` the later field `Note`
has taken over the parameter name of `When`: the call returns nil. For the zero
`TestStruct` bound against `counter=x&start=not-a-date`, visiting the map in
the stored order, the call returns the error of `counter`, whose message does
not contain `Start`. -/
theorem unparsed_time_not_always_reported :
    (FieldByName ShadowedTimeRecord "When"
        = some ⟨⟨"When", [("param", "x")], .time, true⟩, .time Time.zero⟩
      ∧ (getRequest "x=not-a-date").FormValue "x" = "not-a-date"
      ∧ QueryUnescape "not-a-date" = .ok "not-a-date"
      ∧ (∀ format ∈ TimeFormats, Parse Lib.sample format "not-a-date" = none)
      ∧ UnmarshallRequestForm Lib.sample MapOrder.stored (getRequest "x=not-a-date")
          (ptrTo ShadowedTimeRecord)
        = .returned (none, ptrTo
            [⟨⟨"When", [("param", "x")], .time, true⟩, .time Time.zero⟩,
             ⟨⟨"Note", [("param", "x")], .other .String, true⟩, .str "not-a-date"⟩]))
    ∧ ((getRequest "counter=x&start=not-a-date").FormValue "start" = "not-a-date"
      ∧ UnmarshallRequestForm Lib.sample MapOrder.stored
          (getRequest "counter=x&start=not-a-date") (ptrTo TestStructZero)
        = .returned (some (Errorf_w Lib.sample "error setting value for param counter: "
            (.NumError "Atoi" "x" .ErrSyntaxKind)), ptrTo TestStructZero)
      ∧ ¬ "Start".data <:+: ((Errorf_w Lib.sample "error setting value for param counter: "
            (.NumError "Atoi" "x" .ErrSyntaxKind)).Error Lib.sample).data) := by
  refine ⟨⟨by decide, by decide, by decide, by decide, by decide⟩, by decide, by decide, ?_⟩
  decide

/-- C8 (amended): for every settable time-valued field whose parameter is
present with a non-empty, percent-decodable value that none of the nine formats
in `TimeFormats` parses, `setFieldValue` returns the error `invalid time format
for parameter` followed by the field's name and leaves the record as it was.
When the field map returned by `getListOfParamNames` holds the field's entry
(parameter name to field name), `UnmarshallRequestForm` returns a non-nil error
in every visiting order, and, the field names of the record being distinct, the
field still holds its old value after the call; when moreover `ParseForm`
reported no error and no other entry of the field map fails, the returned error
is that error wrapped with the parameter name, and its message ends with the
field's name. -/
theorem time_format_failure (L : Lib) (o : MapOrder) (request : Request) (s : Struct)
    (m : GoMap) (p fn : String) (f : Field) (v d : String)
    (hmap : getListOfParamNames (.struct (s.map Field.decl)) = .returned m)
    (hfield : FieldByName s fn = some f) (hset : f.CanSet = true)
    (htime : f.decl.Typ = .time)
    (hval : request.FormValue p = v) (hne : v ≠ "") (hdec : QueryUnescape v = .ok d)
    (hnone : ∀ format ∈ TimeFormats, Parse L format d = none) :
    setFieldValue L s p fn request
        = (s, some (.errorString ("invalid time format for parameter " ++ fn)))
    ∧ ((p, fn) ∈ m →
        ∃ e val, UnmarshallRequestForm L o request (ptrTo s) = .returned (some e, val))
    ∧ ((p, fn) ∈ m → (s.map (fun x => x.decl.Name)).Nodup →
        ∃ e s2, UnmarshallRequestForm L o request (ptrTo s) = .returned (some e, ptrTo s2)
          ∧ FieldByName s2 fn = some f)
    ∧ ((p, fn) ∈ m → request.ensureParsed.2 = none →
        (∀ e ∈ m, e ≠ (p, fn) → (setFieldValue L s e.1 e.2 request).2 = none) →
        ∃ s2, UnmarshallRequestForm L o request (ptrTo s)
          = .returned (some (Errorf_w L ("error setting value for param " ++ p ++ ": ")
              (.errorString ("invalid time format for parameter " ++ fn))), ptrTo s2))
    ∧ (Errorf_w L ("error setting value for param " ++ p ++ ": ")
          (.errorString ("invalid time format for parameter " ++ fn))).Error L
        = "error setting value for param " ++ p ++ ": invalid time format for parameter "
          ++ fn := by
  have hact : entryAct L request (s.map Field.decl) p fn
      = .fail (.errorString ("invalid time format for parameter " ++ fn)) := by
    rw [entryAct_present L request s p fn f v d hfield hset hval hne hdec]
    have hk : f.Kind = .Struct := by simp [Field.Kind, htime, FieldType.Kind]
    simp only [hk, htime, parseTimeFormats_none L d TimeFormats hnone]
  refine ⟨?_, ?_, ?_, ?_, ?_⟩
  · rw [setFieldValue_eq, hact]; rfl
  · intro hentry
    exact UnmarshallRequestForm_fail L o request s m p fn _ hmap hentry hact
  · intro hentry hnodup
    have hfailed := UnmarshallRequestForm_fail L o request s m p fn _ hmap hentry hact
    have hm : paramMap (s.map Field.decl) = m := by
      rw [getListOfParamNames_struct] at hmap; injection hmap
    have hk : p = paramKey f.decl :=
      entry_key s fn f (p, fn) hfield hnodup (hm ▸ hentry) rfl
    obtain ⟨e, s2, he, hkept⟩ := UnmarshallRequestForm_field_kept L o request s fn f hfield hnodup
      (by rw [← hk, hact]; exact fun v h => Act.noConfusion h)
    obtain ⟨e2, val, he2⟩ := hfailed
    rw [he] at he2
    have hee : e = some e2 := by injection he2 with h; exact congrArg Prod.fst h
    exact ⟨e2, s2, by rw [he, hee], hkept⟩
  · intro hentry hparse hothers
    exact UnmarshallRequestForm_unique_fail L o request s m p fn _ hmap hparse hentry hact
      (no_other_fail_of_setFieldValue L request s m p fn hothers)
  · simp only [Errorf_w, GoError.Error, String.append_assoc]
    rw [← String.append_assoc ": " "invalid time format for parameter " fn]
    rfl

/-- C8 (amended), at the zero `TestStruct` bound against `start=not-a-date`,
the field map visited in the reversed order. -/
theorem time_format_failure_witness :
    (getListOfParamNames (.struct (TestStructZero.map Field.decl))
        = .returned [("name", "Name"), ("is_cool", "IsCool"), ("counter", "Counter"),
            ("start", "Start")]
      ∧ FieldByName TestStructZero "Start"
        = some ⟨⟨"Start", [("param", "start")], .time, true⟩, .time Time.zero⟩
      ∧ (getRequest "start=not-a-date").FormValue "start" = "not-a-date"
      ∧ QueryUnescape "not-a-date" = .ok "not-a-date"
      ∧ (∀ format ∈ TimeFormats, Parse Lib.sample format "not-a-date" = none)
      ∧ (TestStructZero.map (fun x => x.decl.Name)).Nodup
      ∧ (getRequest "start=not-a-date").ensureParsed.2 = none
      ∧ ∀ e ∈ [("name", "Name"), ("is_cool", "IsCool"), ("counter", "Counter"),
            ("start", "Start")],
          e ≠ ("start", "Start") →
          (setFieldValue Lib.sample TestStructZero e.1 e.2
            (getRequest "start=not-a-date")).2 = none)
    ∧ (setFieldValue Lib.sample TestStructZero "start" "Start" (getRequest "start=not-a-date")
        = (TestStructZero, some (.errorString ("invalid time format for parameter " ++ "Start")))
    ∧ (∃ e val, UnmarshallRequestForm Lib.sample MapOrder.reversed
          (getRequest "start=not-a-date") (ptrTo TestStructZero) = .returned (some e, val))
    ∧ (∃ e s2, UnmarshallRequestForm Lib.sample MapOrder.reversed
            (getRequest "start=not-a-date") (ptrTo TestStructZero)
            = .returned (some e, ptrTo s2)
          ∧ FieldByName s2 "Start"
            = some ⟨⟨"Start", [("param", "start")], .time, true⟩, .time Time.zero⟩)
    ∧ (∃ s2, UnmarshallRequestForm Lib.sample MapOrder.reversed (getRequest "start=not-a-date")
            (ptrTo TestStructZero)
          = .returned (some (Errorf_w Lib.sample ("error setting value for param " ++ "start"
                ++ ": ") (.errorString ("invalid time format for parameter " ++ "Start"))),
              ptrTo s2))
    ∧ (Errorf_w Lib.sample ("error setting value for param " ++ "start" ++ ": ")
          (.errorString ("invalid time format for parameter " ++ "Start"))).Error Lib.sample
        = "error setting value for param " ++ "start" ++ ": invalid time format for parameter "
          ++ "Start") :=
  have h := time_format_failure Lib.sample MapOrder.reversed (getRequest "start=not-a-date")
    TestStructZero
    [("name", "Name"), ("is_cool", "IsCool"), ("counter", "Counter"), ("start", "Start")]
    "start" "Start" ⟨⟨"Start", [("param", "start")], .time, true⟩, .time Time.zero⟩
    "not-a-date" "not-a-date"
    (by decide) (by decide) (by decide) (by decide) (by decide) (by decide) (by decide)
    (by decide)
  ⟨by decide, h.1, h.2.1 (by decide), h.2.2.1 (by decide) (by decide),
    h.2.2.2.1 (by decide) (by decide) (by decide), h.2.2.2.2⟩

/-! ## strconv.Atoi on integer literals -/

theorem foldl_digits_ge (ds : List Char) :
    ∀ n : Nat, n ≤ ds.foldl (fun acc c => acc * 10 + (c.toNat - '0'.toNat)) n := by
  induction ds with
  | nil => intro n; exact Nat.le_refl n
  | cons c cs ih =>
    intro n
    simp only [List.foldl_cons]
    exact Nat.le_trans (by omega) (ih _)

/-- On a list of digits whose value fits in 64 bits, the loop of `ParseUint`
returns that value. -/
theorem parseUintLoop_digits (ds : List Char) :
    ∀ n : Nat, (∀ c ∈ ds, '0' ≤ c ∧ c ≤ '9') →
      ds.foldl (fun acc c => acc * 10 + (c.toNat - '0'.toNat)) n ≤ 2 ^ 64 - 1 →
      parseUintLoop ds n = .ok (ds.foldl (fun acc c => acc * 10 + (c.toNat - '0'.toNat)) n) := by
  induction ds with
  | nil => intro n _ _; rfl
  | cons c cs ih =>
    intro n hd hle
    simp only [List.foldl_cons] at hle ⊢
    have hc := hd c (List.mem_cons_self _ _)
    have h1 := foldl_digits_ge cs (n * 10 + (c.toNat - '0'.toNat))
    have h2 : n * 10 + (c.toNat - '0'.toNat) ≤ 2 ^ 64 - 1 := Nat.le_trans h1 hle
    have h3 : ¬ (n ≥ (2 ^ 64 - 1) / 10 + 1) := by
      norm_num at h2 ⊢
      omega
    have h4 : ¬ (n * 10 + (c.toNat - '0'.toNat) > 2 ^ 64 - 1) := Nat.not_lt.mpr h2
    simp only [parseUintLoop, hc.1, hc.2, decide_True, Bool.and_self, if_true, if_neg h3, if_neg h4]
    exact ih _ (fun x hx => hd x (List.mem_cons_of_mem _ hx)) hle

theorem digit_not_sign (c : Char) (h : '0' ≤ c) : c ≠ '+' ∧ c ≠ '-' := by
  constructor <;> intro hc <;> subst hc <;> exact absurd h (by decide)

/-- The function `strconv.Atoi` returns `n` on every base-10 signed integer
literal denoting an `n` in the range of the 64-bit `int`. -/
theorem Atoi_literal (s : String) (n : Int) (hlit : IsIntLiteral s n)
    (hlo : -(2 ^ 63 : Int) ≤ n) (hhi : n < 2 ^ 63) : Atoi s = .ok n := by
  obtain ⟨sign, digits, hs, hsign, hne, hdig, hn⟩ := hlit
  have hge := foldl_digits_ge digits 0
  have hval : ∀ un : Nat, un = decimalValue digits → un ≤ 2 ^ 64 - 1 →
      ParseUint digits = .ok un := by
    intro un hun hle
    simp only [ParseUint, if_neg hne]
    rw [hun] at hle ⊢
    exact parseUintLoop_digits digits 0 hdig hle
  unfold Atoi
  rcases hsign with h | h | h
  · subst h
    simp only [List.nil_append] at hs
    have hn : n = (decimalValue digits : Int) := by
      rw [hn]; simp
    obtain ⟨c, rest, hcr⟩ := List.exists_cons_of_ne_nil hne
    have hc := digit_not_sign c (hdig c (hcr ▸ List.mem_cons_self _ _)).1
    have hle : decimalValue digits ≤ 2 ^ 64 - 1 := by
      have : (decimalValue digits : Int) < 2 ^ 63 := hn ▸ hhi
      norm_num at this ⊢
      omega
    have hlt : ¬ (decimalValue digits ≥ 2 ^ 63) := by
      have : (decimalValue digits : Int) < 2 ^ 63 := hn ▸ hhi
      norm_num at this ⊢
      omega
    have hpu := hval _ rfl hle
    rw [hs, hcr]
    rw [hcr] at hpu
    simp only [ParseInt, hc.1, hc.2, or_self, if_false, hpu, decide_False, Bool.not_false,
      Bool.true_and, Bool.false_and, Bool.false_eq_true]
    rw [← hcr]
    simp only [decide_eq_true_eq, if_neg hlt, hn]
  · subst h
    have hn2 : n = (decimalValue digits : Int) := by
      rw [hn]; simp
    have hle : decimalValue digits ≤ 2 ^ 64 - 1 := by
      have : (decimalValue digits : Int) < 2 ^ 63 := hn2 ▸ hhi
      norm_num at this ⊢
      omega
    have hlt : ¬ (decimalValue digits ≥ 2 ^ 63) := by
      have : (decimalValue digits : Int) < 2 ^ 63 := hn2 ▸ hhi
      norm_num at this ⊢
      omega
    have hpu := hval _ rfl hle
    rw [hs]
    simp only [List.singleton_append, ParseInt, true_or, if_true, hpu]
    simp only [show decide ('+' = '-') = false from by decide, Bool.not_false, Bool.true_and,
      Bool.false_and, Bool.false_eq_true, if_false, decide_eq_true_eq, if_neg hlt, hn2]
  · subst h
    simp only [if_true] at hn
    have hle : decimalValue digits ≤ 2 ^ 64 - 1 := by
      have : -(2 ^ 63 : Int) ≤ -(decimalValue digits : Int) := hn ▸ hlo
      norm_num at this ⊢
      omega
    have hlt : ¬ (decimalValue digits > 2 ^ 63) := by
      have : -(2 ^ 63 : Int) ≤ -(decimalValue digits : Int) := hn ▸ hlo
      norm_num at this ⊢
      omega
    have hpu := hval _ rfl hle
    rw [hs]
    simp only [List.singleton_append, ParseInt, or_true, if_true, hpu]
    simp only [decide_True, Bool.not_true, Bool.false_and, Bool.false_eq_true, if_false,
      Bool.true_and, decide_eq_true_eq, if_neg hlt, if_true, hn]

/-- The conversion done by `SetInt` keeps every number that is in the range of
the field's integer type. -/
theorem truncInt_in_range (k : Kind) (n : Int) (hk : isIntKind k = true)
    (hlo : -(2 ^ (kindBits k - 1) : Int) ≤ n) (hhi : n < 2 ^ (kindBits k - 1)) :
    truncInt k n = n := by
  cases k <;> simp [isIntKind] at hk <;> simp only [kindBits, truncInt, wrap] at hlo hhi ⊢ <;>
    norm_num at hlo hhi ⊢ <;> omega

/-- The field `fn` after the acts of the visited entries, when the only
visited entry for `fn` is `(p, fn)` and it stores `v`. -/
theorem applyEntries_field (L : Lib) (r : Request) (ds : List StructField) (p fn : String)
    (v : Val) (hact : entryAct L r ds p fn = .store v) :
    ∀ (l : GoMap) (s : Struct) (g : Field), FieldByName s fn = some g →
      (∀ e ∈ l, e.2 = fn → e = (p, fn)) →
      FieldByName (applyEntries L r ds l s) fn
        = some (if (p, fn) ∈ l then { g with val := v } else g) := by
  intro l
  induction l with
  | nil => intro s g hg _; simpa using hg
  | cons e rest ih =>
    intro s g hg h
    obtain ⟨q, a⟩ := e
    have hrest : ∀ e ∈ rest, e.2 = fn → e = (p, fn) := fun e he => h e (List.mem_cons_of_mem _ he)
    simp only [applyEntries, List.foldl_cons]
    by_cases ha : a = fn
    · have he : (q, a) = (p, fn) := h (q, a) (List.mem_cons_self _ _) ha
      have hq : q = p := congrArg Prod.fst he
      subst hq; subst ha
      rw [hact]
      simp only [List.mem_cons, true_or, if_true]
      have := ih (setField s a v) { g with val := v } (FieldByName_setField_eq s a v g hg) hrest
      simp only [applyEntries] at this
      show FieldByName (List.foldl _ (setField s a v) rest) a = _
      rw [this]
      split <;> rfl
    · have hne : (p, fn) ≠ (q, a) := fun h2 => ha (congrArg Prod.snd h2).symm
      have hs2 : FieldByName (applyAct s a (entryAct L r ds q a)).1 fn = some g := by
        cases entryAct L r ds q a with
        | skip => exact hg
        | fail err => exact hg
        | store w => simp only [applyAct]; rw [FieldByName_setField_ne s a fn w ha]; exact hg
      have := ih _ g hs2 hrest
      simp only [applyEntries] at this
      rw [this]
      simp [hne]

theorem no_fail_of_setFieldValue (L : Lib) (request : Request) (s : Struct) (m : GoMap)
    (hok : ∀ e ∈ m, (setFieldValue L s e.1 e.2 request).2 = none) :
    ∀ e ∈ m, ∀ err, entryAct L request (s.map Field.decl) e.1 e.2 ≠ .fail err := by
  intro e he err hfail
  have := hok e he
  rw [setFieldValue_eq, hfail] at this
  simp [applyAct] at this

/-- The whole call when no entry of the field map fails and the entry
`(p, fn)` stores `v`: in every visiting order it returns nil and the field `fn`
holds `v` afterwards (the field names of the record type being distinct). -/
theorem UnmarshallRequestForm_field_stored (L : Lib) (o : MapOrder) (request : Request)
    (s : Struct) (m : GoMap) (p fn : String) (f : Field) (v : Val)
    (hmap : getListOfParamNames (.struct (s.map Field.decl)) = .returned m)
    (hentry : (p, fn) ∈ m)
    (hfield : FieldByName s fn = some f)
    (hact : entryAct L request (s.map Field.decl) p fn = .store v)
    (hnodup : (s.map (fun x => x.decl.Name)).Nodup)
    (hparse : request.ensureParsed.2 = none)
    (hok : ∀ e ∈ m, (setFieldValue L s e.1 e.2 request).2 = none) :
    ∃ s2, UnmarshallRequestForm L o request (ptrTo s) = .returned (none, ptrTo s2)
      ∧ FieldByName s2 fn = some { f with val := v } := by
  have hnf := no_fail_of_setFieldValue L request s m hok
  rw [getListOfParamNames_struct] at hmap
  have hm : paramMap (s.map Field.decl) = m := by injection hmap
  rw [UnmarshallRequestForm_ptrTo, hparse, hm]
  simp only []
  have hall : ∀ e ∈ o.visit m, ∀ err, entryAct L request (s.map Field.decl) e.1 e.2 ≠ .fail err :=
    fun e he => hnf e ((o.perm m).mem_iff.mp he)
  rw [bindLoop_ok L request (s.map Field.decl) (o.visit m) s rfl hall]
  refine ⟨_, rfl, ?_⟩
  have hkey : ∀ e ∈ o.visit m, e.2 = fn → e = (p, fn) := by
    intro e he hfn
    have hem : e ∈ paramMap (s.map Field.decl) := hm ▸ (o.perm m).mem_iff.mp he
    have h1 := entry_key s fn f e hfield hnodup hem hfn
    have h2 := entry_key s fn f (p, fn) hfield hnodup (hm ▸ hentry) rfl
    exact Prod.ext (h1.trans h2.symm) hfn
  rw [applyEntries_field L request (s.map Field.decl) p fn v hact (o.visit m) s f hfield hkey,
    if_pos ((o.perm m).mem_iff.mpr hentry)]

theorem kind_range_platform (k : Kind) (n : Int)
    (hlo : -(2 ^ (kindBits k - 1) : Int) ≤ n) (hhi : n < 2 ^ (kindBits k - 1)) :
    -(2 ^ 63 : Int) ≤ n ∧ n < 2 ^ 63 := by
  cases k <;> simp only [kindBits] at hlo hhi <;> norm_num at hlo hhi ⊢ <;> omega

/-- C9 (counterexample): for a settable `int8` field and the parameter value
`300`, a base-10 literal within the range of the platform `int`, the field does
not hold 300 after the call: `SetInt` truncates to 8 bits and the field holds
44 (and nil is returned). -/
theorem int8_field_300_holds_44 :
    IsIntLiteral "300" 300 ∧ -(2 ^ 63 : Int) ≤ 300 ∧ (300 : Int) < 2 ^ 63
    ∧ UnmarshallRequestForm Lib.sample MapOrder.stored (getRequest "small=300")
        (ptrTo SmallRecord)
      = .returned (none,
          ptrTo [⟨⟨"Small", [("param", "small")], .other .Int8, true⟩, .int 44⟩]) :=
  ⟨⟨[], "300".data, rfl, Or.inl rfl, by decide, by decide, by decide⟩, by decide, by decide,
    by decide⟩

/-- C9 (amended): for every settable field of kind int, int8, int16, int32 or
int64 and every percent-decoded parameter value that is a base-10 signed
integer literal denoting an integer `n` within the range of the platform `int`
(64 bits) and within the range of the field's own integer type, `setFieldValue`
returns no error and stores exactly `n`. When the field map returned by
`getListOfParamNames` holds the field's entry (parameter name to field name),
the field names of the record are distinct, `ParseForm` reported no error and
no entry of the field map fails, `UnmarshallRequestForm` returns nil in every
visiting order and the field holds exactly `n` after the call. -/
theorem integer_literal_is_stored (L : Lib) (o : MapOrder) (request : Request) (s : Struct)
    (m : GoMap) (p fn : String) (f : Field) (v d : String) (n : Int)
    (hmap : getListOfParamNames (.struct (s.map Field.decl)) = .returned m)
    (hfield : FieldByName s fn = some f) (hset : f.CanSet = true)
    (hkind : isIntKind f.Kind = true)
    (hval : request.FormValue p = v) (hne : v ≠ "") (hdec : QueryUnescape v = .ok d)
    (hlit : IsIntLiteral d n)
    (hplo : -(2 ^ 63 : Int) ≤ n) (hphi : n < 2 ^ 63)
    (hlo : -(2 ^ (kindBits f.Kind - 1) : Int) ≤ n) (hhi : n < 2 ^ (kindBits f.Kind - 1)) :
    setFieldValue L s p fn request = (setField s fn (.int n), none)
    ∧ FieldByName (setField s fn (.int n)) fn = some { f with val := .int n }
    ∧ ((p, fn) ∈ m → (s.map (fun x => x.decl.Name)).Nodup → request.ensureParsed.2 = none →
        (∀ e ∈ m, (setFieldValue L s e.1 e.2 request).2 = none) →
        ∃ s2, UnmarshallRequestForm L o request (ptrTo s) = .returned (none, ptrTo s2)
          ∧ FieldByName s2 fn = some { f with val := .int n }) := by
  have hatoi := Atoi_literal d n hlit hplo hphi
  have htr := truncInt_in_range f.Kind n hkind hlo hhi
  have hact : entryAct L request (s.map Field.decl) p fn = .store (.int n) := by
    rw [entryAct_present L request s p fn f v d hfield hset hval hne hdec]
    cases hk : f.Kind <;> simp [isIntKind, hk] at hkind <;> simp only [hatoi] <;>
      rw [← hk, htr]
  refine ⟨?_, FieldByName_setField_eq s fn _ f hfield, ?_⟩
  · rw [setFieldValue_eq, hact]; rfl
  · intro hentry hnodup hparse hok
    exact UnmarshallRequestForm_field_stored L o request s m p fn f _ hmap hentry hfield hact
      hnodup hparse hok

/-- C9 (amended), at the zero `TestStruct` bound against `counter=-42`, the
field map visited in the reversed order. -/
theorem integer_literal_is_stored_witness :
    (getListOfParamNames (.struct (TestStructZero.map Field.decl))
        = .returned [("name", "Name"), ("is_cool", "IsCool"), ("counter", "Counter"),
            ("start", "Start")]
      ∧ FieldByName TestStructZero "Counter"
        = some ⟨⟨"Counter", [("param", "counter")], .other .Int, true⟩, .int 0⟩
      ∧ (getRequest "counter=-42").FormValue "counter" = "-42"
      ∧ QueryUnescape "-42" = .ok "-42"
      ∧ (TestStructZero.map (fun x => x.decl.Name)).Nodup
      ∧ (getRequest "counter=-42").ensureParsed.2 = none
      ∧ (∀ e ∈ [("name", "Name"), ("is_cool", "IsCool"), ("counter", "Counter"),
            ("start", "Start")],
          (setFieldValue Lib.sample TestStructZero e.1 e.2 (getRequest "counter=-42")).2 = none)
      ∧ IsIntLiteral "-42" (-42))
    ∧ (setFieldValue Lib.sample TestStructZero "counter" "Counter" (getRequest "counter=-42")
        = (setField TestStructZero "Counter" (.int (-42)), none)
    ∧ FieldByName (setField TestStructZero "Counter" (.int (-42))) "Counter"
        = some ⟨⟨"Counter", [("param", "counter")], .other .Int, true⟩, .int (-42)⟩
    ∧ ∃ s2, UnmarshallRequestForm Lib.sample MapOrder.reversed (getRequest "counter=-42")
          (ptrTo TestStructZero) = .returned (none, ptrTo s2)
        ∧ FieldByName s2 "Counter"
          = some ⟨⟨"Counter", [("param", "counter")], .other .Int, true⟩, .int (-42)⟩) :=
  have h := integer_literal_is_stored Lib.sample MapOrder.reversed (getRequest "counter=-42")
    TestStructZero
    [("name", "Name"), ("is_cool", "IsCool"), ("counter", "Counter"), ("start", "Start")]
    "counter" "Counter" ⟨⟨"Counter", [("param", "counter")], .other .Int, true⟩, .int 0⟩
    "-42" "-42" (-42)
    (by decide) (by decide) (by decide) (by decide) (by decide) (by decide) (by decide)
    ⟨['-'], "42".data, rfl, Or.inr (Or.inr rfl), by decide, by decide, by decide⟩
    (by decide) (by decide) (by decide) (by decide)
  ⟨⟨by decide, by decide, by decide, by decide, by decide, by decide, by decide,
      ⟨['-'], "42".data, rfl, Or.inr (Or.inr rfl), by decide, by decide, by decide⟩⟩,
    h.1, h.2.1, h.2.2 (by decide) (by decide) (by decide) (by decide)⟩

/-! ## url.QueryUnescape against the percent-decoding of the spec -/

theorem unescapeScan_cons_ne (c : Char) (rest : List Char) (n : Nat) (hp : Bool)
    (hc : ¬ c = '%') :
    unescapeScan (c :: rest) n hp
      = if c = '+' then unescapeScan rest n true else unescapeScan rest n hp := by
  rcases rest with _ | ⟨a, _ | ⟨b, r⟩⟩ <;> simp [unescapeScan, hc]

theorem unescapeBuild_cons_ne (c : Char) (rest : List Char) (hc : ¬ c = '%') :
    unescapeBuild (c :: rest)
      = if c = '+' then ' ' :: unescapeBuild rest else c :: unescapeBuild rest := by
  rcases rest with _ | ⟨a, _ | ⟨b, r⟩⟩ <;> simp [unescapeBuild, hc]

theorem percentDecode_cons_ne (c : Char) (rest : List Char) (hc : ¬ c = '%') :
    percentDecode (c :: rest)
      = if c = '+' then (percentDecode rest).map (fun t => ' ' :: t)
        else (percentDecode rest).map (fun t => c :: t) := by
  rcases rest with _ | ⟨a, _ | ⟨b, r⟩⟩ <;> simp [percentDecode, hc]

/-- The two loops of `url.unescape` against `percentDecode`: the scan fails
exactly when the value is undecodable; otherwise the built string is the
decoding, the count of `%` does not decrease, a seen `+` stays seen, and when
neither a `%` nor a `+` was found the value is its own decoding. -/
theorem unescape_spec :
    ∀ (k : Nat) (l : List Char), l.length ≤ k → ∀ (n : Nat) (hp : Bool),
      match unescapeScan l n hp with
      | .error _ => percentDecode l = none
      | .ok (n2, hp2) =>
        percentDecode l = some (unescapeBuild l) ∧ n ≤ n2 ∧ (hp = true → hp2 = true)
          ∧ (n2 = n → hp2 = false → unescapeBuild l = l) := by
  intro k
  induction k with
  | zero =>
    intro l hl n hp
    have : l = [] := List.length_eq_zero.mp (Nat.le_zero.mp hl)
    subst this
    simp [unescapeScan, percentDecode, unescapeBuild]
  | succ k ih =>
    intro l hl n hp
    cases l with
    | nil => simp [unescapeScan, percentDecode, unescapeBuild]
    | cons c rest =>
      have hrest : rest.length ≤ k := by simpa using hl
      by_cases hc : c = '%'
      · subst hc
        cases rest with
        | nil => simp [unescapeScan, percentDecode]
        | cons a rest1 =>
          cases rest1 with
          | nil => simp [unescapeScan, percentDecode]
          | cons b rest2 =>
            by_cases hx : (ishex a && ishex b) = true
            · have h2 : rest2.length ≤ k := by
                simp only [List.length_cons] at hrest; omega
              have := ih rest2 h2 (n + 1) hp
              simp only [unescapeScan, percentDecode, unescapeBuild, if_true, hx]
              cases hs : unescapeScan rest2 (n + 1) hp with
              | error e => rw [hs] at this; simp only [] at this ⊢; simp [this]
              | ok r =>
                obtain ⟨n2, hp2⟩ := r
                rw [hs] at this
                simp only [] at this ⊢
                obtain ⟨h1, h3, h4, _⟩ := this
                refine ⟨by simp [h1], by omega, h4, ?_⟩
                intro h5; omega
            · simp [unescapeScan, percentDecode, hx]
      · by_cases hplus : c = '+'
        · have := ih rest hrest n true
          rw [unescapeScan_cons_ne c rest n hp hc, unescapeBuild_cons_ne c rest hc,
            percentDecode_cons_ne c rest hc]
          simp only [if_pos hplus]
          cases hs : unescapeScan rest n true with
          | error e => rw [hs] at this; simp only [] at this ⊢; simp [this]
          | ok r =>
            obtain ⟨n2, hp2⟩ := r
            rw [hs] at this
            simp only [] at this ⊢
            obtain ⟨h1, h3, h4, _⟩ := this
            refine ⟨by simp [h1], h3, fun _ => h4 trivial, ?_⟩
            intro _ h6
            rw [h4 trivial] at h6
            exact absurd h6 (by decide)
        · have := ih rest hrest n hp
          rw [unescapeScan_cons_ne c rest n hp hc, unescapeBuild_cons_ne c rest hc,
            percentDecode_cons_ne c rest hc]
          simp only [if_neg hplus]
          cases hs : unescapeScan rest n hp with
          | error e => rw [hs] at this; simp only [] at this ⊢; simp [this]
          | ok r =>
            obtain ⟨n2, hp2⟩ := r
            rw [hs] at this
            simp only [] at this ⊢
            obtain ⟨h1, h3, h4, h5⟩ := this
            refine ⟨by simp [h1], h3, h4, ?_⟩
            intro h6 h7
            rw [h5 h6 h7]

/-- The function `url.QueryUnescape` computes the percent-decoding of the
spec: it succeeds with `d` exactly when the value decodes to `d`. -/
theorem QueryUnescape_iff (v d : String) :
    QueryUnescape v = .ok d ↔ percentDecode v.data = some d.data := by
  have h := unescape_spec v.data.length v.data (Nat.le_refl _) 0 false
  unfold QueryUnescape
  cases hs : unescapeScan v.data 0 false with
  | error e =>
    rw [hs] at h
    simp only [] at h ⊢
    rw [h]
    simp
  | ok r =>
    obtain ⟨n2, hp2⟩ := r
    rw [hs] at h
    simp only [] at h ⊢
    obtain ⟨h1, _, _, h4⟩ := h
    rw [h1]
    by_cases hc : (n2 = 0 && !hp2) = true
    · have hn : n2 = 0 := by simp at hc; exact hc.1
      have hh : hp2 = false := by simp at hc; exact hc.2
      have hb := h4 hn hh
      rw [if_pos hc, hb]
      constructor
      · intro he
        injection he with he
        rw [he]
      · intro he
        injection he with he
        have : v = d := by
          cases v; cases d; simp only [] at he; rw [he]
        rw [this]
    · rw [if_neg hc]
      constructor
      · intro he
        injection he with he
        rw [← he]
      · intro he
        injection he with he
        have : String.mk (unescapeBuild v.data) = d := by
          cases d; simp only [] at he; rw [he]
        rw [this]

/-- C10: for every settable string field and every non-empty looked-up
parameter value `v` that percent-decodes (each `%XX` replaced by the byte `XX`,
each `+` by a space) to `d`: `url.QueryUnescape` returns `d`, processing the
field returns no error and stores `d`; and when no entry of the field map fails,
`UnmarshallRequestForm` returns nil in every visiting order and the field holds
`d` after the call (field names being distinct). -/
theorem string_field_holds_decoding (L : Lib) (o : MapOrder) (request : Request) (s : Struct)
    (m : GoMap) (p fn : String) (f : Field) (v d : String)
    (hmap : getListOfParamNames (.struct (s.map Field.decl)) = .returned m)
    (hentry : (p, fn) ∈ m)
    (hfield : FieldByName s fn = some f) (hset : f.CanSet = true)
    (hkind : f.Kind = .String)
    (hval : request.FormValue p = v) (hne : v ≠ "")
    (hdec : percentDecode v.data = some d.data) :
    QueryUnescape v = .ok d
    ∧ setFieldValue L s p fn request = (setField s fn (.str d), none)
    ∧ FieldByName (setField s fn (.str d)) fn = some { f with val := .str d }
    ∧ ((s.map (fun x => x.decl.Name)).Nodup → request.ensureParsed.2 = none →
        (∀ e ∈ m, (setFieldValue L s e.1 e.2 request).2 = none) →
        ∃ s2, UnmarshallRequestForm L o request (ptrTo s) = .returned (none, ptrTo s2)
          ∧ FieldByName s2 fn = some { f with val := .str d }) := by
  have hq : QueryUnescape v = .ok d := (QueryUnescape_iff v d).mpr hdec
  have hact : entryAct L request (s.map Field.decl) p fn = .store (.str d) := by
    rw [entryAct_present L request s p fn f v d hfield hset hval hne hq, hkind]
  refine ⟨hq, ?_, FieldByName_setField_eq s fn _ f hfield, ?_⟩
  · rw [setFieldValue_eq, hact]; rfl
  · intro hnodup hparse hok
    exact UnmarshallRequestForm_field_stored L o request s m p fn f _ hmap hentry hfield hact
      hnodup hparse hok

/-- C10, at the zero `TestStruct` and a request whose lookup returns
`Joe%20Smith` for `name`: the field `Name` holds `Joe Smith`. -/
theorem string_field_holds_decoding_witness :
    (getListOfParamNames (.struct (TestStructZero.map Field.decl))
        = .returned [("name", "Name"), ("is_cool", "IsCool"), ("counter", "Counter"),
            ("start", "Start")]
      ∧ FieldByName TestStructZero "Name"
        = some ⟨⟨"Name", [("param", "name")], .other .String, true⟩, .str ""⟩
      ∧ (getRequest "name=Joe%2520Smith").FormValue "name" = "Joe%20Smith"
      ∧ percentDecode "Joe%20Smith".data = some "Joe Smith".data)
    ∧ (QueryUnescape "Joe%20Smith" = .ok "Joe Smith"
    ∧ setFieldValue Lib.sample TestStructZero "name" "Name" (getRequest "name=Joe%2520Smith")
        = (setField TestStructZero "Name" (.str "Joe Smith"), none)
    ∧ FieldByName (setField TestStructZero "Name" (.str "Joe Smith")) "Name"
        = some ⟨⟨"Name", [("param", "name")], .other .String, true⟩, .str "Joe Smith"⟩
    ∧ ((TestStructZero.map (fun x => x.decl.Name)).Nodup →
        (getRequest "name=Joe%2520Smith").ensureParsed.2 = none →
        (∀ e ∈ [("name", "Name"), ("is_cool", "IsCool"), ("counter", "Counter"),
            ("start", "Start")],
          (setFieldValue Lib.sample TestStructZero e.1 e.2
            (getRequest "name=Joe%2520Smith")).2 = none) →
        ∃ s2, UnmarshallRequestForm Lib.sample MapOrder.reversed
            (getRequest "name=Joe%2520Smith") (ptrTo TestStructZero)
            = .returned (none, ptrTo s2)
          ∧ FieldByName s2 "Name"
            = some ⟨⟨"Name", [("param", "name")], .other .String, true⟩, .str "Joe Smith"⟩)) :=
  ⟨by decide,
   string_field_holds_decoding Lib.sample MapOrder.reversed (getRequest "name=Joe%2520Smith")
    TestStructZero
    [("name", "Name"), ("is_cool", "IsCool"), ("counter", "Counter"), ("start", "Start")]
    "name" "Name" ⟨⟨"Name", [("param", "name")], .other .String, true⟩, .str ""⟩
    "Joe%20Smith" "Joe Smith"
    (by decide) (by decide) (by decide) (by decide) (by decide) (by decide) (by decide)
    (by decide)⟩

/-- What the whole call does when the processing of the entry `(p, fn)` fails
with `err`: a non-nil error in every visiting order; the field keeps its
contents (field names being distinct); and the error is `err` wrapped with the
parameter name when no other entry fails. -/
theorem UnmarshallRequestForm_failing_entry (L : Lib) (o : MapOrder) (request : Request)
    (s : Struct) (m : GoMap) (p fn : String) (f : Field) (err : GoError)
    (hmap : getListOfParamNames (.struct (s.map Field.decl)) = .returned m)
    (hentry : (p, fn) ∈ m)
    (hfield : FieldByName s fn = some f)
    (hact : entryAct L request (s.map Field.decl) p fn = .fail err) :
    (∃ e val, UnmarshallRequestForm L o request (ptrTo s) = .returned (some e, val))
    ∧ ((s.map (fun x => x.decl.Name)).Nodup →
        ∃ e s2, UnmarshallRequestForm L o request (ptrTo s) = .returned (some e, ptrTo s2)
          ∧ FieldByName s2 fn = some f)
    ∧ (request.ensureParsed.2 = none →
        (∀ e ∈ m, e ≠ (p, fn) → (setFieldValue L s e.1 e.2 request).2 = none) →
        ∃ s2, UnmarshallRequestForm L o request (ptrTo s)
          = .returned (some (Errorf_w L ("error setting value for param " ++ p ++ ": ") err),
              ptrTo s2)) := by
  have hfailed := UnmarshallRequestForm_fail L o request s m p fn _ hmap hentry hact
  refine ⟨hfailed, ?_, ?_⟩
  · intro hnodup
    have hm : paramMap (s.map Field.decl) = m := by
      rw [getListOfParamNames_struct] at hmap; injection hmap
    have hk : p = paramKey f.decl :=
      entry_key s fn f (p, fn) hfield hnodup (hm ▸ hentry) rfl
    obtain ⟨e, s2, he, hkept⟩ := UnmarshallRequestForm_field_kept L o request s fn f hfield hnodup
      (by rw [← hk, hact]; exact fun v h => Act.noConfusion h)
    obtain ⟨e2, val, he2⟩ := hfailed
    rw [he] at he2
    have hee : e = some e2 := by injection he2 with h; exact congrArg Prod.fst h
    exact ⟨e2, s2, by rw [he, hee], hkept⟩
  · intro hparse hothers
    exact UnmarshallRequestForm_unique_fail L o request s m p fn _ hmap hparse hentry hact
      (no_other_fail_of_setFieldValue L request s m p fn hothers)

theorem entryAct_undecodable (L : Lib) (request : Request) (s : Struct) (p fn : String)
    (f : Field) (v : String) (err : GoError)
    (hfield : FieldByName s fn = some f) (hset : f.CanSet = true)
    (hval : request.FormValue p = v) (hne : v ≠ "") (hq : QueryUnescape v = .error err) :
    entryAct L request (s.map Field.decl) p fn = .fail err := by
  unfold entryAct
  rw [FieldByName_decl, hfield]
  simp only [Option.map_some', Field.CanSet] at hset ⊢
  simp only [hset, hval, hne, hq, Bool.not_true, Bool.false_eq_true, if_false]

theorem percent_not_hex : ishex '%' = false := by decide

/-- A value percent-decodes exactly when it has no `%` that is not followed by
two hexadecimal digits. -/
theorem percentDecode_none_iff :
    ∀ (k : Nat) (l : List Char), l.length ≤ k → (percentDecode l = none ↔ HasBadEscape l) := by
  intro k
  induction k with
  | zero =>
    intro l hl
    have : l = [] := List.length_eq_zero.mp (Nat.le_zero.mp hl)
    subst this
    constructor
    · intro h; simp [percentDecode] at h
    · rintro ⟨a, b, h, _⟩
      simp at h
  | succ k ih =>
    intro l hl
    cases l with
    | nil =>
      constructor
      · intro h; simp [percentDecode] at h
      · rintro ⟨a, b, h, _⟩
        simp at h
    | cons c rest =>
      have hrest : rest.length ≤ k := by simpa using hl
      by_cases hc : c = '%'
      · subst hc
        have hstart : ∀ (hnot : ∀ x y r, rest = x :: y :: r → ¬ (ishex x = true ∧ ishex y = true)),
            HasBadEscape ('%' :: rest) := fun hnot => ⟨[], rest, rfl, hnot⟩
        cases rest with
        | nil =>
          constructor
          · intro _; exact hstart (by intro x y r h; simp at h)
          · intro _; simp [percentDecode]
        | cons x rest1 =>
          cases rest1 with
          | nil =>
            constructor
            · intro _; exact hstart (by intro x y r h; simp at h)
            · intro _; simp [percentDecode]
          | cons y rest2 =>
            by_cases hx : (ishex x && ishex y) = true
            · have h2 : rest2.length ≤ k := by
                simp only [List.length_cons] at hrest; omega
              have hxy : ishex x = true ∧ ishex y = true := by simpa using hx
              simp only [percentDecode, if_true, hx, Option.map_eq_none', ih rest2 h2]
              constructor
              · rintro ⟨a, b, h, hb⟩
                exact ⟨'%' :: x :: y :: a, b, by simp [h], hb⟩
              · rintro ⟨a, b, h, hb⟩
                cases a with
                | nil =>
                  simp only [List.nil_append, List.cons.injEq, true_and] at h
                  exact absurd hxy (hb x y rest2 h.symm)
                | cons a0 a1 =>
                  simp only [List.cons_append, List.cons.injEq] at h
                  cases a1 with
                  | nil =>
                    simp only [List.nil_append, List.cons.injEq] at h
                    have := hxy.1
                    rw [h.2.1, percent_not_hex] at this
                    exact absurd this (by decide)
                  | cons a2 a3 =>
                    simp only [List.cons_append, List.cons.injEq] at h
                    cases a3 with
                    | nil =>
                      simp only [List.nil_append, List.cons.injEq] at h
                      have := hxy.2
                      rw [h.2.2.1, percent_not_hex] at this
                      exact absurd this (by decide)
                    | cons a4 a5 =>
                      simp only [List.cons_append, List.cons.injEq] at h
                      exact ⟨a5, b, h.2.2.2, hb⟩
            · constructor
              · intro _
                apply hstart
                intro x2 y2 r h
                simp only [List.cons.injEq] at h
                rw [← h.1, ← h.2.1]
                simpa using hx
              · intro _
                simp [percentDecode, hx]
      · rw [percentDecode_cons_ne c rest hc]
        have hshift : HasBadEscape (c :: rest) ↔ HasBadEscape rest := by
          constructor
          · rintro ⟨a, b, h, hb⟩
            cases a with
            | nil =>
              simp only [List.nil_append, List.cons.injEq] at h
              exact absurd h.1 hc
            | cons a0 a1 =>
              simp only [List.cons_append, List.cons.injEq] at h
              exact ⟨a1, b, h.2, hb⟩
          · rintro ⟨a, b, h, hb⟩
            exact ⟨c :: a, b, by simp [h], hb⟩
        rw [hshift, ← ih rest hrest]
        split <;> simp

/-- A value that does not percent-decode makes `url.QueryUnescape` fail. -/
theorem QueryUnescape_undecodable (v : String) (hbad : percentDecode v.data = none) :
    ∃ err, QueryUnescape v = .error err := by
  cases hq : QueryUnescape v with
  | error e => exact ⟨e, rfl⟩
  | ok d =>
    have := (QueryUnescape_iff v d).mp hq
    rw [hbad] at this
    exact absurd this (by simp)

set_option maxRecDepth 8000 in
/-- C11 (counterexample): a settable field whose looked-up parameter value
`Joe%2` is non-empty and not validly percent-encoded, and yet no error carrying
the parameter name. In `ShadowedNameRecord` the later, unexported field `hidden`
has taken over the parameter name of `Name`: the call returns nil. For the zero
`TestStruct` bound against `counter=x&name=Joe%252`, visiting the map in the
reversed order, the call returns the error of `counter`, whose message does not
contain `name`. -/
theorem undecodable_value_not_always_reported :
    (FieldByName ShadowedNameRecord "Name"
        = some ⟨⟨"Name", [("param", "x")], .other .String, true⟩, .str ""⟩
      ∧ (getRequest "x=Joe%252").FormValue "x" = "Joe%2"
      ∧ HasBadEscape "Joe%2".data
      ∧ UnmarshallRequestForm Lib.sample MapOrder.stored (getRequest "x=Joe%252")
          (ptrTo ShadowedNameRecord)
        = .returned (none, ptrTo ShadowedNameRecord))
    ∧ ((getRequest "counter=x&name=Joe%252").FormValue "name" = "Joe%2"
      ∧ UnmarshallRequestForm Lib.sample MapOrder.reversed
          (getRequest "counter=x&name=Joe%252") (ptrTo TestStructZero)
        = .returned (some (Errorf_w Lib.sample "error setting value for param counter: "
            (.NumError "Atoi" "x" .ErrSyntaxKind)), ptrTo TestStructZero)
      ∧ ¬ "name".data <:+: ((Errorf_w Lib.sample "error setting value for param counter: "
            (.NumError "Atoi" "x" .ErrSyntaxKind)).Error Lib.sample).data) := by
  refine ⟨⟨by decide, by decide, ⟨"Joe".data, "2".data, rfl, fun x y r h => by simp at h⟩,
    by decide⟩, by decide, by decide, ?_⟩
  decide

/-- C11 (amended): for every settable field, of any declared type, whose
looked-up parameter value is non-empty and is not validly percent-encoded (it
has a `%` that is not followed by two hexadecimal digits), `url.QueryUnescape`
fails, and `setFieldValue` returns that error and writes nothing. When the
field map returned by `getListOfParamNames` holds the field's entry (parameter
name to field name), `UnmarshallRequestForm` returns a non-nil error in every
visiting order, and, the field names of the record being distinct, the field
keeps its value; when moreover `ParseForm` reported no error and no other entry
of the field map fails, the returned error is the decode error wrapped with the
parameter name, and its message contains the parameter name. -/
theorem undecodable_value_is_rejected (L : Lib) (o : MapOrder) (request : Request) (s : Struct)
    (m : GoMap) (p fn : String) (f : Field) (v : String)
    (hmap : getListOfParamNames (.struct (s.map Field.decl)) = .returned m)
    (hfield : FieldByName s fn = some f) (hset : f.CanSet = true)
    (hval : request.FormValue p = v) (hne : v ≠ "")
    (hbad : HasBadEscape v.data) :
    ∃ err, QueryUnescape v = .error err
      ∧ setFieldValue L s p fn request = (s, some err)
      ∧ ((p, fn) ∈ m →
          ∃ e val, UnmarshallRequestForm L o request (ptrTo s) = .returned (some e, val))
      ∧ ((p, fn) ∈ m → (s.map (fun x => x.decl.Name)).Nodup →
          ∃ e s2, UnmarshallRequestForm L o request (ptrTo s) = .returned (some e, ptrTo s2)
            ∧ FieldByName s2 fn = some f)
      ∧ ((p, fn) ∈ m → request.ensureParsed.2 = none →
          (∀ e ∈ m, e ≠ (p, fn) → (setFieldValue L s e.1 e.2 request).2 = none) →
          ∃ s2, UnmarshallRequestForm L o request (ptrTo s)
            = .returned (some (Errorf_w L ("error setting value for param " ++ p ++ ": ") err),
                ptrTo s2))
      ∧ (Errorf_w L ("error setting value for param " ++ p ++ ": ") err).Error L
          = "error setting value for param " ++ p ++ (": " ++ err.Error L) := by
  obtain ⟨err, hq⟩ := QueryUnescape_undecodable v
    ((percentDecode_none_iff v.data.length v.data (Nat.le_refl _)).mpr hbad)
  have hact := entryAct_undecodable L request s p fn f v err hfield hset hval hne hq
  refine ⟨err, hq, ?_, ?_, ?_, ?_, ?_⟩
  · rw [setFieldValue_eq, hact]; rfl
  · intro hentry
    exact (UnmarshallRequestForm_failing_entry L o request s m p fn f err hmap hentry hfield
      hact).1
  · intro hentry
    exact (UnmarshallRequestForm_failing_entry L o request s m p fn f err hmap hentry hfield
      hact).2.1
  · intro hentry
    exact (UnmarshallRequestForm_failing_entry L o request s m p fn f err hmap hentry hfield
      hact).2.2
  · simp only [Errorf_w, GoError.Error, String.append_assoc]

/-- C11 (amended), at the zero `TestStruct` and a request whose lookup returns
`Joe%2` for `name`, the field map visited in the reversed order. -/
theorem undecodable_value_is_rejected_witness :
    (getListOfParamNames (.struct (TestStructZero.map Field.decl))
        = .returned [("name", "Name"), ("is_cool", "IsCool"), ("counter", "Counter"),
            ("start", "Start")]
      ∧ FieldByName TestStructZero "Name"
        = some ⟨⟨"Name", [("param", "name")], .other .String, true⟩, .str ""⟩
      ∧ (getRequest "name=Joe%252").FormValue "name" = "Joe%2"
      ∧ (TestStructZero.map (fun x => x.decl.Name)).Nodup
      ∧ (getRequest "name=Joe%252").ensureParsed.2 = none
      ∧ (∀ e ∈ [("name", "Name"), ("is_cool", "IsCool"), ("counter", "Counter"),
            ("start", "Start")],
          e ≠ ("name", "Name") →
          (setFieldValue Lib.sample TestStructZero e.1 e.2
            (getRequest "name=Joe%252")).2 = none)
      ∧ HasBadEscape "Joe%2".data)
    ∧ ∃ err, QueryUnescape "Joe%2" = .error err
      ∧ setFieldValue Lib.sample TestStructZero "name" "Name" (getRequest "name=Joe%252")
          = (TestStructZero, some err)
      ∧ (∃ e val, UnmarshallRequestForm Lib.sample MapOrder.reversed
            (getRequest "name=Joe%252") (ptrTo TestStructZero) = .returned (some e, val))
      ∧ (∃ e s2, UnmarshallRequestForm Lib.sample MapOrder.reversed
              (getRequest "name=Joe%252") (ptrTo TestStructZero)
              = .returned (some e, ptrTo s2)
            ∧ FieldByName s2 "Name"
              = some ⟨⟨"Name", [("param", "name")], .other .String, true⟩, .str ""⟩)
      ∧ (∃ s2, UnmarshallRequestForm Lib.sample MapOrder.reversed (getRequest "name=Joe%252")
              (ptrTo TestStructZero)
            = .returned (some (Errorf_w Lib.sample
                ("error setting value for param " ++ "name" ++ ": ") err), ptrTo s2))
      ∧ (Errorf_w Lib.sample ("error setting value for param " ++ "name" ++ ": ") err).Error
            Lib.sample
          = "error setting value for param " ++ "name" ++ (": " ++ err.Error Lib.sample) :=
  have h := undecodable_value_is_rejected Lib.sample MapOrder.reversed
    (getRequest "name=Joe%252") TestStructZero
    [("name", "Name"), ("is_cool", "IsCool"), ("counter", "Counter"), ("start", "Start")]
    "name" "Name" ⟨⟨"Name", [("param", "name")], .other .String, true⟩, .str ""⟩ "Joe%2"
    (by decide) (by decide) (by decide) (by decide) (by decide)
    ⟨"Joe".data, "2".data, rfl, fun x y r h => by simp at h⟩
  ⟨⟨by decide, by decide, by decide, by decide, by decide, by decide,
      ⟨"Joe".data, "2".data, rfl, fun x y r h => by simp at h⟩⟩,
    h.elim (fun err he => ⟨err, he.1, he.2.1, he.2.2.1 (by decide),
      he.2.2.2.1 (by decide) (by decide),
      he.2.2.2.2.1 (by decide) (by decide) (by decide), he.2.2.2.2.2⟩)⟩

/-- C12: for every settable field of integer, boolean, float or time kind, if
the conversion of the percent-decoded parameter value to the field's type
fails, processing the field leaves the record as it was; and the field holds
after the whole call, in every visiting order, exactly the value it held before
(field names being distinct). -/
theorem conversion_failure_keeps_field (L : Lib) (o : MapOrder) (request : Request)
    (s : Struct) (p fn : String) (f : Field) (v d : String)
    (hfield : FieldByName s fn = some f) (hset : f.CanSet = true)
    (hval : request.FormValue p = v) (hne : v ≠ "") (hdec : QueryUnescape v = .ok d)
    (hfail : (isIntKind f.Kind = true ∧ ∃ err, Atoi d = .error err)
      ∨ (f.Kind = .Bool ∧ ∃ err, ParseBool d = .error err)
      ∨ (f.Kind = .Float32 ∧ ∃ err, L.ParseFloat d 32 = .error err)
      ∨ (f.Kind = .Float64 ∧ ∃ err, L.ParseFloat d 64 = .error err)
      ∨ (f.decl.Typ = .time ∧ ∀ format ∈ TimeFormats, Parse L format d = none)) :
    (setFieldValue L s p fn request).1 = s
    ∧ ((s.map (fun x => x.decl.Name)).Nodup → p = paramKey f.decl →
        ∃ e s2, UnmarshallRequestForm L o request (ptrTo s) = .returned (e, ptrTo s2)
          ∧ FieldByName s2 fn = some f) := by
  have hact : ∃ err, entryAct L request (s.map Field.decl) p fn = .fail err := by
    rw [entryAct_present L request s p fn f v d hfield hset hval hne hdec]
    rcases hfail with ⟨hk, err, h⟩ | ⟨hk, err, h⟩ | ⟨hk, err, h⟩ | ⟨hk, err, h⟩ | ⟨ht, h⟩
    · refine ⟨err, ?_⟩
      cases hk2 : f.Kind <;> simp [isIntKind, hk2] at hk <;> simp [h]
    · exact ⟨err, by simp [hk, h]⟩
    · exact ⟨err, by simp [hk, h]⟩
    · exact ⟨err, by simp [hk, h]⟩
    · have hk : f.Kind = .Struct := by simp [Field.Kind, ht, FieldType.Kind]
      exact ⟨.errorString ("invalid time format for parameter " ++ fn),
        by simp only [hk, ht, parseTimeFormats_none L d TimeFormats h]⟩
  obtain ⟨err, hact⟩ := hact
  refine ⟨?_, ?_⟩
  · rw [setFieldValue_eq, hact]; rfl
  · intro hnodup hp
    exact UnmarshallRequestForm_field_kept L o request s fn f hfield hnodup
      (by rw [← hp, hact]; exact fun v h => Act.noConfusion h)

/-- C12, at the zero `TestStruct` bound against `is_cool=maybe`. -/
theorem conversion_failure_keeps_field_witness :
    (FieldByName TestStructZero "IsCool"
        = some ⟨⟨"IsCool", [("param", "is_cool")], .other .Bool, true⟩, .bool false⟩
      ∧ (getRequest "is_cool=maybe").FormValue "is_cool" = "maybe"
      ∧ QueryUnescape "maybe" = .ok "maybe"
      ∧ ParseBool "maybe" = .error (.NumError "ParseBool" "maybe" .ErrSyntaxKind))
    ∧ (setFieldValue Lib.sample TestStructZero "is_cool" "IsCool"
          (getRequest "is_cool=maybe")).1 = TestStructZero
    ∧ ((TestStructZero.map (fun x => x.decl.Name)).Nodup →
        "is_cool" = paramKey ⟨"IsCool", [("param", "is_cool")], .other .Bool, true⟩ →
        ∃ e s2, UnmarshallRequestForm Lib.sample MapOrder.reversed (getRequest "is_cool=maybe")
            (ptrTo TestStructZero) = .returned (e, ptrTo s2)
          ∧ FieldByName s2 "IsCool"
            = some ⟨⟨"IsCool", [("param", "is_cool")], .other .Bool, true⟩, .bool false⟩) :=
  ⟨by decide,
   conversion_failure_keeps_field Lib.sample MapOrder.reversed (getRequest "is_cool=maybe")
    TestStructZero "is_cool" "IsCool"
    ⟨⟨"IsCool", [("param", "is_cool")], .other .Bool, true⟩, .bool false⟩ "maybe" "maybe"
    (by decide) (by decide) (by decide) (by decide) (by decide)
    (Or.inr (Or.inl ⟨by decide, .NumError "ParseBool" "maybe" .ErrSyntaxKind, by decide⟩))⟩

theorem entryAct_store_exported (L : Lib) (request : Request) (s : Struct) (p fn : String)
    (v : Val) (h : entryAct L request (s.map Field.decl) p fn = .store v) :
    ∃ g, FieldByName s fn = some g ∧ g.decl.exported = true := by
  unfold entryAct at h
  rw [FieldByName_decl] at h
  cases hf : FieldByName s fn with
  | none => rw [hf] at h; simp at h
  | some g =>
    rw [hf] at h
    refine ⟨g, rfl, ?_⟩
    cases hx : g.decl.exported with
    | true => rfl
    | false => simp [hx] at h

/-- A store through `FieldByName` into an exported field leaves every
unexported field, at every position, as it was. -/
theorem setField_get_unexported (name : String) (v : Val) :
    ∀ (s : Struct) (i : Nat) (f : Field),
      (∃ g, FieldByName s name = some g ∧ g.decl.exported = true) →
      s.get? i = some f → f.decl.exported = false →
      (setField s name v).get? i = some f := by
  intro s
  induction s with
  | nil => intro i f _ hi; simp at hi
  | cons a rest ih =>
    intro i f hg hi hf
    obtain ⟨g, hg1, hg2⟩ := hg
    by_cases ha : a.decl.Name = name
    · simp only [FieldByName, if_pos ha, Option.some.injEq] at hg1
      simp only [setField, if_pos ha]
      cases i with
      | zero =>
        simp only [List.get?_cons_zero, Option.some.injEq] at hi
        rw [← hi, hg1, hg2] at hf
        exact absurd hf (by decide)
      | succ j => simpa using hi
    · simp only [FieldByName, if_neg ha] at hg1
      simp only [setField, if_neg ha]
      cases i with
      | zero => simpa using hi
      | succ j =>
        simp only [List.get?_cons_succ] at hi ⊢
        exact ih j f ⟨g, hg1, hg2⟩ hi hf

/-- The loop leaves every unexported field, at every position, as it was. -/
theorem bindLoop_get_unexported (L : Lib) (r : Request) (i : Nat) (f : Field)
    (hf : f.decl.exported = false) :
    ∀ (l : GoMap) (s : Struct), s.get? i = some f → (bindLoop L r l s).2.get? i = some f := by
  intro l
  induction l with
  | nil => intro s hi; exact hi
  | cons e rest ih =>
    intro s hi
    obtain ⟨q, g⟩ := e
    rw [bindLoop_cons]
    cases ha : entryAct L r (s.map Field.decl) q g with
    | skip => exact ih s hi
    | fail err => exact hi
    | store v =>
      exact ih _ (setField_get_unexported g v s i f
        (entryAct_store_exported L r s q g v ha) hi hf)

/-- C13: for every field that is not settable (an unexported field, or a name
that the record does not have), whatever its declared type and whatever value
the request carries for its parameter, processing the field returns no error
and leaves the whole record unchanged; and after the whole call, in every
visiting order, every unexported field of the record (at every position) holds
what it held before. -/
theorem unsettable_field_is_skipped :
    (∀ (L : Lib) (request : Request) (s : Struct) (p fn : String),
      (∀ f, FieldByName s fn = some f → f.CanSet = false) →
      setFieldValue L s p fn request = (s, none))
    ∧ (∀ (L : Lib) (o : MapOrder) (request : Request) (s : Struct) (i : Nat) (f : Field),
      s.get? i = some f → f.CanSet = false →
      ∃ e s2, UnmarshallRequestForm L o request (ptrTo s) = .returned (e, ptrTo s2)
        ∧ s2.get? i = some f) := by
  constructor
  · intro L request s p fn h
    unfold setFieldValue
    cases hf : FieldByName s fn with
    | none => rfl
    | some f => simp [h f hf]
  · intro L o request s i f hi hf
    rw [UnmarshallRequestForm_ptrTo]
    cases request.ensureParsed.2 with
    | some e0 => exact ⟨_, s, rfl, hi⟩
    | none => exact ⟨_, _, rfl, bindLoop_get_unexported L request i f hf _ s hi⟩

/-- C13, at the struct `struct{ n int }{3}` of the test and requests that carry
a valid, an unparseable and an undecodable value for its (empty) parameter
name. -/
theorem unsettable_field_is_skipped_witness :
    ((∀ f, FieldByName UnexportedRecord "n" = some f → f.CanSet = false)
      ∧ (getRequest "=5").FormValue "" = "5"
      ∧ (getRequest "=x").FormValue "" = "x"
      ∧ (getRequest "=%25z").FormValue "" = "%z"
      ∧ UnexportedRecord.get? 0 = some ⟨⟨"n", [], .other .Int, false⟩, .int 3⟩)
    ∧ setFieldValue Lib.sample UnexportedRecord "" "n" (getRequest "=5") = (UnexportedRecord, none)
    ∧ setFieldValue Lib.sample UnexportedRecord "" "n" (getRequest "=x") = (UnexportedRecord, none)
    ∧ setFieldValue Lib.sample UnexportedRecord "" "n" (getRequest "=%25z")
        = (UnexportedRecord, none)
    ∧ ∃ e s2, UnmarshallRequestForm Lib.sample MapOrder.stored (getRequest "=5")
          (ptrTo UnexportedRecord) = .returned (e, ptrTo s2)
        ∧ s2.get? 0 = some ⟨⟨"n", [], .other .Int, false⟩, .int 3⟩ :=
  have h0 : ∀ f, FieldByName UnexportedRecord "n" = some f → f.CanSet = false := by
    intro f hf
    have : f = ⟨⟨"n", [], .other .Int, false⟩, .int 3⟩ := by
      simpa [UnexportedRecord, FieldByName] using hf.symm
    rw [this]; rfl
  ⟨⟨h0, by decide, by decide, by decide, by decide⟩,
   unsettable_field_is_skipped.1 Lib.sample (getRequest "=5") UnexportedRecord "" "n" h0,
   unsettable_field_is_skipped.1 Lib.sample (getRequest "=x") UnexportedRecord "" "n" h0,
   unsettable_field_is_skipped.1 Lib.sample (getRequest "=%25z") UnexportedRecord "" "n" h0,
   unsettable_field_is_skipped.2 Lib.sample MapOrder.stored (getRequest "=5") UnexportedRecord 0
    ⟨⟨"n", [], .other .Int, false⟩, .int 3⟩ (by decide) (by decide)⟩

theorem Split_head (l : List Char) :
    (Split ',' l).headD [] = l.takeWhile (fun c => c ≠ ',') := by
  induction l with
  | nil => rfl
  | cons c rest ih =>
    by_cases hc : c = ','
    · simp [Split, hc]
    · have htw : List.takeWhile (fun c => decide (c ≠ ',')) (c :: rest)
          = c :: List.takeWhile (fun c => decide (c ≠ ',')) rest := by
        simp [List.takeWhile, hc]
      rw [htw, ← ih]
      simp only [Split, if_neg hc]
      cases Split ',' rest <;> rfl

/-- The key under which a field is registered is the portion of its `param`
tag value before the first comma. -/
theorem paramKey_eq (f : StructField) :
    paramKey f = beforeFirstComma (StructTagGet f.Tag TagName) := by
  simp only [paramKey, beforeFirstComma, Split_head]

theorem mapSet_of_not_mem (m : GoMap) (k v : String) (h : k ∉ m.map Prod.fst) :
    mapSet m k v = m ++ [(k, v)] := by
  induction m with
  | nil => rfl
  | cons x rest ih =>
    obtain ⟨k0, v0⟩ := x
    simp only [List.map_cons, List.mem_cons, not_or] at h
    have h0 : ¬ k0 = k := fun e => h.1 e.symm
    simp only [mapSet, if_neg h0, ih h.2, List.cons_append]

theorem foldl_mapSet_distinct (fs : List StructField) :
    ∀ init : GoMap, (∀ f ∈ fs, paramKey f ∉ init.map Prod.fst) →
      (fs.map paramKey).Nodup →
      fs.foldl (fun params f => mapSet params (paramKey f) f.Name) init
        = init ++ fs.map (fun f => (paramKey f, f.Name)) := by
  induction fs with
  | nil => intro init _ _; simp
  | cons f rest ih =>
    intro init hinit hnd
    simp only [List.map_cons, List.nodup_cons] at hnd
    simp only [List.foldl_cons, List.map_cons]
    rw [mapSet_of_not_mem init _ _ (hinit f (List.mem_cons_self _ _))]
    rw [ih _ ?_ hnd.2]
    · simp
    · intro g hg
      simp only [List.map_append, List.map_cons, List.map_nil, List.mem_append,
        List.mem_singleton, not_or]
      refine ⟨hinit g (List.mem_cons_of_mem _ hg), ?_⟩
      intro hk
      exact hnd.1 (List.mem_map.mpr ⟨g, hg, hk⟩)

theorem mapGet_map_of_nodup (fs : List StructField) (hnd : (fs.map paramKey).Nodup) :
    ∀ f ∈ fs, mapGet (fs.map (fun f => (paramKey f, f.Name))) (paramKey f) = some f.Name := by
  induction fs with
  | nil => intro f hf; simp at hf
  | cons g rest ih =>
    intro f hf
    simp only [List.map_cons, List.nodup_cons] at hnd
    simp only [List.map_cons, mapGet]
    rcases List.mem_cons.mp hf with h | h
    · rw [h]; simp
    · have hne : ¬ paramKey g = paramKey f := by
        intro e
        exact hnd.1 (List.mem_map.mpr ⟨f, h, e.symm⟩)
      rw [if_neg hne]
      exact ih hnd.2 f h

/-- C14: for every record type whose fields have pairwise distinct parameter
names -- the parameter name of a field being the portion of its `param` tag
value before the first comma -- `getListOfParamNames` returns the map that has,
for each field, one entry from the field's parameter name to the field's name,
and nothing else: as many entries as there are fields, and looking up a field's
parameter name gives that field's name; for a record type without fields it
returns the empty map. -/
theorem distinct_params_give_one_entry_each :
    (∀ fs : List StructField,
      (fs.map (fun f => beforeFirstComma (StructTagGet f.Tag TagName))).Nodup →
      getListOfParamNames (.struct fs)
        = .returned (fs.map (fun f => (beforeFirstComma (StructTagGet f.Tag TagName), f.Name)))
      ∧ (fs.map (fun f => (beforeFirstComma (StructTagGet f.Tag TagName), f.Name))).length
        = fs.length
      ∧ ∀ f ∈ fs,
        mapGet (fs.map (fun f => (beforeFirstComma (StructTagGet f.Tag TagName), f.Name)))
          (beforeFirstComma (StructTagGet f.Tag TagName)) = some f.Name)
    ∧ getListOfParamNames (.struct []) = .returned [] := by
  refine ⟨?_, rfl⟩
  intro fs hnd
  have hkey : (fun f : StructField => beforeFirstComma (StructTagGet f.Tag TagName)) = paramKey :=
    funext (fun f => (paramKey_eq f).symm)
  have hpair : (fun f : StructField => (beforeFirstComma (StructTagGet f.Tag TagName), f.Name))
      = (fun f => (paramKey f, f.Name)) :=
    funext (fun f => by rw [paramKey_eq])
  rw [hkey] at hnd
  rw [hpair]
  refine ⟨?_, by simp, ?_⟩
  · rw [getListOfParamNames_struct, paramMap, foldl_mapSet_distinct fs [] (by simp) hnd]
    simp
  · intro f hf
    rw [← paramKey_eq]
    exact mapGet_map_of_nodup fs hnd f hf

/-- C14, at the type `struct{ Name string; Id int; Since time.Time }` with the
tags `param:"name,omitempty"`, `param:"id"` and `param:"since,utc,x"`: three
fields, three entries, under `name`, `id` and `since`. -/
theorem distinct_params_give_one_entry_each_witness :
    [beforeFirstComma "name,omitempty", beforeFirstComma "id",
        beforeFirstComma "since,utc,x"].Nodup
    ∧ getListOfParamNames (.struct
          [⟨"Name", [("param", "name,omitempty")], .other .String, true⟩,
           ⟨"Id", [("param", "id")], .other .Int, true⟩,
           ⟨"Since", [("param", "since,utc,x")], .time, true⟩])
        = .returned [("name", "Name"), ("id", "Id"), ("since", "Since")]
    ∧ [("name", "Name"), ("id", "Id"), ("since", "Since")].length = 3
    ∧ ∀ f ∈ ([⟨"Name", [("param", "name,omitempty")], .other .String, true⟩,
           ⟨"Id", [("param", "id")], .other .Int, true⟩,
           ⟨"Since", [("param", "since,utc,x")], .time, true⟩] : List StructField),
        mapGet [("name", "Name"), ("id", "Id"), ("since", "Since")]
          (beforeFirstComma (StructTagGet f.Tag TagName)) = some f.Name :=
  ⟨by decide,
   distinct_params_give_one_entry_each.1
    [⟨"Name", [("param", "name,omitempty")], .other .String, true⟩,
     ⟨"Id", [("param", "id")], .other .Int, true⟩,
     ⟨"Since", [("param", "since,utc,x")], .time, true⟩] (by decide)⟩

/-- C17: for the type of `TestStruct`, `getListOfParamNames` returns a map
with four entries (one for each of `name`, `is_cool`, `counter`, `start`), not
three. -/
theorem TestStruct_map_has_four_entries :
    ∃ m, getListOfParamNames (.struct TestStructType) = .returned m
      ∧ m = [("name", "Name"), ("is_cool", "IsCool"), ("counter", "Counter"),
          ("start", "Start")]
      ∧ m.length = 4 ∧ m.length ≠ 3 :=
  ⟨_, by decide, rfl, by decide, by decide⟩

theorem mapGet_mapSet (m : GoMap) (k v k2 : String) :
    mapGet (mapSet m k v) k2 = if k = k2 then some v else mapGet m k2 := by
  induction m with
  | nil => simp [mapSet, mapGet]
  | cons x rest ih =>
    obtain ⟨k0, v0⟩ := x
    by_cases h0 : k0 = k
    · simp only [mapSet, if_pos h0, mapGet]
      by_cases h2 : k = k2
      · simp [h2]
      · have : ¬ k0 = k2 := fun e => h2 (h0.symm.trans e)
        simp [h2, this]
    · simp only [mapSet, if_neg h0, mapGet, ih]
      by_cases h1 : k0 = k2
      · have : ¬ k = k2 := fun e => h0 (h1.trans e.symm)
        simp [h1, this]
      · simp [h1]

theorem paramMap_concat (fs : List StructField) (f : StructField) :
    paramMap (fs ++ [f]) = mapSet (paramMap fs) (paramKey f) f.Name := by
  simp [paramMap, List.foldl_append]

theorem lastDeclaring_concat (fs : List StructField) (f : StructField) (k : String) :
    lastDeclaring (fs ++ [f]) k = if paramKey f = k then some f else lastDeclaring fs k := by
  unfold lastDeclaring
  by_cases h : paramKey f = k
  · simp [List.filter_append, List.filter, h]
  · simp [List.filter_append, List.filter, h]

/-- The map built by `getListOfParamNames` sends every parameter name to the
name of the last field that declares it. -/
theorem mapGet_paramMap (fs : List StructField) (k : String) :
    mapGet (paramMap fs) k = (lastDeclaring fs k).map StructField.Name := by
  induction fs using List.reverseRecOn with
  | nil => rfl
  | append_singleton fs f ih =>
    rw [paramMap_concat, mapGet_mapSet, lastDeclaring_concat, ih]
    split <;> rfl

theorem mapSet_keys (m : GoMap) (k v : String) :
    (mapSet m k v).map Prod.fst
      = if k ∈ m.map Prod.fst then m.map Prod.fst else m.map Prod.fst ++ [k] := by
  induction m with
  | nil => simp [mapSet]
  | cons x rest ih =>
    obtain ⟨k0, v0⟩ := x
    by_cases h0 : k0 = k
    · simp [mapSet, h0]
    · have h1 : ¬ k = k0 := fun e => h0 e.symm
      simp only [mapSet, if_neg h0, List.map_cons, ih, List.mem_cons, h1, false_or]
      split <;> simp

theorem mapSet_keys_nodup (m : GoMap) (k v : String) (h : (m.map Prod.fst).Nodup) :
    ((mapSet m k v).map Prod.fst).Nodup := by
  rw [mapSet_keys]
  split
  · exact h
  · rename_i hk
    exact List.Nodup.append h (by simp) (by simpa using hk)

theorem foldl_mapSet_keys_nodup (fs : List StructField) :
    ∀ init : GoMap, (init.map Prod.fst).Nodup →
      ((fs.foldl (fun params f => mapSet params (paramKey f) f.Name) init).map Prod.fst).Nodup := by
  induction fs with
  | nil => intro init h; exact h
  | cons f rest ih =>
    intro init h
    exact ih _ (mapSet_keys_nodup init _ _ h)

/-- The keys of the map built by `getListOfParamNames` are distinct. -/
theorem paramMap_keys_nodup (fs : List StructField) : ((paramMap fs).map Prod.fst).Nodup :=
  foldl_mapSet_keys_nodup fs [] (by simp)

theorem mapGet_of_mem (m : GoMap) (h : (m.map Prod.fst).Nodup) (e : String × String)
    (he : e ∈ m) : mapGet m e.1 = some e.2 := by
  induction m with
  | nil => simp at he
  | cons x rest ih =>
    obtain ⟨k0, v0⟩ := x
    simp only [List.map_cons, List.nodup_cons] at h
    rcases List.mem_cons.mp he with h1 | h1
    · rw [h1]; simp [mapGet]
    · have hne : ¬ k0 = e.1 := by
        intro e0
        exact h.1 (e0 ▸ List.mem_map.mpr ⟨e, h1, rfl⟩)
      simp only [mapGet, if_neg hne]
      exact ih h.2 h1

theorem lastDeclaring_mem (fs : List StructField) (k : String) (d : StructField)
    (h : lastDeclaring fs k = some d) : d ∈ fs ∧ paramKey d = k := by
  have := List.mem_of_getLast?_eq_some h
  simpa using this

theorem lastDeclaring_later (a b : List StructField) (k : String)
    (hb : ∃ h ∈ b, paramKey h = k) :
    ∃ d ∈ b, lastDeclaring (a ++ b) k = some d := by
  obtain ⟨h, hh, hk⟩ := hb
  unfold lastDeclaring
  rw [List.filter_append, List.getLast?_append]
  have hne : b.filter (fun f => paramKey f = k) ≠ [] := by
    intro e
    have : h ∈ b.filter (fun f => paramKey f = k) := by simp [hh, hk]
    rw [e] at this
    simp at this
  cases hl : (b.filter (fun f => paramKey f = k)).getLast? with
  | none => exact absurd (List.getLast?_eq_none_iff.mp hl) hne
  | some d =>
    refine ⟨d, ?_, by simp⟩
    have := List.mem_of_getLast?_eq_some hl
    exact (List.mem_filter.mp this).1

theorem FieldByName_of_mem (s : Struct) (g : Field)
    (hnodup : (s.map (fun x => x.decl.Name)).Nodup) (hg : g ∈ s) :
    FieldByName s g.decl.Name = some g := by
  induction s with
  | nil => simp at hg
  | cons a rest ih =>
    simp only [List.map_cons, List.nodup_cons] at hnodup
    rcases List.mem_cons.mp hg with h | h
    · rw [h]; simp [FieldByName]
    · have hne : ¬ a.decl.Name = g.decl.Name := by
        intro e
        exact hnodup.1 (e ▸ List.mem_map.mpr ⟨g, h, rfl⟩)
      simp only [FieldByName, if_neg hne]
      exact ih hnodup.2 h

/-- C15: for every record type and every parameter name `k` declared by at
least one of its fields, the map returned by `getListOfParamNames` sends `k` to
the name of the last field in declaration order that declares `k`; and during a
bind, in every visiting order, a field that is followed by another field
declaring the same parameter name is never written and keeps its pre-call value
(field names being distinct). -/
theorem last_declared_wins :
    (∀ (fs : List StructField) (k : String), (∃ f ∈ fs, paramKey f = k) →
      ∃ g m, lastDeclaring fs k = some g
        ∧ getListOfParamNames (.struct fs) = .returned m ∧ mapGet m k = some g.Name)
    ∧ (∀ (L : Lib) (o : MapOrder) (request : Request) (before after : Struct) (g : Field),
      ((before ++ g :: after).map (fun x => x.decl.Name)).Nodup →
      (∃ h ∈ after, paramKey h.decl = paramKey g.decl) →
      ∃ e s2, UnmarshallRequestForm L o request (ptrTo (before ++ g :: after))
          = .returned (e, ptrTo s2)
        ∧ FieldByName s2 g.decl.Name = some g) := by
  constructor
  · intro fs k hk
    obtain ⟨d, hd, hlast⟩ := lastDeclaring_later [] fs k hk
    simp only [List.nil_append] at hlast
    refine ⟨d, paramMap fs, hlast, getListOfParamNames_struct fs, ?_⟩
    rw [mapGet_paramMap, hlast]
    rfl
  · intro L o request before after g hnodup hlater
    have hfield : FieldByName (before ++ g :: after) g.decl.Name = some g :=
      FieldByName_of_mem _ g hnodup (by simp)
    rw [UnmarshallRequestForm_ptrTo]
    cases request.ensureParsed.2 with
    | some e0 => exact ⟨_, _, rfl, hfield⟩
    | none =>
      refine ⟨_, _, rfl, ?_⟩
      rw [bindLoop_frame L request _ g.decl.Name _ _ rfl, hfield]
      intro e he hfn v _
      have hm := (o.perm _).mem_iff.mp he
      have hget := mapGet_of_mem _ (paramMap_keys_nodup _) e hm
      rw [mapGet_paramMap] at hget
      cases hl : lastDeclaring ((before ++ g :: after).map Field.decl) e.1 with
      | none => rw [hl] at hget; simp at hget
      | some d =>
        rw [hl] at hget
        simp only [Option.map_some', Option.some.injEq] at hget
        obtain ⟨hdmem, hdkey⟩ := lastDeclaring_mem _ _ _ hl
        have hnd : (((before ++ g :: after).map Field.decl).map StructField.Name).Nodup := by
          simpa [List.map_map, Function.comp] using hnodup
        have hgmem : g.decl ∈ (before ++ g :: after).map Field.decl :=
          List.mem_map.mpr ⟨g, by simp, rfl⟩
        have hdg : d = g.decl :=
          List.inj_on_of_nodup_map hnd hdmem hgmem (hget.trans hfn)
        -- the last field declaring the key lies after `g`
        obtain ⟨h, hh, hhk⟩ := hlater
        have hsplit : (before ++ g :: after).map Field.decl
            = (before.map Field.decl ++ [g.decl]) ++ after.map Field.decl := by simp
        obtain ⟨d2, hd2, hlast2⟩ := lastDeclaring_later (before.map Field.decl ++ [g.decl])
          (after.map Field.decl) e.1
          ⟨h.decl, List.mem_map.mpr ⟨h, hh, rfl⟩, by rw [hhk, ← hdg, hdkey]⟩
        rw [← hsplit, hl] at hlast2
        have hd2g : d2 = g.decl := by
          rw [← hdg]; exact (Option.some.inj hlast2).symm
        rw [hd2g] at hd2
        -- but the name of `g` does not occur after `g`
        rw [hsplit, List.map_append, List.nodup_append] at hnd
        have hdisj := hnd.2.2
        exact hdisj (List.mem_map.mpr ⟨g.decl, by simp, rfl⟩)
          (List.mem_map.mpr ⟨g.decl, hd2, rfl⟩)

/-- C15, at a record whose fields `First` and `Second` both declare `x`, bound
against `x=hello`: the map sends `x` to `Second`, and `First` keeps its value. -/
theorem last_declared_wins_witness :
    ((∃ f ∈ CollidingRecord.map Field.decl, paramKey f = "x")
      ∧ ((([] : Struct) ++ (⟨⟨"First", [("param", "x")], .other .String, true⟩, .str "one"⟩ : Field)
          :: [⟨⟨"Second", [("param", "x")], .other .String, true⟩, .str "two"⟩]).map
            (fun x => x.decl.Name)).Nodup)
    ∧ (∃ g m, lastDeclaring (CollidingRecord.map Field.decl) "x" = some g
        ∧ getListOfParamNames (.struct (CollidingRecord.map Field.decl)) = .returned m
        ∧ mapGet m "x" = some g.Name)
    ∧ ∃ e s2, UnmarshallRequestForm Lib.sample MapOrder.stored (getRequest "x=hello")
          (ptrTo (([] : Struct) ++ (⟨⟨"First", [("param", "x")], .other .String, true⟩, .str "one"⟩ : Field)
            :: [⟨⟨"Second", [("param", "x")], .other .String, true⟩, .str "two"⟩]))
          = .returned (e, ptrTo s2)
        ∧ FieldByName s2 "First"
          = some ⟨⟨"First", [("param", "x")], .other .String, true⟩, .str "one"⟩ :=
  ⟨⟨⟨⟨"Second", [("param", "x")], .other .String, true⟩, by decide, by decide⟩, by decide⟩,
   last_declared_wins.1 (CollidingRecord.map Field.decl) "x"
    ⟨⟨"Second", [("param", "x")], .other .String, true⟩, by decide, by decide⟩,
   last_declared_wins.2 Lib.sample MapOrder.stored (getRequest "x=hello") []
    [⟨⟨"Second", [("param", "x")], .other .String, true⟩, .str "two"⟩]
    ⟨⟨"First", [("param", "x")], .other .String, true⟩, .str "one"⟩ (by decide)
    ⟨⟨⟨"Second", [("param", "x")], .other .String, true⟩, .str "two"⟩, by decide, by decide⟩⟩

theorem StructTagGet_absent (tag : List (String × String)) (key : String)
    (h : ∀ kv ∈ tag, kv.1 ≠ key) : StructTagGet tag key = "" := by
  induction tag with
  | nil => rfl
  | cons x rest ih =>
    obtain ⟨k, v⟩ := x
    have hk : ¬ k = key := h (k, v) (List.mem_cons_self _ _)
    simp only [StructTagGet, if_neg hk]
    exact ih (fun kv hkv => h kv (List.mem_cons_of_mem _ hkv))

theorem foldl_mapSet_congr (fs gs : List StructField)
    (h : List.Forall₂ (fun f g => f.Name = g.Name ∧ paramKey f = paramKey g) fs gs) :
    ∀ init : GoMap,
      fs.foldl (fun params f => mapSet params (paramKey f) f.Name) init
        = gs.foldl (fun params f => mapSet params (paramKey f) f.Name) init := by
  induction h with
  | nil => intro init; rfl
  | cons hfg _ ih =>
    intro init
    simp only [List.foldl_cons, hfg.1, hfg.2]
    exact ih _

/-- C16: every field is registered by `getListOfParamNames` under the portion
of its `param` tag value before the first comma (the whole value when it
contains no comma, the empty string when the field has no `param` tag); hence
two record types whose fields agree in name and in that portion of the tag
yield the same map. -/
theorem key_is_tag_before_first_comma :
    (∀ fs : List StructField,
      getListOfParamNames (.struct fs)
        = .returned (fs.foldl (fun params f =>
            mapSet params (beforeFirstComma (StructTagGet f.Tag TagName)) f.Name) []))
    ∧ (∀ value : String, ',' ∉ value.data → beforeFirstComma value = value)
    ∧ (∀ f : StructField, (∀ kv ∈ f.Tag, kv.1 ≠ TagName) →
        beforeFirstComma (StructTagGet f.Tag TagName) = "")
    ∧ (∀ fs gs : List StructField,
      List.Forall₂ (fun f g => f.Name = g.Name
        ∧ beforeFirstComma (StructTagGet f.Tag TagName)
          = beforeFirstComma (StructTagGet g.Tag TagName)) fs gs →
      getListOfParamNames (.struct fs) = getListOfParamNames (.struct gs)) := by
  refine ⟨?_, ?_, ?_, ?_⟩
  · intro fs
    rw [getListOfParamNames_struct, paramMap]
    congr 2
    funext params f
    rw [paramKey_eq]
  · intro value h
    unfold beforeFirstComma
    have : value.data.takeWhile (fun c => decide (c ≠ ',')) = value.data := by
      rw [List.takeWhile_eq_self_iff]
      intro c hc
      simp only [ne_eq, decide_eq_true_eq]
      intro e
      exact h (e ▸ hc)
    rw [this]
  · intro f h
    rw [StructTagGet_absent f.Tag TagName h]
    rfl
  · intro fs gs h
    rw [getListOfParamNames_struct, getListOfParamNames_struct, paramMap, paramMap]
    congr 1
    apply foldl_mapSet_congr
    refine List.Forall₂.imp ?_ h
    intro f g hfg
    exact ⟨hfg.1, by rw [paramKey_eq, paramKey_eq, hfg.2]⟩

/-- C16, at a field tagged `param:"name"` against the same field tagged
`param:"name,omitempty"`, and at a field without a `param` tag. -/
theorem key_is_tag_before_first_comma_witness :
    (',' ∉ "name".data
      ∧ (∀ kv ∈ ([("json", "n")] : List (String × String)), kv.1 ≠ TagName)
      ∧ List.Forall₂ (fun (f g : StructField) => f.Name = g.Name
          ∧ beforeFirstComma (StructTagGet f.Tag TagName)
            = beforeFirstComma (StructTagGet g.Tag TagName))
          [(⟨"Name", [("param", "name")], .other .String, true⟩ : StructField)]
          [⟨"Name", [("param", "name,omitempty")], .other .String, true⟩])
    ∧ beforeFirstComma "name" = "name"
    ∧ beforeFirstComma
        (StructTagGet (⟨"N", [("json", "n")], .other .Int, true⟩ : StructField).Tag TagName) = ""
    ∧ getListOfParamNames (.struct [⟨"Name", [("param", "name")], .other .String, true⟩])
        = getListOfParamNames
            (.struct [⟨"Name", [("param", "name,omitempty")], .other .String, true⟩]) :=
  ⟨⟨by decide, by decide,
      List.Forall₂.cons ⟨rfl, by decide⟩ List.Forall₂.nil⟩,
   key_is_tag_before_first_comma.2.1 "name" (by decide),
   key_is_tag_before_first_comma.2.2.1 ⟨"N", [("json", "n")], .other .Int, true⟩ (by decide),
   key_is_tag_before_first_comma.2.2.2 _ _
    (List.Forall₂.cons ⟨rfl, by decide⟩ List.Forall₂.nil)⟩

/-- The loop over a visiting order split in two: the second part is processed
from the record that the first part leaves, unless the first part fails. -/
theorem bindLoop_append (L : Lib) (r : Request) (b : GoMap) :
    ∀ (a : GoMap) (s : Struct),
      bindLoop L r (a ++ b) s
        = match bindLoop L r a s with
          | (some e, s1) => (some e, s1)
          | (none, s1) => bindLoop L r b s1 := by
  intro a
  induction a with
  | nil => intro s; rfl
  | cons e rest ih =>
    intro s
    obtain ⟨q, g⟩ := e
    rw [List.cons_append, bindLoop_cons, bindLoop_cons]
    cases entryAct L r (s.map Field.decl) q g with
    | skip => exact ih s
    | store v => exact ih _
    | fail err => rfl

/-- The loop returns nil exactly when no visited entry fails. -/
theorem bindLoop_none_iff (L : Lib) (r : Request) (l : GoMap) (s : Struct) :
    (bindLoop L r l s).1 = none
      ↔ ∀ e ∈ l, ∀ err, entryAct L r (s.map Field.decl) e.1 e.2 ≠ .fail err := by
  constructor
  · intro h e he err hfail
    obtain ⟨e2, he2⟩ := bindLoop_fail_of_mem L r (s.map Field.decl) l s rfl ⟨e, he, err, hfail⟩
    rw [h] at he2
    exact Option.noConfusion he2
  · intro h
    rw [bindLoop_ok L r (s.map Field.decl) l s rfl h]

/-- In a record type with distinct field names, two entries of the field map
for the same field are the same entry. -/
theorem entries_same_field (ds : List StructField) (hnd : (ds.map StructField.Name).Nodup)
    (e e2 : String × String) (he : e ∈ paramMap ds) (he2 : e2 ∈ paramMap ds)
    (h : e.2 = e2.2) : e = e2 := by
  obtain ⟨d, hd, hed⟩ := paramMap_mem ds e he
  obtain ⟨d2, hd2, hed2⟩ := paramMap_mem ds e2 he2
  have h1 : d.Name = d2.Name := by
    have a1 : e.2 = d.Name := congrArg Prod.snd hed
    have a2 : e2.2 = d2.Name := congrArg Prod.snd hed2
    rw [← a1, ← a2, h]
  have : d = d2 := List.inj_on_of_nodup_map hnd hd hd2 h1
  rw [hed, hed2, this]

theorem paramMap_nodup (ds : List StructField) : (paramMap ds).Nodup :=
  List.Nodup.of_map Prod.fst (paramMap_keys_nodup ds)

/-- The field of a visited entry after the acts of the visited entries, when
none of them fails and no other visited entry is for the same field: it holds
what the processing of its own entry on the initial record leaves in it. -/
theorem applyEntries_own_field (L : Lib) (r : Request) (s : Struct) (l : GoMap)
    (q g : String) (hmem : (q, g) ∈ l)
    (hsame : ∀ e ∈ l, e.2 = g → e = (q, g)) :
    FieldByName (applyEntries L r (s.map Field.decl) l s) g
      = FieldByName (setFieldValue L s q g r).1 g := by
  rw [setFieldValue_eq]
  cases ha : entryAct L r (s.map Field.decl) q g with
  | store v =>
    obtain ⟨f, hf, _⟩ := entryAct_store_exported L r s q g v ha
    rw [applyEntries_field L r (s.map Field.decl) q g v ha l s f hf hsame, if_pos hmem]
    simp only [applyAct]
    rw [FieldByName_setField_eq s g v f hf]
  | skip =>
    simp only [applyAct]
    have := bindLoop_frame L r (s.map Field.decl) g l s rfl (by
      intro e he hg v
      have := hsame e he hg
      rw [this, ha]
      exact fun h => Act.noConfusion h)
    by_cases hok : ∀ e ∈ l, ∀ err, entryAct L r (s.map Field.decl) e.1 e.2 ≠ .fail err
    · rw [bindLoop_ok L r (s.map Field.decl) l s rfl hok] at this
      exact this
    · -- a failing entry is no obstacle: the acts are applied regardless
      clear this
      revert hsame hmem
      generalize hds : s.map Field.decl = ds at ha
      clear hok
      induction l generalizing s with
      | nil => intro h; simp at h
      | cons e rest ih =>
        intro _ hsame
        obtain ⟨q2, g2⟩ := e
        simp only [applyEntries, List.foldl_cons]
        have hrest : ∀ e ∈ rest, e.2 = g → e = (q, g) :=
          fun e he => hsame e (List.mem_cons_of_mem _ he)
        have key : ∀ s1 : Struct, s1.map Field.decl = ds → FieldByName s1 g = FieldByName s g →
            FieldByName (List.foldl (fun s e => (applyAct s e.2 (entryAct L r ds e.1 e.2)).1)
              s1 rest) g = FieldByName s g := by
          intro s1 hs1 hfs
          by_cases hm : (q, g) ∈ rest
          · have := ih s1 hs1 hm hrest
            simp only [applyEntries] at this
            rw [this, hfs]
          · -- no entry for `g` is left
            have hframe := bindLoop_frame L r ds g rest s1 hs1 (by
              intro e he hg v
              exact absurd (hrest e he hg ▸ he) hm)
            have : ∀ (l2 : GoMap) (s2 : Struct), s2.map Field.decl = ds →
                (∀ e ∈ l2, e.2 ≠ g) →
                FieldByName (List.foldl (fun s e => (applyAct s e.2 (entryAct L r ds e.1 e.2)).1)
                  s2 l2) g = FieldByName s2 g := by
              intro l2
              induction l2 with
              | nil => intro s2 _ _; rfl
              | cons x xs ihx =>
                intro s2 hs2 hne
                simp only [List.foldl_cons]
                rw [ihx _ (by rw [applyAct_decl, hs2])
                  (fun e he => hne e (List.mem_cons_of_mem _ he))]
                cases entryAct L r ds x.1 x.2 with
                | skip => rfl
                | fail err => rfl
                | store w =>
                  exact FieldByName_setField_ne s2 x.2 g w (hne x (List.mem_cons_self _ _))
            rw [this rest s1 hs1 (by
              intro e he hg
              exact hm (hrest e he hg ▸ he)), hfs]
        by_cases hg2 : g2 = g
        · have he2 : (q2, g2) = (q, g) := hsame (q2, g2) (List.mem_cons_self _ _) hg2
          have hq2 : q2 = q := congrArg Prod.fst he2
          rw [hq2, hg2, ha]
          exact key s hds rfl
        · apply key
          · rw [applyAct_decl, hds]
          · cases entryAct L r ds q2 g2 with
            | skip => rfl
            | fail err => rfl
            | store w => exact FieldByName_setField_ne s g2 g w hg2
  | fail err =>
    simp only [applyAct]
    have hframe : ∀ (l2 : GoMap) (s2 : Struct), s2.map Field.decl = s.map Field.decl →
        (∀ e ∈ l2, e.2 = g → e = (q, g)) →
        FieldByName (List.foldl (fun s0 e =>
          (applyAct s0 e.2 (entryAct L r (s.map Field.decl) e.1 e.2)).1) s2 l2) g
          = FieldByName s2 g := by
      intro l2
      induction l2 with
      | nil => intro s2 _ _; rfl
      | cons x xs ihx =>
        intro s2 hs2 hs
        simp only [List.foldl_cons]
        rw [ihx _ (by rw [applyAct_decl, hs2]) (fun e he => hs e (List.mem_cons_of_mem _ he))]
        by_cases hx : x.2 = g
        · have := hs x (List.mem_cons_self _ _) hx
          rw [this, ha]
          rfl
        · cases entryAct L r (s.map Field.decl) x.1 x.2 with
          | skip => rfl
          | fail err => rfl
          | store w => exact FieldByName_setField_ne s2 x.2 g w hx
    exact hframe l s rfl hsame

/-- C18: for every order in which the field-map entries are processed, if
the entries before the k-th are processed without error and processing the k-th
entry fails, `UnmarshallRequestForm` returns that entry's error wrapped with its
parameter name, and the record is left as the entries before the k-th made it:
the entries after the k-th are not processed, so their fields keep their
pre-call values, and the fields of the entries before the k-th keep what the
processing of those entries wrote (no rollback). -/
theorem first_error_wins (L : Lib) (o : MapOrder) (request : Request) (s : Struct) (m : GoMap)
    (before after : GoMap) (p fn : String) (err : GoError)
    (hmap : getListOfParamNames (.struct (s.map Field.decl)) = .returned m)
    (hparse : request.ensureParsed.2 = none)
    (horder : o.visit m = before ++ (p, fn) :: after)
    (hbefore : (bindLoop L request before s).1 = none)
    (hfail : (setFieldValue L (bindLoop L request before s).2 p fn request).2 = some err) :
    UnmarshallRequestForm L o request (ptrTo s)
        = .returned (some (Errorf_w L ("error setting value for param " ++ p ++ ": ") err),
            ptrTo (bindLoop L request before s).2)
    ∧ ((s.map (fun x => x.decl.Name)).Nodup →
        (∀ e ∈ after, FieldByName (bindLoop L request before s).2 e.2 = FieldByName s e.2)
        ∧ (∀ e ∈ before, FieldByName (bindLoop L request before s).2 e.2
            = FieldByName (setFieldValue L s e.1 e.2 request).1 e.2)) := by
  have hm : paramMap (s.map Field.decl) = m := by
    rw [getListOfParamNames_struct] at hmap; injection hmap
  constructor
  · rw [UnmarshallRequestForm_ptrTo, hparse, hm, horder]
    simp only []
    rw [bindLoop_append]
    cases hb : bindLoop L request before s with
    | mk e1 s1 =>
      rw [hb] at hbefore hfail
      simp only [] at hbefore hfail
      rw [hbefore]
      simp only []
      rw [bindLoop_cons]
      rw [setFieldValue_eq] at hfail
      cases ha : entryAct L request (s1.map Field.decl) p fn with
      | skip => rw [ha] at hfail; simp [applyAct] at hfail
      | store v => rw [ha] at hfail; simp [applyAct] at hfail
      | fail err2 =>
        rw [ha] at hfail
        simp only [applyAct, Option.some.injEq] at hfail
        rw [hfail]
  · intro hnodup
    have hnd : ((s.map Field.decl).map StructField.Name).Nodup := by
      simpa [List.map_map, Function.comp] using hnodup
    have hvisit : (before ++ (p, fn) :: after).Nodup := by
      rw [← horder]
      exact (o.perm m).nodup_iff.mpr (hm ▸ paramMap_nodup _)
    have hin : ∀ e ∈ before ++ (p, fn) :: after, e ∈ paramMap (s.map Field.decl) := by
      intro e he
      rw [← horder] at he
      exact hm ▸ (o.perm m).mem_iff.mp he
    have hnofail := (bindLoop_none_iff L request before s).mp hbefore
    constructor
    · intro e he
      apply bindLoop_frame L request (s.map Field.decl) e.2 before s rfl
      intro e2 he2 h2 v _
      have heq : e2 = e := entries_same_field _ hnd e2 e
        (hin e2 (List.mem_append_left _ he2))
        (hin e (List.mem_append_right _ (List.mem_cons_of_mem _ he))) h2
      rw [List.nodup_append] at hvisit
      exact hvisit.2.2 he2 (heq ▸ List.mem_cons_of_mem _ he)
    · intro e he
      rw [bindLoop_ok L request (s.map Field.decl) before s rfl hnofail]
      obtain ⟨q, g⟩ := e
      apply applyEntries_own_field L request s before q g he
      intro e2 he2 h2
      exact entries_same_field _ hnd e2 (q, g) (hin e2 (List.mem_append_left _ he2))
        (hin (q, g) (List.mem_append_left _ he)) h2

/-- C18, at the zero `TestStruct` bound against
`name=Joe&is_cool=true&counter=x`, visited in the stored order: `name` and
`is_cool` are processed, `counter` fails, `start` is not processed. -/
theorem first_error_wins_witness :
    (getListOfParamNames (.struct (TestStructZero.map Field.decl))
        = .returned [("name", "Name"), ("is_cool", "IsCool"), ("counter", "Counter"),
            ("start", "Start")]
      ∧ (getRequest "name=Joe&is_cool=true&counter=x").ensureParsed.2 = none
      ∧ MapOrder.stored.visit [("name", "Name"), ("is_cool", "IsCool"), ("counter", "Counter"),
            ("start", "Start")]
          = [("name", "Name"), ("is_cool", "IsCool")] ++ ("counter", "Counter")
            :: [("start", "Start")]
      ∧ (bindLoop Lib.sample (getRequest "name=Joe&is_cool=true&counter=x")
          [("name", "Name"), ("is_cool", "IsCool")] TestStructZero).1 = none
      ∧ (setFieldValue Lib.sample
          (bindLoop Lib.sample (getRequest "name=Joe&is_cool=true&counter=x")
            [("name", "Name"), ("is_cool", "IsCool")] TestStructZero).2
          "counter" "Counter" (getRequest "name=Joe&is_cool=true&counter=x")).2
          = some (.NumError "Atoi" "x" .ErrSyntaxKind))
    ∧ (UnmarshallRequestForm Lib.sample MapOrder.stored
          (getRequest "name=Joe&is_cool=true&counter=x") (ptrTo TestStructZero)
        = .returned (some (Errorf_w Lib.sample
              ("error setting value for param " ++ "counter" ++ ": ")
              (.NumError "Atoi" "x" .ErrSyntaxKind)),
            ptrTo (bindLoop Lib.sample (getRequest "name=Joe&is_cool=true&counter=x")
              [("name", "Name"), ("is_cool", "IsCool")] TestStructZero).2)
      ∧ ((TestStructZero.map (fun x => x.decl.Name)).Nodup →
          (∀ e ∈ [("start", "Start")],
            FieldByName (bindLoop Lib.sample (getRequest "name=Joe&is_cool=true&counter=x")
              [("name", "Name"), ("is_cool", "IsCool")] TestStructZero).2 e.2
              = FieldByName TestStructZero e.2)
          ∧ (∀ e ∈ [("name", "Name"), ("is_cool", "IsCool")],
            FieldByName (bindLoop Lib.sample (getRequest "name=Joe&is_cool=true&counter=x")
              [("name", "Name"), ("is_cool", "IsCool")] TestStructZero).2 e.2
              = FieldByName (setFieldValue Lib.sample TestStructZero e.1 e.2
                  (getRequest "name=Joe&is_cool=true&counter=x")).1 e.2))) :=
  ⟨by decide,
   first_error_wins Lib.sample MapOrder.stored (getRequest "name=Joe&is_cool=true&counter=x")
    TestStructZero
    [("name", "Name"), ("is_cool", "IsCool"), ("counter", "Counter"), ("start", "Start")]
    [("name", "Name"), ("is_cool", "IsCool")] [("start", "Start")] "counter" "Counter"
    (.NumError "Atoi" "x" .ErrSyntaxKind)
    (by decide) (by decide) (by decide) (by decide) (by decide)⟩

/-- In a struct type in which a field that shares its name with a later field
is unexported (Go allows a repeated field name only for the blank `_`), the
first field with a name that two different fields bear is unexported. -/
theorem first_of_repeated_name_unexported :
    ∀ (ds : List StructField) (n : String) (d d2 : StructField),
      ds.Pairwise (fun a b => a.Name = b.Name → a.exported = false) →
      d ∈ ds → d2 ∈ ds → d ≠ d2 → d.Name = n → d2.Name = n →
      ∃ a, declByName ds n = some a ∧ a.exported = false := by
  intro ds
  induction ds with
  | nil => intro n d d2 _ hd; simp at hd
  | cons a rest ih =>
    intro n d d2 hp hd hd2 hne hn hn2
    rw [List.pairwise_cons] at hp
    by_cases ha : a.Name = n
    · refine ⟨a, by simp [declByName, ha], ?_⟩
      rcases List.mem_cons.mp hd with h1 | h1
      · rcases List.mem_cons.mp hd2 with h2 | h2
        · exact absurd (h1.trans h2.symm) hne
        · exact hp.1 d2 h2 (ha.trans hn2.symm)
      · exact hp.1 d h1 (ha.trans hn.symm)
    · have hd' : d ∈ rest := by
        rcases List.mem_cons.mp hd with h1 | h1
        · exact absurd (h1 ▸ hn) ha
        · exact h1
      have hd2' : d2 ∈ rest := by
        rcases List.mem_cons.mp hd2 with h1 | h1
        · exact absurd (h1 ▸ hn2) ha
        · exact h1
      obtain ⟨b, hb1, hb2⟩ := ih n d d2 hp.2 hd' hd2' hne hn hn2
      exact ⟨b, by simp [declByName, ha, hb1], hb2⟩

theorem entryAct_unexported (L : Lib) (r : Request) (ds : List StructField) (p fn : String)
    (a : StructField) (h : declByName ds fn = some a) (hx : a.exported = false) :
    entryAct L r ds p fn = .skip := by
  unfold entryAct
  rw [h]
  simp [hx]

/-- Two different entries of the field map for the same field name are both
skipped. -/
theorem same_field_entries_skip (L : Lib) (r : Request) (ds : List StructField)
    (hwf : ds.Pairwise (fun a b => a.Name = b.Name → a.exported = false))
    (x y : String × String) (hx : x ∈ paramMap ds) (hy : y ∈ paramMap ds)
    (hname : x.2 = y.2) (hne : x ≠ y) :
    entryAct L r ds x.1 x.2 = .skip ∧ entryAct L r ds y.1 y.2 = .skip := by
  obtain ⟨d, hd, hxd⟩ := paramMap_mem ds x hx
  obtain ⟨d2, hd2, hyd⟩ := paramMap_mem ds y hy
  have hdne : d ≠ d2 := by
    intro e
    apply hne
    rw [hxd, hyd, e]
  have h1 : d.Name = x.2 := (congrArg Prod.snd hxd).symm
  have h2 : d2.Name = x.2 := by rw [hname]; exact (congrArg Prod.snd hyd).symm
  obtain ⟨a, ha1, ha2⟩ := first_of_repeated_name_unexported ds x.2 d d2 hwf hd hd2 hdne h1 h2
  exact ⟨entryAct_unexported L r ds x.1 x.2 a ha1 ha2,
    entryAct_unexported L r ds y.1 y.2 a (hname ▸ ha1) ha2⟩

/-- The acts of the entries of the field map give the same struct in every
visiting order. -/
theorem applyEntries_perm_of_wf (L : Lib) (r : Request) (ds : List StructField)
    (hwf : ds.Pairwise (fun a b => a.Name = b.Name → a.exported = false))
    (l l2 : GoMap) (s : Struct) (hperm : l.Perm l2) (hl : ∀ e ∈ l, e ∈ paramMap ds) :
    applyEntries L r ds l s = applyEntries L r ds l2 s := by
  unfold applyEntries
  apply List.Perm.foldl_eq' hperm
  intro x hx y hy z
  by_cases hxy : x.2 = y.2
  · by_cases hne : x = y
    · rw [hne]
    · obtain ⟨h1, h2⟩ := same_field_entries_skip L r ds hwf x y (hl x hx) (hl y hy) hxy hne
      rw [h1, h2]
      rfl
  · exact applyAct_comm z x.2 y.2 _ _ hxy

/-- C19: as far as success is concerned, the outcome of a bind does not depend
on the order in which the field-map entries are visited: for every request,
every target record and every two visiting orders, `UnmarshallRequestForm`
returns nil under one order if and only if it returns nil under the other, and
when it returns nil the two final records are equal.  (In the record type an
exported field name is not repeated, as in every Go struct type: a field that
shares its name with a later field is unexported.) -/
theorem success_is_order_independent (L : Lib) (o1 o2 : MapOrder) (request : Request)
    (s : Struct)
    (hwf : (s.map Field.decl).Pairwise (fun a b => a.Name = b.Name → a.exported = false)) :
    ((∃ v1, UnmarshallRequestForm L o1 request (ptrTo s) = .returned (none, v1))
      ↔ (∃ v2, UnmarshallRequestForm L o2 request (ptrTo s) = .returned (none, v2)))
    ∧ ∀ v1 v2, UnmarshallRequestForm L o1 request (ptrTo s) = .returned (none, v1) →
        UnmarshallRequestForm L o2 request (ptrTo s) = .returned (none, v2) → v1 = v2 := by
  have hsucc : ∀ o : MapOrder,
      (∃ v, UnmarshallRequestForm L o request (ptrTo s) = .returned (none, v))
        ↔ (request.ensureParsed.2 = none
          ∧ ∀ e ∈ paramMap (s.map Field.decl), ∀ err,
              entryAct L request (s.map Field.decl) e.1 e.2 ≠ .fail err) := by
    intro o
    rw [UnmarshallRequestForm_ptrTo]
    cases hp : request.ensureParsed.2 with
    | some e0 =>
      simp only []
      constructor
      · rintro ⟨v, hv⟩
        injection hv with hv
        exact absurd (congrArg Prod.fst hv) (by simp)
      · rintro ⟨h, _⟩
        exact Option.noConfusion h
    | none =>
      simp only [true_and]
      constructor
      · rintro ⟨v, hv⟩
        injection hv with hv
        have h1 := congrArg Prod.fst hv
        simp only [] at h1
        intro e he
        exact (bindLoop_none_iff L request _ s).mp h1 e ((o.perm _).mem_iff.mpr he)
      · intro h
        have h1 := (bindLoop_none_iff L request (o.visit (paramMap (s.map Field.decl))) s).mpr
          (fun e he => h e ((o.perm _).mem_iff.mp he))
        exact ⟨_, by rw [h1]⟩
  have hfinal : ∀ o : MapOrder, ∀ v,
      UnmarshallRequestForm L o request (ptrTo s) = .returned (none, v) →
      v = ptrTo (applyEntries L request (s.map Field.decl) (paramMap (s.map Field.decl)) s) := by
    intro o v hv
    obtain ⟨hp, hok⟩ := (hsucc o).mp ⟨v, hv⟩
    rw [UnmarshallRequestForm_ptrTo, hp] at hv
    simp only [] at hv
    rw [bindLoop_ok L request (s.map Field.decl) (o.visit (paramMap (s.map Field.decl))) s rfl
      (fun e he => hok e ((o.perm _).mem_iff.mp he))] at hv
    injection hv with hv
    have h2 := congrArg Prod.snd hv
    simp only [] at h2
    rw [← h2, applyEntries_perm_of_wf L request (s.map Field.decl) hwf _ _ s (o.perm _)
      (fun e he => (o.perm _).mem_iff.mp he)]
  refine ⟨(hsucc o1).trans (hsucc o2).symm, ?_⟩
  intro v1 v2 h1 h2
  rw [hfinal o1 v1 h1, hfinal o2 v2 h2]

/-- C19, at the zero `TestStruct` bound against `name=Joe&counter=7`, for the
stored and the reversed visiting order. -/
theorem success_is_order_independent_witness :
    (TestStructZero.map Field.decl).Pairwise (fun a b => a.Name = b.Name → a.exported = false)
    ∧ ((∃ v1, UnmarshallRequestForm Lib.sample MapOrder.stored (getRequest "name=Joe&counter=7")
          (ptrTo TestStructZero) = .returned (none, v1))
        ↔ (∃ v2, UnmarshallRequestForm Lib.sample MapOrder.reversed
          (getRequest "name=Joe&counter=7") (ptrTo TestStructZero) = .returned (none, v2)))
    ∧ ∀ v1 v2, UnmarshallRequestForm Lib.sample MapOrder.stored (getRequest "name=Joe&counter=7")
          (ptrTo TestStructZero) = .returned (none, v1) →
        UnmarshallRequestForm Lib.sample MapOrder.reversed (getRequest "name=Joe&counter=7")
          (ptrTo TestStructZero) = .returned (none, v2) → v1 = v2 :=
  have hwf : (TestStructZero.map Field.decl).Pairwise
      (fun a b => a.Name = b.Name → a.exported = false) := by
    simp [TestStructZero, List.pairwise_cons]
  ⟨hwf, success_is_order_independent Lib.sample MapOrder.stored MapOrder.reversed
    (getRequest "name=Joe&counter=7") TestStructZero hwf⟩

/-- A value without `%` and `+` is its own percent-decoding. -/
theorem percentDecode_plain (l : List Char) (h1 : '%' ∉ l) (h2 : '+' ∉ l) :
    percentDecode l = some l := by
  induction l with
  | nil => rfl
  | cons c rest ih =>
    simp only [List.mem_cons, not_or] at h1 h2
    have hc : ¬ c = '%' := fun e => h1.1 e.symm
    have hp : ¬ c = '+' := fun e => h2.1 e.symm
    rw [percentDecode_cons_ne c rest hc, if_neg hp, ih h1.2 h2.2]
    rfl

/-- The percent-decoding of a value is not longer than the value, and it is the
value itself only when the value has neither `%` nor `+`. -/
theorem percentDecode_fixed :
    ∀ (k : Nat) (l t : List Char), l.length ≤ k → percentDecode l = some t →
      t.length ≤ l.length ∧ (t = l → '%' ∉ l ∧ '+' ∉ l) := by
  intro k
  induction k with
  | zero =>
    intro l t hl h
    have : l = [] := List.length_eq_zero.mp (Nat.le_zero.mp hl)
    subst this
    simp only [percentDecode, Option.some.injEq] at h
    subst h
    simp
  | succ k ih =>
    intro l t hl h
    cases l with
    | nil =>
      simp only [percentDecode, Option.some.injEq] at h
      subst h
      simp
    | cons c rest =>
      have hrest : rest.length ≤ k := by simpa using hl
      by_cases hc : c = '%'
      · subst hc
        cases rest with
        | nil => simp [percentDecode] at h
        | cons a rest1 =>
          cases rest1 with
          | nil => simp [percentDecode] at h
          | cons b rest2 =>
            by_cases hx : (ishex a && ishex b) = true
            · simp only [percentDecode, if_true, hx] at h
              cases hd : percentDecode rest2 with
              | none => rw [hd] at h; simp at h
              | some t2 =>
                rw [hd] at h
                simp only [Option.map_some', Option.some.injEq] at h
                have h2 : rest2.length ≤ k := by
                  simp only [List.length_cons] at hrest; omega
                have := (ih rest2 t2 h2 hd).1
                subst h
                constructor
                · simp only [List.length_cons]; omega
                · intro e
                  have := congrArg List.length e
                  simp only [List.length_cons] at this
                  omega
            · simp [percentDecode, hx] at h
      · rw [percentDecode_cons_ne c rest hc] at h
        by_cases hp : c = '+'
        · rw [if_pos hp] at h
          cases hd : percentDecode rest with
          | none => rw [hd] at h; simp at h
          | some t2 =>
            rw [hd] at h
            simp only [Option.map_some', Option.some.injEq] at h
            have := (ih rest t2 hrest hd).1
            subst h
            constructor
            · simp only [List.length_cons]; omega
            · intro e
              injection e with e1 _
              rw [hp] at e1
              exact absurd e1 (by decide)
        · rw [if_neg hp] at h
          cases hd : percentDecode rest with
          | none => rw [hd] at h; simp at h
          | some t2 =>
            rw [hd] at h
            simp only [Option.map_some', Option.some.injEq] at h
            have := ih rest t2 hrest hd
            subst h
            constructor
            · simp only [List.length_cons]; omega
            · intro e
              injection e with _ e2
              obtain ⟨a1, a2⟩ := this.2 e2
              constructor
              · simp only [List.mem_cons, not_or]
                exact ⟨fun e => hc e.symm, a1⟩
              · simp only [List.mem_cons, not_or]
                exact ⟨fun e => hp e.symm, a2⟩

/-- The function `url.QueryUnescape` returns its argument unchanged exactly
when the argument has neither `%` nor `+`. -/
theorem QueryUnescape_self_iff (v : String) :
    QueryUnescape v = .ok v ↔ ('%' ∉ v.data ∧ '+' ∉ v.data) := by
  rw [QueryUnescape_iff]
  constructor
  · intro h
    exact (percentDecode_fixed v.data.length v.data v.data (Nat.le_refl _) h).2 rfl
  · intro h
    exact percentDecode_plain v.data h.1 h.2

/-- C20: for every settable string field and every non-empty value `v` that
the request's lookup returns for its parameter: processing the field succeeds
and leaves exactly `v` in the field if and only if `v` contains neither `%` nor
`+`; and, when no other entry of the field map fails, the bind succeeds with
exactly `v` in the field, in every visiting order, if and only if `v` contains
neither `%` nor `+` (field names being distinct). -/
theorem verbatim_iff_no_escape (L : Lib) (o : MapOrder) (request : Request) (s : Struct)
    (m : GoMap) (p fn : String) (f : Field) (v : String)
    (hmap : getListOfParamNames (.struct (s.map Field.decl)) = .returned m)
    (hentry : (p, fn) ∈ m)
    (hfield : FieldByName s fn = some f) (hset : f.CanSet = true)
    (hkind : f.Kind = .String)
    (hval : request.FormValue p = v) (hne : v ≠ "") :
    (((setFieldValue L s p fn request).2 = none
        ∧ FieldByName (setFieldValue L s p fn request).1 fn = some { f with val := .str v })
      ↔ ('%' ∉ v.data ∧ '+' ∉ v.data))
    ∧ ((s.map (fun x => x.decl.Name)).Nodup → request.ensureParsed.2 = none →
        (∀ e ∈ m, e ≠ (p, fn) → (setFieldValue L s e.1 e.2 request).2 = none) →
        ((∃ s2, UnmarshallRequestForm L o request (ptrTo s) = .returned (none, ptrTo s2)
            ∧ FieldByName s2 fn = some { f with val := .str v })
          ↔ ('%' ∉ v.data ∧ '+' ∉ v.data))) := by
  cases hq : QueryUnescape v with
  | error err =>
    have hact := entryAct_undecodable L request s p fn f v err hfield hset hval hne hq
    have hno : ¬ ('%' ∉ v.data ∧ '+' ∉ v.data) := by
      intro h
      rw [(QueryUnescape_self_iff v).mpr h] at hq
      exact Except.noConfusion hq
    constructor
    · rw [setFieldValue_eq, hact]
      simp only [applyAct]
      constructor
      · rintro ⟨h, _⟩; exact Option.noConfusion h
      · intro h; exact absurd h hno
    · intro _ _ _
      constructor
      · rintro ⟨s2, hs2, _⟩
        obtain ⟨e, val, he⟩ := UnmarshallRequestForm_fail L o request s m p fn err hmap hentry hact
        rw [hs2] at he
        injection he with he
        exact absurd (congrArg Prod.fst he) (by simp)
      · intro h; exact absurd h hno
  | ok d =>
    have hact : entryAct L request (s.map Field.decl) p fn = .store (.str d) := by
      rw [entryAct_present L request s p fn f v d hfield hset hval hne hq, hkind]
    have hdv : d = v ↔ ('%' ∉ v.data ∧ '+' ∉ v.data) := by
      rw [← QueryUnescape_self_iff, hq]
      constructor
      · intro e; rw [e]
      · intro e; injection e
    have hinj : (some ({ f with val := .str d } : Field) = some { f with val := .str v })
        ↔ d = v := by
      constructor
      · intro e
        injection e with e
        injection e with _ e
        injection e
      · intro e; rw [e]
    constructor
    · rw [setFieldValue_eq, hact]
      simp only [applyAct, true_and]
      rw [FieldByName_setField_eq s fn _ f hfield, hinj, hdv]
    · intro hnodup hparse hothers
      have hok : ∀ e ∈ m, (setFieldValue L s e.1 e.2 request).2 = none := by
        intro e he
        by_cases h : e = (p, fn)
        · rw [h, setFieldValue_eq, hact]; rfl
        · exact hothers e he h
      obtain ⟨s3, hs3, hf3⟩ := UnmarshallRequestForm_field_stored L o request s m p fn f _ hmap
        hentry hfield hact hnodup hparse hok
      rw [← hdv]
      constructor
      · rintro ⟨s2, hs2, hf2⟩
        rw [hs3] at hs2
        injection hs2 with hs2
        have h23 : s3 = s2 := by
          have := congrArg Prod.snd hs2
          simp only [ptrTo, Option.some.injEq, GoValue.ptr.injEq, GoValue.struct.injEq] at this
          exact this
        rw [← h23, hf3] at hf2
        exact hinj.mp hf2
      · intro e
        exact ⟨s3, hs3, by rw [hf3, e]⟩

/-- C20, at the zero `TestStruct` and a request whose lookup returns `Joe+S`
for `name` (the query `name=Joe%2BS`): the value is not stored verbatim. -/
theorem verbatim_iff_no_escape_witness :
    (getListOfParamNames (.struct (TestStructZero.map Field.decl))
        = .returned [("name", "Name"), ("is_cool", "IsCool"), ("counter", "Counter"),
            ("start", "Start")]
      ∧ FieldByName TestStructZero "Name"
        = some ⟨⟨"Name", [("param", "name")], .other .String, true⟩, .str ""⟩
      ∧ (getRequest "name=Joe%2BS").FormValue "name" = "Joe+S")
    ∧ (((setFieldValue Lib.sample TestStructZero "name" "Name" (getRequest "name=Joe%2BS")).2
          = none
        ∧ FieldByName (setFieldValue Lib.sample TestStructZero "name" "Name"
            (getRequest "name=Joe%2BS")).1 "Name"
          = some ⟨⟨"Name", [("param", "name")], .other .String, true⟩, .str "Joe+S"⟩)
      ↔ ('%' ∉ "Joe+S".data ∧ '+' ∉ "Joe+S".data))
    ∧ ((TestStructZero.map (fun x => x.decl.Name)).Nodup →
        (getRequest "name=Joe%2BS").ensureParsed.2 = none →
        (∀ e ∈ [("name", "Name"), ("is_cool", "IsCool"), ("counter", "Counter"),
            ("start", "Start")],
          e ≠ ("name", "Name") →
          (setFieldValue Lib.sample TestStructZero e.1 e.2 (getRequest "name=Joe%2BS")).2 = none) →
        ((∃ s2, UnmarshallRequestForm Lib.sample MapOrder.reversed (getRequest "name=Joe%2BS")
              (ptrTo TestStructZero) = .returned (none, ptrTo s2)
            ∧ FieldByName s2 "Name"
              = some ⟨⟨"Name", [("param", "name")], .other .String, true⟩, .str "Joe+S"⟩)
          ↔ ('%' ∉ "Joe+S".data ∧ '+' ∉ "Joe+S".data))) :=
  ⟨by decide,
   verbatim_iff_no_escape Lib.sample MapOrder.reversed (getRequest "name=Joe%2BS")
    TestStructZero
    [("name", "Name"), ("is_cool", "IsCool"), ("counter", "Counter"), ("start", "Start")]
    "name" "Name" ⟨⟨"Name", [("param", "name")], .other .String, true⟩, .str ""⟩ "Joe+S"
    (by decide) (by decide) (by decide) (by decide) (by decide) (by decide) (by decide)⟩

end Reqbin
